import Mathlib

/-!
# Verification of the Monad compiler front end

A shallow embedding in Lean 4 of the data model and operations of the
`monadc` compiler/REPL (C sources: `reader.c`, `main.c`, `types.h`,
`env.h`, the env implementation, and the type-model implementation).

Conventions used throughout:
* C strings are modelled as `List Char` (no NUL terminator; the C code's
  `s[i] == '\0'` tests become list-length / pattern-match tests).
* C `double` literal values are modelled exactly as `ℚ`; every numeric
  value the claims touch is a small integer, where `double` arithmetic
  is exact.
* LLVM handles (`LLVMValueRef`) are modelled as opaque `Nat` tokens.
* Functions that call `exit(1)` or print an error and return `NULL`
  are modelled with `Except String`.
-/

namespace Monadc


/-! ## Type kinds

From `types.h` (`TypeKind`): the closed set of value kinds.  The two
generations of the type model (`TYPE_FUNCTION`/`TYPE_GENERIC` in the old
variant, `TYPE_FN` in the current one) only differ on function types;
the scalar kinds the claims are about are identical, and we include a
single function-kind constructor `fn` plus `generic` for completeness. -/

inductive TypeKind where
  | unknown
  | int
  | float
  | char
  | string
  | hex
  | bin
  | oct
  | bool
  | fn
  | generic
  deriving DecidableEq, Repr, Fintype

/-- `type_is_numeric` from `main.c` (and its identical copy in the REPL
part of `types.h`): Int, Float, Hex, Bin, Oct, Char. -/
def type_is_numeric (t : TypeKind) : Bool :=
  t == TypeKind.int || t == TypeKind.float ||
  t == TypeKind.hex || t == TypeKind.bin || t == TypeKind.oct ||
  t == TypeKind.char

/-- `type_is_integer` from `main.c` (and its identical copy in the REPL
part of `types.h`): Int, Hex, Bin, Oct, Char. -/
def type_is_integer (t : TypeKind) : Bool :=
  t == TypeKind.int || t == TypeKind.hex ||
  t == TypeKind.bin || t == TypeKind.oct || t == TypeKind.char

/-- `type_is_float` from `main.c` / REPL: only Float. -/
def type_is_float (t : TypeKind) : Bool :=
  t == TypeKind.float

/-- A "special integer base" kind: Hex, Bin or Oct.  This is the
three-way disjunction tested by the mixing check in both engines. -/
def is_base_kind (t : TypeKind) : Bool :=
  t == TypeKind.hex || t == TypeKind.bin || t == TypeKind.oct

/-- The incompatible-mixing condition from the arithmetic fold in
`main.c` (`codegen_expr`, `+ - * /` branch) and in the REPL codegen of
`types.h`: both operand kinds lie in Hex/Bin/Oct and they differ. -/
def mixed_bases (a b : TypeKind) : Bool :=
  is_base_kind a && is_base_kind b && a != b

/-! ## Literal type inference

`infer_literal_type` from the current type-model implementation
(the `TYPE_FN`-generation `types.c`, the variant used together with the
env implementation carrying docstrings and arities that `main.c` and the
REPL code are written against).

The C check for an integral value with no literal string is
`value == (long long)value`; on the exact rational model a value is
unchanged by truncation to an integer exactly when its denominator is 1. -/

/-- The float-literal scan from `infer_literal_type`: walk the string
looking for `.`, `e` or `E`. -/
def has_float_mark : List Char → Bool
  | [] => false
  | c :: rest =>
      if c == '.' || c == 'e' || c == 'E' then true else has_float_mark rest

/-- `infer_literal_type(double value, const char *literal_str)`.
`none` models a NULL `literal_str`. -/
def infer_literal_type (value : ℚ) (literal_str : Option (List Char)) : TypeKind :=
  match literal_str with
  | none =>
      -- No string: check if value is integer (value == (long long)value)
      if value.den = 1 then TypeKind.int else TypeKind.float
  | some cs =>
      match cs with
      | c0 :: c1 :: _ =>
          if c0 == '0' && (c1 == 'x' || c1 == 'X') then TypeKind.hex
          else if c0 == '0' && (c1 == 'b' || c1 == 'B') then TypeKind.bin
          else if c0 == '0' && (c1 == 'o' || c1 == 'O') then TypeKind.oct
          else if has_float_mark cs then TypeKind.float
          else TypeKind.int
      | _ =>
          -- a string shorter than two characters can never pass the
          -- prefix tests (literal_str[1] is the NUL terminator)
          if has_float_mark cs then TypeKind.float
          else TypeKind.int

/-! ## Arithmetic promotion

The "Determine result type" block of the `+ - * /` fold.  `main.c`
(batch compiler) has an extra `else if (... == TYPE_INT)` arm before an
identical fallback; the REPL copy in `types.h` goes directly to the
fallback.  Both are embedded separately, exactly as written. -/

/-- Result-type selection of one reduction step in the batch compiler
(`main.c`, `codegen_expr`, arithmetic branch). -/
def promote_compile (lhs rhs : TypeKind) : TypeKind :=
  if type_is_float lhs || type_is_float rhs then TypeKind.float
  else if lhs == TypeKind.char || rhs == TypeKind.char then TypeKind.int
  else if lhs == rhs then lhs
  else if lhs == TypeKind.int || rhs == TypeKind.int then TypeKind.int
  else TypeKind.int

/-- Result-type selection of one reduction step in the REPL codegen
(`types.h`, arithmetic branch). -/
def promote_repl (lhs rhs : TypeKind) : TypeKind :=
  if type_is_float lhs || type_is_float rhs then TypeKind.float
  else if lhs == TypeKind.char || rhs == TypeKind.char then TypeKind.int
  else if lhs == rhs then lhs
  else TypeKind.int

/-- One reduction step of the arithmetic fold in the batch compiler:
the right operand must be numeric, then the mixing check runs, then the
promotion.  (The left operand is the running result type; the first
operand's numeric check is made by `arith_fold_compile`.) -/
def arith_step_compile (lhs rhs : TypeKind) : Except String TypeKind :=
  if !type_is_numeric rhs then
    Except.error "cannot perform arithmetic on type"
  else if mixed_bases lhs rhs then
    Except.error "cannot mix in arithmetic - ambiguous result type"
  else
    Except.ok (promote_compile lhs rhs)

/-- One reduction step of the arithmetic fold in the REPL codegen. -/
def arith_step_repl (lhs rhs : TypeKind) : Except String TypeKind :=
  if !type_is_numeric rhs then
    Except.error "cannot perform arithmetic on type"
  else if mixed_bases lhs rhs then
    Except.error "cannot mix in arithmetic"
  else
    Except.ok (promote_repl lhs rhs)

/-- The left fold over the remaining operand kinds
(`for (i = 2; i < count; i++)` in `main.c`). -/
def arith_fold_go_compile : TypeKind → List TypeKind → Except String TypeKind
  | acc, [] => Except.ok acc
  | acc, b :: bs =>
      match arith_step_compile acc b with
      | Except.error e => Except.error e
      | Except.ok c => arith_fold_go_compile c bs

/-- Result kind of a (non-unary) arithmetic call in the batch compiler,
given the inferred kinds of its operands: the first operand seeds the
running type (after its own numeric check), the rest fold left. -/
def arith_fold_compile (first : TypeKind) (rest : List TypeKind) : Except String TypeKind :=
  if !type_is_numeric first then
    Except.error "cannot perform arithmetic on type"
  else
    arith_fold_go_compile first rest

/-- The left fold over the remaining operand kinds in the REPL codegen. -/
def arith_fold_go_repl : TypeKind → List TypeKind → Except String TypeKind
  | acc, [] => Except.ok acc
  | acc, b :: bs =>
      match arith_step_repl acc b with
      | Except.error e => Except.error e
      | Except.ok c => arith_fold_go_repl c bs

/-- Result kind of a (non-unary) arithmetic call in the REPL codegen. -/
def arith_fold_repl (first : TypeKind) (rest : List TypeKind) : Except String TypeKind :=
  if !type_is_numeric first then
    Except.error "cannot perform arithmetic on type"
  else
    arith_fold_go_repl first rest



/-! ## Decidable equality for `Except` results -/

instance {ε α : Type} [DecidableEq ε] [DecidableEq α] :
    DecidableEq (Except ε α) := fun a b =>
  match a, b with
  | Except.ok x, Except.ok y =>
      if h : x = y then isTrue (by rw [h]) else
        isFalse (by intro hc; injection hc; contradiction)
  | Except.error x, Except.error y =>
      if h : x = y then isTrue (by rw [h]) else
        isFalse (by intro hc; injection hc; contradiction)
  | Except.ok _, Except.error _ => isFalse (by intro hc; injection hc)
  | Except.error _, Except.ok _ => isFalse (by intro hc; injection hc)

/-! ## Environment

The separate-chaining hash map from the env implementation
(`env.h` plus its `.c` file; both the plain variant and the
docstring/arity-carrying variant use the same DJB2 hash, the same
16-bucket table, the same first-match update and the same
prepend-and-count insertion).  Entry fields follow the richer
`EnvEntry` of `env.h`; `LLVMValueRef` handles are opaque `Nat`s. -/

inductive EntryKind where
  | var
  | builtin
  | func
  deriving DecidableEq, Repr

/-- `EnvParam` from `env.h` (name and declared type of one formal). -/
structure EnvParam where
  pname : Option (List Char)
  ptype : Option TypeKind
  deriving DecidableEq, Repr

/-- `EnvEntry` from `env.h`.  A freshly `calloc`ed entry has zeroed
fields with `arity_min = arity_max = -1` set by `new_entry`. -/
structure EnvEntry where
  name : List Char
  docstring : Option (List Char)
  kind : EntryKind
  type : Option TypeKind
  value : Nat
  arity_min : Int
  arity_max : Int
  func_ref : Nat
  params : List EnvParam
  return_type : Option TypeKind
  deriving DecidableEq, Repr

/-- The DJB2-style hash (`hash` in the env implementation):
`h = 5381; h = h*33 + c` over the bytes of the name, in a 32-bit
unsigned accumulator. -/
def hash_go : Nat → List Char → Nat
  | h, [] => h
  | h, c :: rest => hash_go ((h * 33 + c.toNat) % 2 ^ 32) rest

def hash_name (name : List Char) : Nat := hash_go 5381 name

/-- `INITIAL_SIZE` is 16 and the table never grows, so the bucket index
is always `hash(name) % 16`. -/
def bucket_index (name : List Char) : Nat := hash_name name % 16

/-- The environment: 16 chained buckets plus the entry count. -/
structure Env where
  buckets : List (List EnvEntry)
  count : Nat
  deriving DecidableEq, Repr

/-- `env_create`: 16 empty buckets, count 0. -/
def env_create : Env := ⟨List.replicate 16 [], 0⟩

/-- The chain walk of `find` / `env_lookup`: first entry in the bucket
whose name matches. -/
def bucket_find (name : List Char) : List EnvEntry → Option EnvEntry
  | [] => none
  | e :: rest => if e.name == name then some e else bucket_find name rest

/-- `env_lookup` / `find`: walk the chain of the hashed bucket. -/
def env_lookup (env : Env) (name : List Char) : Option EnvEntry :=
  bucket_find name (env.buckets.getD (bucket_index name) [])

/-- In-place update of the first matching entry, as done by
`env_insert_with_doc` when `find` succeeds: kind, type, value and
docstring are overwritten, every other field is left as it was. -/
def bucket_update_var (name : List Char) (type : Option TypeKind)
    (value : Nat) (doc : Option (List Char)) :
    List EnvEntry → List EnvEntry
  | [] => []
  | e :: rest =>
      if e.name == name then
        { e with kind := EntryKind.var, type := type, value := value,
                 docstring := doc } :: rest
      else e :: bucket_update_var name type value doc rest

/-- A fresh variable entry (`new_entry` + the `ENV_VAR` assignments). -/
def new_var_entry (name : List Char) (type : Option TypeKind) (value : Nat)
    (doc : Option (List Char)) : EnvEntry :=
  { name := name, docstring := doc, kind := EntryKind.var, type := type,
    value := value, arity_min := -1, arity_max := -1, func_ref := 0,
    params := [], return_type := none }

/-- `env_insert_with_doc`: update the first matching entry in place, or
prepend a fresh entry to the hashed bucket (`chain`) and bump the
count. -/
def env_insert_with_doc (env : Env) (name : List Char)
    (type : Option TypeKind) (value : Nat) (doc : Option (List Char)) : Env :=
  let idx := bucket_index name
  let b := env.buckets.getD idx []
  match bucket_find name b with
  | some _ =>
      { env with buckets := env.buckets.set idx (bucket_update_var name type value doc b) }
  | none =>
      { env with
          buckets := env.buckets.set idx (new_var_entry name type value doc :: b),
          count := env.count + 1 }

/-- `env_insert(table, name, type, value)` delegates to
`env_insert_with_doc` with a NULL docstring. -/
def env_insert (env : Env) (name : List Char) (type : Option TypeKind)
    (value : Nat) : Env :=
  env_insert_with_doc env name type value none

/-- Number of entries carrying a given name anywhere in the table. -/
def entries_named (env : Env) (name : List Char) : Nat :=
  (env.buckets.map (fun b => b.countP (fun e => e.name == name))).sum

/-- Well-formedness of an environment as maintained by the API: the
table has its 16 buckets, every entry sits in the bucket its name
hashes to, and no bucket chains two entries of the same name. -/
def env_wf (env : Env) : Prop :=
  env.buckets.length = 16 ∧
  (∀ i, ∀ e ∈ env.buckets.getD i [], bucket_index e.name = i) ∧
  (∀ i, (List.map EnvEntry.name (env.buckets.getD i [])).Nodup)

/-! ## The interactive evaluator's wrapper protocol (claim C5)

Control-flow skeleton of `repl_eval_line` (REPL part of `types.h`),
after a successful parse.  The LLVM calls are external collaborators;
their success/failure outcomes are the `Bool` inputs.  The live module
is modelled by the list of its function names:

* `LLVMAddFunction` appends the fresh wrapper name;
* when `codegen_expr` returns NULL the code calls
  `LLVMDeleteFunction(wrapper_fn)` and returns false;
* when `LLVMVerifyFunction` fails the code prints a diagnostic and
  returns false — without deleting the wrapper;
* when `LLVMGetFunctionAddress` returns NULL the code returns false;
* otherwise the wrapper runs and the call returns true. -/

def repl_eval_line (module : List (List Char)) (wrapper : List Char)
    (codegen_ok verify_ok addr_ok : Bool) :
    List (List Char) × Bool :=
  let module1 := module ++ [wrapper]
  if !codegen_ok then (module1.erase wrapper, false)
  else if !verify_ok then (module1, false)
  else if !addr_ok then (module1, false)
  else (module1, true)

/-! ## Exit codes of the batch compiler (claim C6)

Control-flow skeleton of `main` → `parse_flags` → `compile` in
`main.c` (current generation) and the flag parser.  Each `Bool` records
the outcome of one external step.  The code `exit(1)`s on: usage
errors (`parse_flags`), an unreadable input (`read_file`), any
lexer/parser diagnostic, an empty expression list, any lowering
diagnostic, and `LLVMGetTargetFromTriple` failure.  Failures of
`LLVMPrintModuleToFile`, `LLVMWriteBitcodeToFile`,
`LLVMTargetMachineEmitToFile` (assembly or object) and of the external
linker only print to stderr; control falls through and `main` returns
0. -/

structure CompileRun where
  emit_ir : Bool
  emit_bc : Bool
  emit_asm : Bool
  emit_obj : Bool
  open_ok : Bool
  parse_ok : Bool
  nonempty : Bool
  codegen_ok : Bool
  target_ok : Bool
  ir_write_ok : Bool
  bc_write_ok : Bool
  asm_write_ok : Bool
  obj_write_ok : Bool
  link_ok : Bool
  deriving DecidableEq, Repr

/-- The guard on target-machine creation in `compile`:
`emit_obj || emit_asm || (!emit_ir && !emit_bc)`. -/
def needs_target (r : CompileRun) : Bool :=
  r.emit_obj || r.emit_asm || (!r.emit_ir && !r.emit_bc)

/-- The guard on the linker invocation in `compile`:
no explicit artifact was requested. -/
def wants_link (r : CompileRun) : Bool :=
  !r.emit_ir && !r.emit_bc && !r.emit_obj && !r.emit_asm

/-- Process exit code of one run: `parse_flags` usage failures first,
then `compile`'s fatal paths in program order, else `main` returns 0. -/
def main_exit_code (usage_error : Bool) (r : CompileRun) : Nat :=
  if usage_error then 1
  else if !r.open_ok then 1
  else if !r.parse_ok then 1
  else if !r.nonempty then 1
  else if !r.codegen_ok then 1
  else if needs_target r && !r.target_ok then 1
  else 0

/-! ## REPL `define` and module globals (claim C10)

The variable branch of the REPL `define` (in `types.h`): after
lowering the value, the storage is found by
`LLVMGetNamedGlobal(module, var_name)`; only when no global of that
name exists yet is `LLVMAddGlobal` called.  The environment entry is
then replaced via `env_insert` (which carries the possibly new declared
type).  The module's named globals are modelled by their name list;
the REPL pre-creates the four format-string globals in `repl_init`. -/

/-- One REPL `define` of a variable, restricted to the module-global
and environment effects: reuse the named global when it exists,
otherwise add it; then `env_insert` the (new) declared type.  The
stored handle is opaque and modelled as 0. -/
def repl_define_step (globals : List (List Char)) (env : Env)
    (name : List Char) (final_type : TypeKind) :
    List (List Char) × Env :=
  ((if name ∈ globals then globals else globals ++ [name]),
   env_insert env name (some final_type) 0)

/-- A session: the `define`s of successive lines, threaded through the
persistent module-global list and environment. -/
def session_from : List (List Char × TypeKind) → List (List Char) → Env →
    List (List Char) × Env
  | [], globals, env => (globals, env)
  | (n, t) :: rest, globals, env =>
      session_from rest (repl_define_step globals env n t).1
        (repl_define_step globals env n t).2

/-- The global names present after `repl_init` (the four format-string
globals created before any input). -/
def repl_initial_globals : List (List Char) :=
  ["fmt_str".toList, "fmt_char".toList, "fmt_int".toList, "fmt_float".toList]

/-- A whole-session run from a fresh REPL. -/
def repl_session (defs : List (List Char × TypeKind)) :
    List (List Char) × Env :=
  session_from defs repl_initial_globals env_create

/-- Occurrences of one global name in the module's global-name list. -/
def count_name (l : List (List Char)) (x : List Char) : Nat :=
  l.countP (fun y => y == x)

/-- The declared type of the *last* `define` of `name`, if any. -/
def last_type : List (List Char × TypeKind) → List Char → Option TypeKind
  | [], _ => none
  | (n, t) :: rest, name =>
      match last_type rest name with
      | some t' => some t'
      | none => if n = name then some t else none

/-! ## AST

The node model of `reader.c` (current generation, with lambda nodes).
Source spans (line/column fields) carry no information the claims are
about and are omitted; "structural equality up to whitespace" is
equality of these span-free trees. -/

/-- A formal parameter in a parsed signature (`ASTParam` in the
reader): a name and an optional type-annotation text. -/
structure ASTParam where
  name : List Char
  type_name : Option (List Char)
  deriving DecidableEq, Repr

inductive AST where
  | number (value : ℚ) (literal_str : Option (List Char))
  | symbol (name : List Char)
  | string (s : List Char)
  | char (c : Char)
  | list (items : List AST)
  | lambda (params : List ASTParam) (return_type : Option (List Char))
      (docstring : Option (List Char)) (body : AST)
  deriving Repr

/-! ## Number-text parsing (`parse_number_str` in `reader.c`)

`strtol` and `atof` are C-library collaborators; they are modelled on
exactly the token shapes the lexer can hand them: base-prefixed digit
runs, and decimal runs of digits and dots with an optional leading
minus (the lexer never emits exponents or whitespace inside a number
token).  Values are exact rationals; every value the claims touch is a
small integer, where `double` arithmetic is exact. -/

/-- Numeric value of one hex digit (`0-9a-fA-F`). -/
def hex_digit_val (c : Char) : Option Nat :=
  if '0' ≤ c ∧ c ≤ '9' then some (c.toNat - 48)
  else if 'a' ≤ c ∧ c ≤ 'f' then some (c.toNat - 97 + 10)
  else if 'A' ≤ c ∧ c ≤ 'F' then some (c.toNat - 65 + 10)
  else none

/-- `strtol`-style digit accumulation in a given base, stopping at the
first character that is not a digit of the base. -/
def strtol_digits (base : Nat) : List Char → Nat → Nat
  | [], acc => acc
  | c :: r, acc =>
      match hex_digit_val c with
      | some d => if d < base then strtol_digits base r (acc * base + d) else acc
      | none => acc

/-- `is_digit` from the lexer. -/
def is_digit (c : Char) : Bool := '0' ≤ c && c ≤ '9'

/-- `is_hex_digit` from the lexer. -/
def is_hex_digit (c : Char) : Bool :=
  is_digit c || ('a' ≤ c && c ≤ 'f') || ('A' ≤ c && c ≤ 'F')

/-- `is_symbol_char` from the lexer. -/
def is_symbol_char (c : Char) : Bool :=
  ('a' ≤ c && c ≤ 'z') || ('A' ≤ c && c ≤ 'Z') || ('0' ≤ c && c ≤ '9') ||
  c == '-' || c == '+' || c == '*' || c == '/' ||
  c == '<' || c == '>' || c == '=' || c == '!' ||
  c == '?' || c == '_' || c == ':'

/-- Integer part of a decimal token: leading digit run and the rest. -/
def dec_int_part : List Char → Nat → Nat × List Char
  | [], acc => (acc, [])
  | c :: r, acc =>
      if is_digit c then dec_int_part r (acc * 10 + (c.toNat - 48))
      else (acc, c :: r)

/-- Fractional digit run after the dot: `d₁d₂… ↦ Σ dᵢ/10^i`, stopping
at the first non-digit (as `atof` does at a second dot). -/
def dec_frac_part : List Char → ℚ
  | [] => 0
  | c :: r =>
      if is_digit c then (((c.toNat - 48 : Nat) : ℚ) + dec_frac_part r) / 10
      else 0

/-- `atof` on an unsigned decimal token. -/
def atof_unsigned (s : List Char) : ℚ :=
  let (ip, rest) := dec_int_part s 0
  match rest with
  | '.' :: r2 => (ip : ℚ) + dec_frac_part r2
  | _ => (ip : ℚ)

/-- `atof` on the decimal tokens the lexer produces. -/
def atof_model : List Char → ℚ
  | '-' :: r => -(atof_unsigned r)
  | s => atof_unsigned s

/-- `parse_number_str` from `reader.c`: bases 16, 2 and 8 via `strtol`
(base 16 consumes the `0x` prefix itself), decimal via `atof`. -/
def parse_number_str (s : List Char) : ℚ :=
  match s with
  | c0 :: c1 :: rest =>
      if c0 = '0' ∧ (c1 = 'x' ∨ c1 = 'X') then (strtol_digits 16 rest 0 : ℚ)
      else if c0 = '0' ∧ (c1 = 'b' ∨ c1 = 'B') then (strtol_digits 2 rest 0 : ℚ)
      else if c0 = '0' ∧ (c1 = 'o' ∨ c1 = 'O') then (strtol_digits 8 rest 0 : ℚ)
      else atof_model s
  | s => atof_model s

/-- Truncation of a `double` value to `long long` (`(long long)d`
rounds toward zero); exact on the rational model. -/
def ll_trunc (v : ℚ) : Int :=
  if 0 ≤ v then v.floor else -((-v).floor)

/-! ## Decimal / based rendering (printf formatters, `__print_binary`)

The digit writers for `%ld`, `0x%lX`, `0o%lo` and the hand-rolled
binary printer.  They use structural fuel (`n + 1` steps always
suffice) so that concrete evaluation reduces in the kernel. -/

def digit_char (d : Nat) : Char :=
  if d < 10 then Char.ofNat (48 + d) else Char.ofNat (97 + d - 10)

def digit_char_upper (d : Nat) : Char :=
  if d < 10 then Char.ofNat (48 + d) else Char.ofNat (65 + d - 10)

def nat_digits_aux (dig : Nat → Char) (base : Nat) : Nat → Nat → List Char
  | 0, _ => []
  | fuel + 1, n =>
      if n < base then [dig n]
      else nat_digits_aux dig base fuel (n / base) ++ [dig (n % base)]

/-- Digits of `n` in `base`, most significant first; `"0"` for zero. -/
def nat_to_base (dig : Nat → Char) (base n : Nat) : List Char :=
  nat_digits_aux dig base (n + 1) n

/-- Signed decimal rendering (`%ld`). -/
def int_to_dec (n : Int) : List Char :=
  if n < 0 then '-' :: nat_to_base digit_char 10 n.natAbs
  else nat_to_base digit_char 10 n.natAbs

/-- The 64-bit two's-complement bit pattern of an `i64` value. -/
def to_u64 (n : Int) : Nat := (n % (2 ^ 64 : Int)).toNat

/-- Modelled from the C library: printf `%g` (an external
collaborator).  For an integral value of magnitude below 10^6, `%g`
prints the plain decimal digits.  Every other `double` rendering under
`%g` (fractional or scientific) contains a `.` or an `e`; no claim
depends on its exact digits, so it is represented by a placeholder that
keeps that one property. -/
def g_format (v : ℚ) : List Char :=
  if v.den = 1 ∧ v.num.natAbs < 1000000 then int_to_dec v.num
  else ['?', '.', '?']

/-! ## `show` formatter dispatch (claim C3)

The printf formatter selected by the `show` special form for a lowered
argument, per engine.  `main.c` (batch) dispatches Hex/Bin/Oct to their
dedicated formatters; the REPL copy in `types.h` only distinguishes
integer-kinded from other results. -/

inductive Fmt where
  | str    -- "%s\n"
  | chr    -- "%c\n"
  | int    -- "%ld\n"
  | float  -- "%g\n"
  | hex    -- "0x%lX\n"
  | oct    -- "0o%lo\n"
  | bin    -- the emitted __print_binary function
  deriving DecidableEq, Repr

/-- Batch `show`, expression branch (`main.c`): the argument was
lowered to `arg_result` and its type picks the formatter. -/
def show_expr_fmt_compile : Option TypeKind → Fmt
  | some TypeKind.hex => Fmt.hex
  | some TypeKind.bin => Fmt.bin
  | some TypeKind.oct => Fmt.oct
  | some k => if type_is_integer k then Fmt.int else Fmt.float
  | none => Fmt.float

/-- Batch `show`, bound-symbol branch (`main.c`). -/
def show_symbol_fmt_compile (k : TypeKind) : Fmt :=
  match k with
  | TypeKind.char => Fmt.chr
  | TypeKind.string => Fmt.str
  | TypeKind.hex => Fmt.hex
  | TypeKind.bin => Fmt.bin
  | TypeKind.oct => Fmt.oct
  | TypeKind.int => Fmt.int
  | _ => Fmt.float

/-- REPL `show`, expression branch (`types.h`): only the
integer/float distinction exists. -/
def show_expr_fmt_repl : Option TypeKind → Fmt
  | some k => if type_is_integer k then Fmt.int else Fmt.float
  | none => Fmt.float

/-- REPL `show`, bound-symbol branch (`types.h`). -/
def show_symbol_fmt_repl (k : TypeKind) : Fmt :=
  match k with
  | TypeKind.char => Fmt.chr
  | TypeKind.string => Fmt.str
  | k => if type_is_integer k then Fmt.int else Fmt.float

/-- Output of an integer-valued formatter on an `i64` payload.
`%ld` prints signed decimal; `%lX`/`%lo` print the unsigned bit
pattern; `__print_binary` prints `0b` + the bits of the pattern with
leading zeros suppressed and a bare `0` for zero — exactly the binary
digits of the pattern.  Non-numeric formatters take no `i64`. -/
def render_show (f : Fmt) (n : Int) : Option (List Char) :=
  match f with
  | Fmt.int => some (int_to_dec n ++ ['\n'])
  | Fmt.hex => some ('0' :: 'x' :: nat_to_base digit_char_upper 16 (to_u64 n) ++ ['\n'])
  | Fmt.oct => some ('0' :: 'o' :: nat_to_base digit_char 8 (to_u64 n) ++ ['\n'])
  | Fmt.bin => some ('0' :: 'b' :: nat_to_base digit_char 2 (to_u64 n) ++ ['\n'])
  | _ => none

/-- End-to-end output of the batch program `(show <numeric literal>)`:
the reader attaches the lexeme and its `parse_number_str` value; batch
codegen lowers the number with `infer_literal_type(value, lexeme)` and
an `i64` constant `(long long)value`; the expression branch of `show`
picks the formatter from that type. -/
def show_number_output_compile (lexeme : List Char) : Option (List Char) :=
  let v := parse_number_str lexeme
  render_show (show_expr_fmt_compile (some (infer_literal_type v (some lexeme))))
    (ll_trunc v)

/-- End-to-end output of the REPL line `(show <numeric literal>)`: the
REPL `show` expression branch lowers the argument with a NULL
`literal_str` (`ASTWithType arg_typed = {arg, NULL, NULL}`), so the
type is inferred from the value alone, and only `%ld`/`%g` are
available. -/
def show_number_output_repl (lexeme : List Char) : Option (List Char) :=
  let v := parse_number_str lexeme
  render_show (show_expr_fmt_repl (some (infer_literal_type v none)))
    (ll_trunc v)

/-! ## Type annotations and further environment operations -/

/-- The fixed type-name table, shared by annotation parsing
(`parse_type_annotation`), lambda parameter types and return types
(`main.c`). -/
def resolve_type_name (tn : List Char) : Option TypeKind :=
  if tn = "Int".toList then some TypeKind.int
  else if tn = "Float".toList then some TypeKind.float
  else if tn = "Char".toList then some TypeKind.char
  else if tn = "String".toList then some TypeKind.string
  else if tn = "Bool".toList then some TypeKind.bool
  else if tn = "Hex".toList then some TypeKind.hex
  else if tn = "Bin".toList then some TypeKind.bin
  else if tn = "Oct".toList then some TypeKind.oct
  else none

/-- The scan of `parse_type_annotation` (current generation): walk the
bracket-list for a `::` symbol; the next item must be a symbol naming a
table type; the scan stops at the first `::` either way. -/
def annot_scan : List AST → Option TypeKind
  | [] => none
  | item :: rest =>
      match item with
      | AST.symbol s =>
          if s = "::".toList then
            match rest with
            | tynode :: _ =>
                match tynode with
                | AST.symbol tn => resolve_type_name tn
                | _ => none
            | [] => none
          else annot_scan rest
      | _ => annot_scan rest

/-- `parse_type_annotation(AST*)`: only list nodes carry annotations. -/
def parse_type_annot (a : AST) : Option TypeKind :=
  match a with
  | AST.list items => annot_scan items
  | _ => none

/-- `check_arity` from the REPL part of `types.h`: a missing entry or
`arity_min < 0` passes; otherwise the argument count must lie between
the bounds (`arity_max < 0` = unbounded).  The C function prints the
diagnostic and returns false; here only the verdict matters. -/
def check_arity (entry : Option EnvEntry) (argc : Nat) : Bool :=
  match entry with
  | none => true
  | some e =>
      if e.arity_min < 0 then true
      else if (argc : Int) < e.arity_min then false
      else if 0 ≤ e.arity_max ∧ e.arity_max < (argc : Int) then false
      else true

/-- In-place update by `env_insert_builtin` when `find` succeeds: only
kind and the arity bounds are overwritten. -/
def bucket_update_builtin (name : List Char) (amin amax : Int) :
    List EnvEntry → List EnvEntry
  | [] => []
  | e :: rest =>
      if e.name == name then
        { e with kind := EntryKind.builtin, arity_min := amin,
                 arity_max := amax } :: rest
      else e :: bucket_update_builtin name amin amax rest

/-- `env_insert_builtin` from the env implementation. -/
def env_insert_builtin (env : Env) (name : List Char) (amin amax : Int) : Env :=
  let idx := bucket_index name
  let b := env.buckets.getD idx []
  match bucket_find name b with
  | some _ =>
      { env with buckets := env.buckets.set idx (bucket_update_builtin name amin amax b) }
  | none =>
      { env with
          buckets := env.buckets.set idx
            ({ name := name, docstring := none, kind := EntryKind.builtin,
               type := none, value := 0, arity_min := amin, arity_max := amax,
               func_ref := 0, params := [], return_type := none } :: b),
          count := env.count + 1 }

/-- In-place update by `env_insert_func` when `find` succeeds: the old
fields are freed and every function field reassigned (the entry keeps
its name and its `value` slot); the stored type becomes the placeholder
`Fn` type. -/
def bucket_update_func (name : List Char) (params : List EnvParam)
    (ret : Option TypeKind) (fref : Nat) (doc : Option (List Char)) :
    List EnvEntry → List EnvEntry
  | [] => []
  | e :: rest =>
      if e.name == name then
        { e with kind := EntryKind.func, params := params,
                 return_type := ret, func_ref := fref,
                 arity_min := (params.length : Int),
                 arity_max := (params.length : Int),
                 docstring := doc, type := some TypeKind.fn } :: rest
      else e :: bucket_update_func name params ret fref doc rest

/-- `env_insert_func` from the env implementation: create or replace as
a user function with `arity_min = arity_max = |params|`. -/
def env_insert_func (env : Env) (name : List Char) (params : List EnvParam)
    (ret : Option TypeKind) (fref : Nat) (doc : Option (List Char)) : Env :=
  let idx := bucket_index name
  let b := env.buckets.getD idx []
  match bucket_find name b with
  | some _ =>
      { env with buckets := env.buckets.set idx (bucket_update_func name params ret fref doc b) }
  | none =>
      { env with
          buckets := env.buckets.set idx
            ({ name := name, docstring := doc, kind := EntryKind.func,
               type := some TypeKind.fn, value := 0,
               arity_min := (params.length : Int),
               arity_max := (params.length : Int),
               func_ref := fref, params := params, return_type := ret } :: b),
          count := env.count + 1 }

/-! ## Typed lowering, batch compiler (claims C9, C2, C3)

Type-level embedding of `codegen_expr` from `main.c` (current
generation): every branch returns the `CodegenResult.type` the C code
computes and threads the environment, which `define` mutates.  Value
computation (LLVM instruction emission) has no influence on control
flow apart from the diagnostics modelled here. -/

/-- Parameter-type resolution of a lambda under `define` (`main.c`):
annotated types go through the fixed table (unknown names are fatal),
missing annotations default to Float. -/
def resolve_params : List ASTParam → Except String (List EnvParam)
  | [] => Except.ok []
  | p :: rest =>
      match p.type_name with
      | some tn =>
          match resolve_type_name tn with
          | some t =>
              match resolve_params rest with
              | Except.ok eps => Except.ok ({ pname := some p.name, ptype := some t } :: eps)
              | Except.error e => Except.error e
          | none => Except.error "unknown type"
      | none =>
          match resolve_params rest with
          | Except.ok eps => Except.ok ({ pname := some p.name, ptype := some TypeKind.float } :: eps)
          | Except.error e => Except.error e

/-- Return-type resolution of a lambda under `define` (`main.c`):
table lookup, default Float, unknown names fatal. -/
def resolve_ret : Option (List Char) → Except String TypeKind
  | some tn =>
      match resolve_type_name tn with
      | some t => Except.ok t
      | none => Except.error "unknown return type"
  | none => Except.ok TypeKind.float

/-- The fresh function-body environment (`main.c`): `env_create()` —
not chained to the enclosing frame — with each formal inserted as a
variable of its declared type. -/
def param_env (eps : List EnvParam) : Env :=
  eps.foldl (fun env p =>
    match p.pname with
    | some pn => env_insert env pn p.ptype 0
    | none => env) env_create

/-- Name resolution of a batch `define` (`main.c`): a symbol, or a
bracket-annotation `[name :: T]` whose first item must be a symbol. -/
def define_name_compile : AST → Except String (List Char × Option TypeKind)
  | AST.list nitems =>
      (match parse_type_annot (AST.list nitems) with
       | some ty =>
           (match nitems with
            | AST.symbol vn :: _ => Except.ok (vn, some ty)
            | _ :: _ => Except.error "'define' invalid name format"
            | [] => Except.error "'define' name must be symbol or type annotation")
       | none => Except.error "'define' name must be symbol or type annotation")
  | AST.symbol vn => Except.ok (vn, none)
  | _ => Except.error "'define' name must be symbol or type annotation"

mutual

def codegen_compile : Env → AST → Except String (TypeKind × Env)
  | env, AST.number v lit => Except.ok (infer_literal_type v lit, env)
  | env, AST.char _ => Except.ok (TypeKind.char, env)
  | env, AST.symbol s =>
      -- the batch symbol branch takes the entry's declared type
      -- without inspecting the entry kind
      (match env_lookup env s with
       | none => Except.error "unbound variable"
       | some e => Except.ok (e.type.getD TypeKind.unknown, env))
  | env, AST.string _ => Except.ok (TypeKind.string, env)
  | _, AST.lambda _ _ _ _ =>
      -- a bare lambda reaches the default arm of the C switch
      Except.error "unknown AST type"
  | _, AST.list [] => Except.error "empty list not supported"
  | env, AST.list (head :: args) =>
      match head with
      | AST.symbol s =>
          if s = "define".toList then
            match args with
            | name_expr :: AST.lambda params ret doc body :: _ =>
                -- list.count ≥ 3; a lambda value defines a function
                (match define_name_compile name_expr with
                 | Except.error e => Except.error e
                 | Except.ok (vn, _) =>
                     match resolve_params params with
                     | Except.error e => Except.error e
                     | Except.ok eps =>
                         match resolve_ret ret with
                         | Except.error e => Except.error e
                         | Except.ok rt =>
                             -- the body is lowered under a fresh frame
                             -- holding only the formals
                             (match codegen_compile (param_env eps) body with
                              | Except.error e => Except.error e
                              | Except.ok _ =>
                                  Except.ok (TypeKind.float,
                                    env_insert_func env vn eps (some rt) 0 doc)))
            | name_expr :: value_expr :: _ =>
                -- variable definition: lower the value, store under the
                -- explicit or inferred type
                (match define_name_compile name_expr with
                 | Except.error e => Except.error e
                 | Except.ok (vn, explicit) =>
                     match codegen_compile env value_expr with
                     | Except.error e => Except.error e
                     | Except.ok (tv, env1) =>
                         let final := explicit.getD tv
                         Except.ok (final, env_insert env1 vn (some final) 0))
            | _ => Except.error "'define' requires at least 2 arguments"
          else if s = "show".toList then
            match args with
            | [arg] =>
                (match arg with
                 | AST.list (AST.symbol q :: qrest) =>
                     if q = "quote".toList then
                       -- quoted payload is printed structurally, never lowered
                       Except.ok (TypeKind.float, env)
                     else
                       (match codegen_compile env (AST.list (AST.symbol q :: qrest)) with
                        | Except.ok (_, env') => Except.ok (TypeKind.float, env')
                        | Except.error e => Except.error e)
                 | AST.string _ => Except.ok (TypeKind.float, env)
                 | AST.char _ => Except.ok (TypeKind.float, env)
                 | AST.symbol sn =>
                     (match env_lookup env sn with
                      | none => Except.error "unbound variable"
                      | some _ => Except.ok (TypeKind.float, env))
                 | arg =>
                     (match codegen_compile env arg with
                      | Except.ok (_, env') => Except.ok (TypeKind.float, env')
                      | Except.error e => Except.error e))
            | _ => Except.error "'show' requires 1 argument"
          else if s = "+".toList ∨ s = "-".toList ∨ s = "*".toList ∨ s = "/".toList then
            match args with
            | [] => Except.error "requires at least 1 argument"
            | a1 :: rest =>
                (match codegen_compile env a1 with
                 | Except.error e => Except.error e
                 | Except.ok (t1, env1) =>
                     if !type_is_numeric t1 then
                       Except.error "cannot perform arithmetic on type"
                     else if s = "-".toList ∧ rest.isEmpty then
                       Except.ok (t1, env1)
                     else if s = "/".toList ∧ rest.isEmpty then
                       Except.ok ((if type_is_float t1 then t1 else TypeKind.float), env1)
                     else
                       codegen_arith_fold_compile env1 t1 rest)
          else
            match env_lookup env s with
            | some e =>
                if e.kind = EntryKind.var then
                  Except.error "is a variable, not a function"
                else if e.kind = EntryKind.func then
                  if args.length ≠ e.params.length then
                    Except.error "function expects arguments"
                  else
                    (match codegen_args_compile env args with
                     | Except.ok env' =>
                         Except.ok (e.return_type.getD TypeKind.unknown, env')
                     | Except.error er => Except.error er)
                else Except.error "unknown function"
            | none => Except.error "unknown function"
      | _ => Except.error "function call requires symbol in head position"

/-- The arithmetic fold of `main.c`: each further operand is lowered
(threading the environment) and folded through `arith_step_compile`. -/
def codegen_arith_fold_compile : Env → TypeKind → List AST →
    Except String (TypeKind × Env)
  | env, acc, [] => Except.ok (acc, env)
  | env, acc, a :: rest =>
      match codegen_compile env a with
      | Except.error e => Except.error e
      | Except.ok (tb, env') =>
          match arith_step_compile acc tb with
          | Except.error e => Except.error e
          | Except.ok c => codegen_arith_fold_compile env' c rest

/-- Sequential lowering of user-call arguments (`main.c`). -/
def codegen_args_compile : Env → List AST → Except String Env
  | env, [] => Except.ok env
  | env, a :: rest =>
      match codegen_compile env a with
      | Except.error e => Except.error e
      | Except.ok (_, env') => codegen_args_compile env' rest

end

/-! ## Typed lowering, interactive evaluator (claims C9, C2, C3)

Type-level embedding of the REPL `codegen_expr` (in `types.h`).  The
extra `lit` argument is `ASTWithType.literal_str`: the number case
infers its type from **that** string, and the callers differ in what
they pass — the top level and `define` pass the node's source lexeme,
the arithmetic fold passes a fresh `%g` rendering of the value, and
`show`'s expression branch and user-call arguments pass NULL.  The
module-global bookkeeping of `define` is modelled separately
(`repl_define_step`); here the environment carries the type effects. -/

/-- The literal string the REPL arithmetic fold passes for an operand:
`snprintf(tmp, "%g", item->number)` for numbers, NULL otherwise. -/
def repl_operand_lit : AST → Option (List Char)
  | AST.number v _ => some (g_format v)
  | _ => none

/-- The literal string the REPL `define` passes for its value
expression: the node's own lexeme when present. -/
def repl_define_lit : AST → Option (List Char)
  | AST.number _ (some l) => some l
  | _ => none

/-- Name resolution of a REPL `define` (`types.h`): a symbol, or a
bracket-annotation whose first item must be a symbol. -/
def define_name_repl : AST → Except String (List Char × Option TypeKind)
  | AST.list nitems =>
      (match parse_type_annot (AST.list nitems) with
       | some ty =>
           (match nitems with
            | AST.symbol vn :: _ => Except.ok (vn, some ty)
            | _ => Except.error "bad type annotation in 'define'")
       | none => Except.error "bad type annotation in 'define'")
  | AST.symbol vn => Except.ok (vn, none)
  | _ => Except.error "'define' name must be a symbol or type annotation"

mutual

def codegen_repl : Env → Option (List Char) → AST →
    Except String (TypeKind × Env)
  | env, lit, AST.number v _ => Except.ok (infer_literal_type v lit, env)
  | env, _, AST.char _ => Except.ok (TypeKind.char, env)
  | env, _, AST.symbol s =>
      -- the REPL symbol branch requires an ENV_VAR entry
      (match env_lookup env s with
       | some e =>
           if e.kind = EntryKind.var then
             Except.ok (e.type.getD TypeKind.unknown, env)
           else Except.error "unbound variable"
       | none => Except.error "unbound variable")
  | env, _, AST.string _ => Except.ok (TypeKind.string, env)
  | _, _, AST.lambda _ _ _ _ => Except.error "unknown AST node type"
  | _, _, AST.list [] => Except.error "empty list"
  | env, _, AST.list (head :: args) =>
      match head with
      | AST.symbol s =>
          if s = "quote".toList then
            if args.length ≠ 1 then
              Except.error "'quote' requires exactly 1 argument"
            else Except.ok (TypeKind.float, env)
          else if s = "define".toList then
            match args with
            | name_expr :: value_expr :: _ =>
                (match define_name_repl name_expr with
                 | Except.error e => Except.error e
                 | Except.ok (vn, explicit) =>
                     -- lower the value with its own lexeme as literal
                     -- string, then store under the explicit or
                     -- inferred type (storage global reuse is modelled
                     -- by repl_define_step)
                     match codegen_repl env (repl_define_lit value_expr) value_expr with
                     | Except.error e => Except.error e
                     | Except.ok (tv, env1) =>
                         let final := explicit.getD tv
                         Except.ok (final, env_insert env1 vn (some final) 0))
            | _ => Except.error "'define' requires at least 2 arguments"
          else if s = "show".toList then
            if !check_arity (env_lookup env ("show".toList)) args.length then
              Except.error "arity check failed"
            else
              match args with
              | [] =>
                  -- unreachable with the registered (1,1) builtin: the C
                  -- code would read items[1] out of bounds
                  Except.error "missing 'show' argument"
              | arg :: _ =>
                  (match arg with
                   | AST.list (AST.symbol q :: qrest) =>
                       if q = "quote".toList then Except.ok (TypeKind.float, env)
                       else
                         (match codegen_repl env none (AST.list (AST.symbol q :: qrest)) with
                          | Except.ok (_, env') => Except.ok (TypeKind.float, env')
                          | Except.error e => Except.error e)
                   | AST.string _ => Except.ok (TypeKind.float, env)
                   | AST.char _ => Except.ok (TypeKind.float, env)
                   | AST.symbol sn =>
                       (match env_lookup env sn with
                        | some e =>
                            if e.kind = EntryKind.var then Except.ok (TypeKind.float, env)
                            else Except.error "unbound variable"
                        | none => Except.error "unbound variable")
                   | arg =>
                       -- expression branch: arg_typed.literal_str is NULL
                       (match codegen_repl env none arg with
                        | Except.ok (_, env') => Except.ok (TypeKind.float, env')
                        | Except.error e => Except.error e))
          else if s = "+".toList ∨ s = "-".toList ∨ s = "*".toList ∨ s = "/".toList then
            if !check_arity (env_lookup env s) args.length then
              Except.error "arity check failed"
            else
              match args with
              | [] => Except.error "missing operand"
              | a1 :: rest =>
                  (match codegen_repl env (repl_operand_lit a1) a1 with
                   | Except.error e => Except.error e
                   | Except.ok (t1, env1) =>
                       if !type_is_numeric t1 then
                         Except.error "cannot perform arithmetic on type"
                       else if s = "-".toList ∧ rest.isEmpty then
                         Except.ok (t1, env1)
                       else if s = "/".toList ∧ rest.isEmpty then
                         Except.ok ((if type_is_float t1 then t1 else TypeKind.float), env1)
                       else
                         codegen_arith_fold_repl env1 t1 rest)
          else
            match env_lookup env s with
            | some e =>
                if e.kind = EntryKind.func then
                  if !check_arity (some e) args.length then
                    Except.error "arity check failed"
                  else
                    (match codegen_args_repl env args with
                     | Except.ok env' =>
                         Except.ok (e.return_type.getD TypeKind.unknown, env')
                     | Except.error er => Except.error er)
                else Except.error "unknown function"
            | none => Except.error "unknown function"
      | _ => Except.error "function call requires a symbol in head position"

/-- The REPL arithmetic fold: each operand's literal string is its `%g`
rendering, then `arith_step_repl`. -/
def codegen_arith_fold_repl : Env → TypeKind → List AST →
    Except String (TypeKind × Env)
  | env, acc, [] => Except.ok (acc, env)
  | env, acc, a :: rest =>
      match codegen_repl env (repl_operand_lit a) a with
      | Except.error e => Except.error e
      | Except.ok (tb, env') =>
          match arith_step_repl acc tb with
          | Except.error e => Except.error e
          | Except.ok c => codegen_arith_fold_repl env' c rest

/-- Sequential lowering of user-call arguments in the REPL (their
`ASTWithType.literal_str` is NULL). -/
def codegen_args_repl : Env → List AST → Except String Env
  | env, [] => Except.ok env
  | env, a :: rest =>
      match codegen_repl env none a with
      | Except.error e => Except.error e
      | Except.ok (_, env') => codegen_args_repl env' rest

end

/-! ## Lexer (`reader.c`, claim C8)

`lexer_next_token` over the remaining input, translated check for
check in the C's order.  Positions are dropped (they carry no content);
the NUL terminator becomes the end of the list. -/

inductive Token where
  | lparen
  | rparen
  | lbracket
  | rbracket
  | symbol (v : List Char)
  | number (v : List Char)
  | string (v : List Char)
  | charTok (c : Char)
  | quote
  | arrow
  deriving DecidableEq, Repr

/-- The escape decoding of character literals (`n t r \ ' 0`); any
other escaped character stands for itself. -/
def decode_escape (e : Char) : Char :=
  if e = 'n' then '\n'
  else if e = 't' then '\t'
  else if e = 'r' then '\r'
  else if e = '\\' then '\\'
  else if e = '\'' then '\''
  else if e = '0' then Char.ofNat 0
  else e

/-- Is this one of the four whitespace bytes `skip_whitespace` eats? -/
def is_ws (c : Char) : Bool :=
  c == ' ' || c == '\t' || c == '\n' || c == '\r'

mutual

/-- The whitespace/comment loop at the top of `lexer_next_token`:
`skip_whitespace` then repeatedly `skip_line_comment` +
`skip_whitespace` while a `;` is next. -/
def skip_all : List Char → List Char
  | [] => []
  | c :: r => if is_ws c then skip_all r
      else if c = ';' then skip_comment r
      else c :: r

/-- `skip_line_comment`: discard up to (and here including, since it is
whitespace) the next newline. -/
def skip_comment : List Char → List Char
  | [] => []
  | c :: r => if c = '\n' then skip_all r else skip_comment r

end

/-- The string-literal scan: collect bytes until the next unescaped
`"` (a backslash keeps itself and the following byte — the payload is
the raw slice, no unescaping happens), returning the payload and the
input after the closing quote. -/
def scan_string : List Char → List Char × List Char
  | [] => ([], [])
  | c :: r =>
      if c = '"' then ([], r)
      else if c = '\\' then
        match r with
        | [] => (['\\'], [])
        | c2 :: r2 =>
            let (p, rem) := scan_string r2
            ('\\' :: c2 :: p, rem)
      else
        let (p, rem) := scan_string r
        (c :: p, rem)

/-- Longest matching run, as the lexer's `while (pred(peek)) advance`
loops. -/
def take_run (p : Char → Bool) : List Char → List Char × List Char
  | [] => ([], [])
  | c :: r =>
      if p c then
        let (run, rest) := take_run p r
        (c :: run, rest)
      else ([], c :: r)

/-- A digit or dot, for the decimal-number run. -/
def is_dec_char (c : Char) : Bool := is_digit c || c == '.'

/-- A binary digit. -/
def is_bin_char (c : Char) : Bool := c == '0' || c == '1'

/-- An octal digit. -/
def is_oct_char (c : Char) : Bool := '0' ≤ c && c ≤ '7'

/-- One step of `lexer_next_token`: the next token (`none` = end of
input) and the remaining characters.  Pattern order mirrors the C's
check order; an unexpected byte is the lexer's fatal diagnostic. -/
def next_token (input : List Char) : Except String (Option Token × List Char) :=
  match skip_all input with
  | [] => Except.ok (none, [])
  | '-' :: '>' :: r => Except.ok (some Token.arrow, r)
  | '(' :: r => Except.ok (some Token.lparen, r)
  | ')' :: r => Except.ok (some Token.rparen, r)
  | '[' :: r => Except.ok (some Token.lbracket, r)
  | ']' :: r => Except.ok (some Token.rbracket, r)
  | '\'' :: '\\' :: e :: '\'' :: r =>
      Except.ok (some (Token.charTok (decode_escape e)), r)
  | '\'' :: c :: '\'' :: r =>
      if c ≠ '\\' ∧ c ≠ '\'' then Except.ok (some (Token.charTok c), r)
      else Except.ok (some Token.quote, c :: '\'' :: r)
  | '\'' :: r => Except.ok (some Token.quote, r)
  | '"' :: r =>
      let (p, rem) := scan_string r
      Except.ok (some (Token.string p), rem)
  | '0' :: x :: r =>
      if x = 'x' ∨ x = 'X' then
        let (run, rest) := take_run is_hex_digit r
        Except.ok (some (Token.number ('0' :: x :: run)), rest)
      else if x = 'b' ∨ x = 'B' then
        let (run, rest) := take_run is_bin_char r
        Except.ok (some (Token.number ('0' :: x :: run)), rest)
      else if x = 'o' ∨ x = 'O' then
        let (run, rest) := take_run is_oct_char r
        Except.ok (some (Token.number ('0' :: x :: run)), rest)
      else
        let (run, rest) := take_run is_dec_char ('0' :: x :: r)
        Except.ok (some (Token.number run), rest)
  | '-' :: d :: r =>
      if is_digit d then
        let (run, rest) := take_run is_dec_char (d :: r)
        Except.ok (some (Token.number ('-' :: run)), rest)
      else
        let (run, rest) := take_run is_symbol_char ('-' :: d :: r)
        Except.ok (some (Token.symbol run), rest)
  | c :: r =>
      if is_digit c then
        let (run, rest) := take_run is_dec_char (c :: r)
        Except.ok (some (Token.number run), rest)
      else if is_symbol_char c then
        let (run, rest) := take_run is_symbol_char (c :: r)
        Except.ok (some (Token.symbol run), rest)
      else Except.error "Unexpected character"

/-- The token stream, with structural fuel (one unit per token; the
input length plus one always suffices since every token consumes at
least one character). -/
def tokenize_fuel : Nat → List Char → Except String (List Token)
  | 0, _ => Except.error "out of fuel"
  | fuel + 1, s =>
      match next_token s with
      | Except.error e => Except.error e
      | Except.ok (none, _) => Except.ok []
      | Except.ok (some t, rest) =>
          match tokenize_fuel fuel rest with
          | Except.ok ts => Except.ok (t :: ts)
          | Except.error e => Except.error e

def tokenize (s : List Char) : Except String (List Token) :=
  tokenize_fuel (s.length + 1) s

/-! ## Parser (`reader.c`, claim C8)

Recursive descent over the token stream; the stored lookahead
`p->current` is the head of the token list, `[]` plays TOK_EOF.  The
parser functions carry structural fuel: one unit per nested call, so
`2·(number of tokens) + 2` always suffices (proved below). -/

/-- `parse_one_param`: an optional `name :: Type` inside brackets.  A
missing name (`current` not a symbol) leaves the C struct's fields
NULL; the empty name list stands for that NULL. -/
def parse_one_param_t : List Token → ASTParam × List Token
  | Token.symbol n :: rest =>
      (match rest with
       | Token.symbol c2 :: rest2 =>
           if c2 = ':' :: ':' :: [] then
             match rest2 with
             | Token.symbol ty :: rest3 =>
                 ({ name := n, type_name := some ty }, rest3)
             | rest2 => ({ name := n, type_name := none }, rest2)
           else ({ name := n, type_name := none }, Token.symbol c2 :: rest2)
       | rest => ({ name := n, type_name := none }, rest))
  | ts => ({ name := [], type_name := none }, ts)

/-- `parse_fn_signature`: bracketed parameters, skipped arrows, and a
trailing symbol naming the return type (the last symbol wins), until
the closing `)` of the signature. -/
def parse_fn_sig_t : Nat → List ASTParam → Option (List Char) → List Token →
    Except String ((List ASTParam × Option (List Char)) × List Token)
  | 0, _, _, _ => Except.error "out of fuel"
  | fuel + 1, params, ret, ts =>
      match ts with
      | Token.rparen :: rest => Except.ok ((params, ret), rest)
      | [] => Except.error "Expected ')' to close function signature"
      | Token.lbracket :: rest =>
          (match parse_one_param_t rest with
           | (param, rest2) =>
               match rest2 with
               | Token.rbracket :: rest3 =>
                   parse_fn_sig_t fuel (params ++ [param]) ret rest3
               | _ => Except.error "Expected ']' after parameter")
      | Token.arrow :: rest => parse_fn_sig_t fuel params ret rest
      | Token.symbol s :: rest => parse_fn_sig_t fuel params (some s) rest
      | _ => Except.error "Unexpected token in function signature"

mutual

def parse_expr_t : Nat → List Token → Except String (AST × List Token)
  | 0, _ => Except.error "out of fuel"
  | fuel + 1, ts =>
      match ts with
      | Token.number v :: rest =>
          Except.ok (AST.number (parse_number_str v) (some v), rest)
      | Token.symbol s :: rest => Except.ok (AST.symbol s, rest)
      | Token.string s :: rest => Except.ok (AST.string s, rest)
      | Token.charTok c :: rest => Except.ok (AST.char c, rest)
      | Token.lparen :: rest => parse_list_t fuel rest
      | Token.lbracket :: rest => parse_bracket_loop_t fuel [] rest
      | Token.quote :: rest =>
          (match parse_expr_t fuel rest with
           | Except.ok (q, r2) =>
               Except.ok (AST.list [AST.symbol ('q' :: 'u' :: 'o' :: 't' :: 'e' :: []), q], r2)
           | Except.error e => Except.error e)
      | Token.arrow :: rest => Except.ok (AST.symbol ('-' :: '>' :: []), rest)
      | _ => Except.error "unexpected token type"

/-- `parse_list` after its `(` was consumed: the `lambda` and
short-form-`define` special grammars, else the plain item loop. -/
def parse_list_t : Nat → List Token → Except String (AST × List Token)
  | 0, _ => Except.error "out of fuel"
  | fuel + 1, ts =>
      match ts with
      | Token.symbol s :: rest =>
          if s = "lambda".toList then
            (match parse_lambda_t fuel rest with
             | Except.error e => Except.error e
             | Except.ok (lam, r2) =>
                 match r2 with
                 | Token.rparen :: r3 => Except.ok (lam, r3)
                 | _ => Except.error "Expected ')' after lambda body")
          else if s = "define".toList then
            match rest with
            | Token.lparen :: r2 =>
                -- short-form function definition
                (match r2 with
                 | Token.symbol fname :: r3 =>
                     (match parse_fn_sig_t fuel [] none r3 with
                      | Except.error e => Except.error e
                      | Except.ok ((params, ret), r4) =>
                          let (doc, r5) :=
                            match r4 with
                            | Token.string d :: r4' => (some d, r4')
                            | r4 => (none, r4)
                          match parse_expr_t fuel r5 with
                          | Except.error e => Except.error e
                          | Except.ok (body, r6) =>
                              match r6 with
                              | Token.rparen :: r7 =>
                                  Except.ok (AST.list
                                    [AST.symbol ('d' :: 'e' :: 'f' :: 'i' :: 'n' :: 'e' :: []),
                                     AST.symbol fname,
                                     AST.lambda params ret doc body], r7)
                              | _ => Except.error "Expected ')' after define body")
                 | _ => Except.error "Expected function name after (define (")
            | rest =>
                parse_list_loop_t fuel
                  [AST.symbol ('d' :: 'e' :: 'f' :: 'i' :: 'n' :: 'e' :: [])] rest
          else parse_list_loop_t fuel [] ts
      | ts => parse_list_loop_t fuel [] ts

/-- The plain `(`-list loop: parse items until `)` (EOF is the missing
`)` diagnostic). -/
def parse_list_loop_t : Nat → List AST → List Token →
    Except String (AST × List Token)
  | 0, _, _ => Except.error "out of fuel"
  | fuel + 1, acc, ts =>
      match ts with
      | Token.rparen :: rest => Except.ok (AST.list acc, rest)
      | [] => Except.error "Expected ')'"
      | ts =>
          match parse_expr_t fuel ts with
          | Except.error e => Except.error e
          | Except.ok (item, r2) => parse_list_loop_t fuel (acc ++ [item]) r2

/-- The `[`-list loop (`parse_bracket_list` after its `[`). -/
def parse_bracket_loop_t : Nat → List AST → List Token →
    Except String (AST × List Token)
  | 0, _, _ => Except.error "out of fuel"
  | fuel + 1, acc, ts =>
      match ts with
      | Token.rbracket :: rest => Except.ok (AST.list acc, rest)
      | [] => Except.error "Expected ']'"
      | ts =>
          match parse_expr_t fuel ts with
          | Except.error e => Except.error e
          | Except.ok (item, r2) => parse_bracket_loop_t fuel (acc ++ [item]) r2

/-- `parse_lambda`: signature in parentheses, optional docstring, one
body expression (the caller consumes the final `)`). -/
def parse_lambda_t : Nat → List Token → Except String (AST × List Token)
  | 0, _ => Except.error "out of fuel"
  | fuel + 1, ts =>
      match ts with
      | Token.lparen :: rest =>
          (match parse_fn_sig_t fuel [] none rest with
           | Except.error e => Except.error e
           | Except.ok ((params, ret), r2) =>
               let (doc, r3) :=
                 match r2 with
                 | Token.string d :: r2' => (some d, r2')
                 | r2 => (none, r2)
               match parse_expr_t fuel r3 with
               | Except.error e => Except.error e
               | Except.ok (body, r4) =>
                   Except.ok (AST.lambda params ret doc body, r4))
      | _ => Except.error "Expected '(' after 'lambda'"

end

/-- `parse(source)` — the single-expression entry point used by the
REPL and by re-parsing printed forms: tokenize, then parse one
expression (tokens beyond it are ignored, as the C leaves them in the
lexer). -/
def parse_one (s : List Char) : Except String AST :=
  match tokenize s with
  | Except.error e => Except.error e
  | Except.ok ts =>
      match parse_expr_t (2 * ts.length + 2) ts with
      | Except.error e => Except.error e
      | Except.ok (a, _) => Except.ok a

/-! ## `ast_print` (claim C8)

The structural printer of `reader.c`: numbers print their **value**
through `%g` (the stored lexeme is not consulted), strings print their
raw payload in quotes, chars between ticks, lists space-separated in
parentheses, lambdas in the long form with bracketed parameters. -/

/-- One printed parameter: `[name]` or `[name :: Type]`. -/
def print_param (p : ASTParam) : List Char :=
  '[' :: p.name ++
    (match p.type_name with
     | some t => ' ' :: ':' :: ':' :: ' ' :: t
     | none => []) ++ [']']

/-- The space-separated parameter list. -/
def print_params : List ASTParam → List Char
  | [] => []
  | [p] => print_param p
  | p :: ps => print_param p ++ ' ' :: print_params ps

mutual

def ast_print : AST → List Char
  | AST.number v _ => g_format v
  | AST.symbol s => s
  | AST.string s => '"' :: s ++ ['"']
  | AST.char c => '\'' :: c :: '\'' :: []
  | AST.list items => '(' :: ast_print_list items ++ [')']
  | AST.lambda ps ret doc body =>
      "(lambda (".toList ++ print_params ps ++
        (match ret with
         | some r => ' ' :: '-' :: '>' :: ' ' :: r
         | none => []) ++ [')'] ++
        (match doc with
         | some d => ' ' :: '"' :: d ++ ['"']
         | none => []) ++
        ' ' :: ast_print body ++ [')']

def ast_print_list : List AST → List Char
  | [] => []
  | [x] => ast_print x
  | x :: xs => ast_print x ++ ' ' :: ast_print_list xs

end

/-! ## The token stream of a printed AST, and the well-behaved subclass

`ast_tokens` is what the lexer produces on `ast_print`'s output (the
symbol `->` lexes as the arrow token).  `good_ast` carves out the
printable subclass for the amended round-trip claim: canonical decimal
integer literals, symbols that lex back as one symbol token, string
payloads the string scanner consumes whole, chars outside the
quote/backslash escapes, no `lambda`-headed lists, no `define` whose
second item is a list or lambda (those re-parse through the special
grammars), and lambda nodes with well-formed names whose docstring is
present whenever the body is a string literal. -/

/-- Tokens of one printed parameter. -/
def param_tokens (p : ASTParam) : List Token :=
  Token.lbracket :: Token.symbol p.name ::
    (match p.type_name with
     | some t => [Token.symbol (':' :: ':' :: []), Token.symbol t]
     | none => []) ++ [Token.rbracket]

def params_tokens : List ASTParam → List Token
  | [] => []
  | p :: ps => param_tokens p ++ params_tokens ps

mutual

def ast_tokens : AST → List Token
  | AST.number v _ => [Token.number (g_format v)]
  | AST.symbol s =>
      if s = '-' :: '>' :: [] then [Token.arrow] else [Token.symbol s]
  | AST.string s => [Token.string s]
  | AST.char c => [Token.charTok c]
  | AST.list items => Token.lparen :: ast_tokens_list items ++ [Token.rparen]
  | AST.lambda ps ret doc body =>
      Token.lparen :: Token.symbol ("lambda".toList) :: Token.lparen ::
        params_tokens ps ++
        (match ret with
         | some r => [Token.arrow, Token.symbol r]
         | none => []) ++ [Token.rparen] ++
        (match doc with
         | some d => [Token.string d]
         | none => []) ++
        ast_tokens body ++ [Token.rparen]

def ast_tokens_list : List AST → List Token
  | [] => []
  | x :: xs => ast_tokens x ++ ast_tokens_list xs

end

/-- A string payload the scanner consumes in one piece: no unescaped
`"`, no trailing lone backslash. -/
def good_payload : List Char → Bool
  | [] => true
  | '"' :: _ => false
  | '\\' :: [] => false
  | '\\' :: _ :: r => good_payload r
  | _ :: r => good_payload r

/-- A symbol text that lexes back as one `symbol` token: nonempty, all
symbol characters, not starting like a number or like the arrow
(`->` itself is fine — it lexes as the arrow token, which the parser
turns back into this symbol). -/
def good_symbol (s : List Char) : Bool :=
  if s = '-' :: '>' :: [] then true
  else
    match s with
    | [] => false
    | c :: rest =>
        (c :: rest).all is_symbol_char && !is_digit c &&
        (match rest with
         | [] => true
         | x :: _ => !(c == '-' && (is_digit x || x == '>')))

/-- A symbol that moreover lexes as a plain `symbol` token (not the
arrow), usable where the signature grammar needs a symbol. -/
def good_plain_symbol (s : List Char) : Bool :=
  good_symbol s && !(s == '-' :: '>' :: [])

/-- Parameters whose printed form re-parses to the same record. -/
def good_param (p : ASTParam) : Bool :=
  good_plain_symbol p.name &&
  (match p.type_name with
   | some t => good_plain_symbol t
   | none => true)

def good_params : List ASTParam → Bool
  | [] => true
  | p :: ps => good_param p && good_params ps

mutual

def good_ast : AST → Bool
  | AST.number v lit =>
      v.den == 1 && v.num.natAbs < 1000000 && lit == some (int_to_dec v.num)
  | AST.symbol s => good_symbol s
  | AST.string s => good_payload s
  | AST.char c => c != '\\' && c != '\'' && c.toNat != 0
  | AST.list items =>
      good_ast_list items &&
      (match items with
       | AST.symbol h :: rest =>
           if h = "lambda".toList then false
           else if h = "define".toList then
             match rest with
             | second :: _ =>
                 (match second with
                  | AST.list _ => false
                  | AST.lambda _ _ _ _ => false
                  | _ => true)
             | [] => true
           else true
       | _ => true)
  | AST.lambda ps ret doc body =>
      good_params ps &&
      (match ret with
       | some r => good_plain_symbol r
       | none => true) &&
      (match doc, body with
       | none, AST.string _ => false
       | none, _ => true
       | some d, _ => good_payload d) &&
      good_ast body

def good_ast_list : List AST → Bool
  | [] => true
  | x :: xs => good_ast x && good_ast_list xs

end

/-- A character position at which every printed atom of `ast_print`
ends: end of input, a separating space, or a closing delimiter.  No
atom run (digit run, symbol run) continues across such a position. -/
def bdry : List Char → Bool
  | [] => true
  | c :: _ => c == ' ' || c == ')' || c == ']'

/-- The printed return-type mark of a lambda signature. -/
def ret_mark : Option (List Char) → List Char
  | some r => ' ' :: '-' :: '>' :: ' ' :: r
  | none => []

/-- The tokens of the return-type mark. -/
def ret_toks : Option (List Char) → List Token
  | some r => [Token.arrow, Token.symbol r]
  | none => []

/-- The printed docstring mark of a lambda. -/
def doc_mark : Option (List Char) → List Char
  | some d => ' ' :: '"' :: d ++ ['"']
  | none => []

/-- The token of the docstring mark. -/
def doc_toks : Option (List Char) → List Token
  | some d => [Token.string d]
  | none => []

/-- The optional-docstring step of `parse_lambda` and of short-form
`define`: split a leading string token off the token stream. -/
def doc_split : List Token → Option (List Char) × List Token
  | Token.string d :: r => (some d, r)
  | r => (none, r)

/-! # Theorems

## Literal type inference (claim C1) -/

theorem has_float_mark_iff (cs : List Char) :
    has_float_mark cs = true ↔ ('.' ∈ cs ∨ 'e' ∈ cs ∨ 'E' ∈ cs) := by
  induction cs with
  | nil => simp [has_float_mark]
  | cons c rest ih =>
      by_cases h : c = '.' ∨ c = 'e' ∨ c = 'E'
      · rcases h with h | h | h <;> subst h <;> simp [has_float_mark]
      · push_neg at h
        obtain ⟨h1, h2, h3⟩ := h
        simp only [has_float_mark, List.mem_cons]
        rw [if_neg]
        · constructor
          · intro hm
            rcases ih.mp hm with hm | hm | hm
            · exact Or.inl (Or.inr hm)
            · exact Or.inr (Or.inl (Or.inr hm))
            · exact Or.inr (Or.inr (Or.inr hm))
          · intro hm
            apply ih.mpr
            rcases hm with (h | hm) | (h | hm) | (h | hm)
            · exact absurd h.symm h1
            · exact Or.inl hm
            · exact absurd h.symm h2
            · exact Or.inr (Or.inl hm)
            · exact absurd h.symm h3
            · exact Or.inr (Or.inr hm)
        · simp only [Bool.or_eq_true, beq_iff_eq]
          rintro ((h | h) | h)
          · exact h1 h
          · exact h2 h
          · exact h3 h

/-- C1.  For every numeric token with parsed value `v` and lexeme `s`,
`infer_literal_type(v, s)` returns Hex when `s` begins with `0x`/`0X`,
Bin for `0b`/`0B`, Oct for `0o`/`0O`; otherwise Float when `s` contains
`.`, `e` or `E`; otherwise Int; and when `s` is absent it returns Int
exactly when `v` is integer-valued and Float otherwise. -/
theorem infer_literal_type_spec (v : ℚ) (cs : List Char) :
    (infer_literal_type v (some cs) =
      if cs.take 2 = ['0', 'x'] ∨ cs.take 2 = ['0', 'X'] then TypeKind.hex
      else if cs.take 2 = ['0', 'b'] ∨ cs.take 2 = ['0', 'B'] then TypeKind.bin
      else if cs.take 2 = ['0', 'o'] ∨ cs.take 2 = ['0', 'O'] then TypeKind.oct
      else if '.' ∈ cs ∨ 'e' ∈ cs ∨ 'E' ∈ cs then TypeKind.float
      else TypeKind.int) ∧
    (infer_literal_type v none =
      if v.den = 1 then TypeKind.int else TypeKind.float) := by
  constructor
  · match cs with
    | [] => simp [infer_literal_type, has_float_mark]
    | [c] =>
        simp only [infer_literal_type]
        have hne : ∀ d0 d1 : Char, ¬(([c] : List Char).take 2 = [d0, d1]) := by
          intro d0 d1 h
          simp at h
        have hnx : ¬(([c] : List Char).take 2 = ['0', 'x'] ∨
            ([c] : List Char).take 2 = ['0', 'X']) := by
          rintro (h | h) <;> exact hne _ _ h
        have hnb : ¬(([c] : List Char).take 2 = ['0', 'b'] ∨
            ([c] : List Char).take 2 = ['0', 'B']) := by
          rintro (h | h) <;> exact hne _ _ h
        have hno : ¬(([c] : List Char).take 2 = ['0', 'o'] ∨
            ([c] : List Char).take 2 = ['0', 'O']) := by
          rintro (h | h) <;> exact hne _ _ h
        rw [if_neg hnx, if_neg hnb, if_neg hno]
        have hfm := has_float_mark_iff [c]
        by_cases hf : '.' ∈ [c] ∨ 'e' ∈ [c] ∨ 'E' ∈ [c]
        · rw [if_pos (hfm.mpr hf), if_pos hf]
        · rw [if_neg (fun h => hf (hfm.mp h)), if_neg hf]
    | c0 :: c1 :: rest =>
        simp only [infer_literal_type,
          show (c0 :: c1 :: rest).take 2 = [c0, c1] from rfl]
        have hfm := has_float_mark_iff (c0 :: c1 :: rest)
        by_cases hx : c0 = '0' ∧ (c1 = 'x' ∨ c1 = 'X')
        · obtain ⟨h0, hx⟩ := hx
          subst h0
          rcases hx with hx | hx <;> subst hx <;> simp
        · by_cases hb : c0 = '0' ∧ (c1 = 'b' ∨ c1 = 'B')
          · obtain ⟨h0, hb⟩ := hb
            subst h0
            rcases hb with hb | hb <;> subst hb <;> simp
          · by_cases ho : c0 = '0' ∧ (c1 = 'o' ∨ c1 = 'O')
            · obtain ⟨h0, ho⟩ := ho
              subst h0
              rcases ho with ho | ho <;> subst ho <;> simp
            · have hxb : ¬(c0 == '0' && (c1 == 'x' || c1 == 'X')) = true := by
                simp only [Bool.and_eq_true, Bool.or_eq_true, beq_iff_eq]
                exact fun h => hx ⟨h.1, h.2⟩
              have hbb : ¬(c0 == '0' && (c1 == 'b' || c1 == 'B')) = true := by
                simp only [Bool.and_eq_true, Bool.or_eq_true, beq_iff_eq]
                exact fun h => hb ⟨h.1, h.2⟩
              have hob : ¬(c0 == '0' && (c1 == 'o' || c1 == 'O')) = true := by
                simp only [Bool.and_eq_true, Bool.or_eq_true, beq_iff_eq]
                exact fun h => ho ⟨h.1, h.2⟩
              rw [if_neg hxb, if_neg hbb, if_neg hob]
              have hxs : ¬([c0, c1] = ['0', 'x'] ∨ [c0, c1] = ['0', 'X']) := by
                rintro (h | h) <;>
                  · injection h with h1 h2; injection h2 with h2 _
                    exact hx ⟨h1, by simp [h2]⟩
              have hbs : ¬([c0, c1] = ['0', 'b'] ∨ [c0, c1] = ['0', 'B']) := by
                rintro (h | h) <;>
                  · injection h with h1 h2; injection h2 with h2 _
                    exact hb ⟨h1, by simp [h2]⟩
              have hos : ¬([c0, c1] = ['0', 'o'] ∨ [c0, c1] = ['0', 'O']) := by
                rintro (h | h) <;>
                  · injection h with h1 h2; injection h2 with h2 _
                    exact ho ⟨h1, by simp [h2]⟩
              rw [if_neg hxs, if_neg hbs, if_neg hos]
              by_cases hf : '.' ∈ c0 :: c1 :: rest ∨ 'e' ∈ c0 :: c1 :: rest ∨ 'E' ∈ c0 :: c1 :: rest
              · rw [if_pos (hfm.mpr hf), if_pos hf]
              · rw [if_neg fun h => hf (hfm.mp h), if_neg hf]
  · rfl

/-! ## Theorems for claims C2 and C4 -/

/-- Every special-base kind is numeric (helper for the fold lemmas). -/
theorem base_kind_numeric :
    ∀ k : TypeKind, is_base_kind k = true → type_is_numeric k = true := by
  decide

/-- A reduction step on two equal special-base kinds succeeds and keeps
the kind (helper for the fold lemmas). -/
theorem arith_step_self_base :
    ∀ k : TypeKind, is_base_kind k = true →
      arith_step_compile k k = Except.ok k ∧
      arith_step_repl k k = Except.ok k := by
  decide

/-- C2 counterexample.  The call `(+ 0xFF 1 0b10)` has operand kinds
Hex, Int, Bin — two different members of Hex/Bin/Oct occur among them —
yet the fold accepts it in both engines and yields Int: the mixing
check only compares the running result type with the next operand, and
`Hex + Int` collapses the running type to `Int` before `Bin` arrives.
The last conjunct runs the full batch lowering model on the program
`(+ 0xFF 1 0b10)` and sees it accepted with result kind Int. -/
theorem arith_mixed_call_accepted :
    is_base_kind TypeKind.hex = true ∧
    is_base_kind TypeKind.bin = true ∧
    TypeKind.hex ≠ TypeKind.bin ∧
    arith_fold_compile TypeKind.hex [TypeKind.int, TypeKind.bin] =
      Except.ok TypeKind.int ∧
    arith_fold_repl TypeKind.hex [TypeKind.int, TypeKind.bin] =
      Except.ok TypeKind.int ∧
    codegen_compile env_create
      (AST.list [AST.symbol ['+'],
        AST.number 255 (some ('0' :: 'x' :: 'F' :: 'F' :: [])),
        AST.number 1 (some ['1']),
        AST.number 2 (some ('0' :: 'b' :: '1' :: '0' :: []))]) =
      Except.ok (TypeKind.int, env_create) :=
  ⟨rfl, rfl, by decide, rfl, rfl, by decide⟩

/-- C2 (amended).  Mixing of two distinct special bases is detected per
reduction step: every step whose running kind and right-operand kind are
two different members of Hex/Bin/Oct is rejected by both engines; and a
whole call is rejected whenever *all* its operand kinds are special
bases with two distinct members occurring. -/
theorem arith_base_mixing_rejected :
    (∀ a b : TypeKind, is_base_kind a = true → is_base_kind b = true → a ≠ b →
      arith_step_compile a b =
        Except.error "cannot mix in arithmetic - ambiguous result type" ∧
      arith_step_repl a b = Except.error "cannot mix in arithmetic") ∧
    (∀ (first : TypeKind) (rest : List TypeKind),
      is_base_kind first = true →
      (∀ b ∈ rest, is_base_kind b = true) →
      (∃ b ∈ rest, b ≠ first) →
      (∃ e, arith_fold_compile first rest = Except.error e) ∧
      (∃ e, arith_fold_repl first rest = Except.error e)) := by
  have hstep : ∀ a b : TypeKind, is_base_kind a = true → is_base_kind b = true →
      a ≠ b →
      arith_step_compile a b =
        Except.error "cannot mix in arithmetic - ambiguous result type" ∧
      arith_step_repl a b = Except.error "cannot mix in arithmetic" := by
    decide
  refine ⟨hstep, ?_⟩
  intro first rest
  induction rest generalizing first with
  | nil =>
      rintro _ _ ⟨b, hb, _⟩
      exact absurd hb (List.not_mem_nil b)
  | cons b bs ih =>
      intro hfirst hall hmix
      by_cases hent : b = first
      · subst hent
        have hbase := hfirst
        have hstepeq := arith_step_self_base b hbase
        have hmix' : ∃ c ∈ bs, c ≠ b := by
          rcases hmix with ⟨c, hc, hne⟩
          rcases List.mem_cons.mp hc with h | h
          · exact absurd h hne
          · exact ⟨c, h, hne⟩
        have := ih b hbase (fun c hc => hall c (List.mem_cons_of_mem _ hc)) hmix'
        rcases this with ⟨⟨e1, he1⟩, ⟨e2, he2⟩⟩
        have hnum : type_is_numeric b = true := base_kind_numeric b hbase
        constructor
        · refine ⟨e1, ?_⟩
          simp only [arith_fold_compile] at he1 ⊢
          rw [hnum] at he1 ⊢
          simp only [Bool.not_true, Bool.false_eq_true, if_false] at he1 ⊢
          simpa [arith_fold_go_compile, hstepeq.1] using he1
        · refine ⟨e2, ?_⟩
          simp only [arith_fold_repl] at he2 ⊢
          rw [hnum] at he2 ⊢
          simp only [Bool.not_true, Bool.false_eq_true, if_false] at he2 ⊢
          simpa [arith_fold_go_repl, hstepeq.2] using he2
      · have hbbase : is_base_kind b = true := hall b (List.mem_cons_self b bs)
        have hne : first ≠ b := fun h => hent h.symm
        have := hstep first b hfirst hbbase hne
        have hnum : type_is_numeric first = true := base_kind_numeric first hfirst
        constructor
        · exact ⟨"cannot mix in arithmetic - ambiguous result type", by
            simp only [arith_fold_compile, hnum, Bool.not_true, Bool.false_eq_true,
              if_false, arith_fold_go_compile, this.1]⟩
        · exact ⟨"cannot mix in arithmetic", by
            simp only [arith_fold_repl, hnum, Bool.not_true, Bool.false_eq_true,
              if_false, arith_fold_go_repl, this.2]⟩

/-- Witness for `arith_base_mixing_rejected` at Hex/Bin and at the call
`(+ 0o7 0o7 0b1)`. -/
theorem arith_base_mixing_rejected_witness :
    (arith_step_compile TypeKind.hex TypeKind.bin =
      Except.error "cannot mix in arithmetic - ambiguous result type") ∧
    (∃ e, arith_fold_compile TypeKind.oct [TypeKind.oct, TypeKind.bin] =
      Except.error e) := by
  refine ⟨(arith_base_mixing_rejected.1 TypeKind.hex TypeKind.bin rfl rfl
    (by decide)).1, ?_⟩
  refine (arith_base_mixing_rejected.2 TypeKind.oct [TypeKind.oct, TypeKind.bin]
    rfl ?_ ?_).1
  · intro b hb
    rcases List.mem_cons.mp hb with h | h
    · subst h; rfl
    · rcases List.mem_cons.mp h with h | h
      · subst h; rfl
      · exact absurd h (List.not_mem_nil b)
  · exact ⟨TypeKind.bin, by simp, by decide⟩

/-- C4.  The result-type selection of one arithmetic reduction step is
commutative on every pair of kinds that is not two different members of
Hex/Bin/Oct, in both engines. -/
theorem promote_comm :
    ∀ a b : TypeKind, mixed_bases a b = false →
      promote_compile a b = promote_compile b a ∧
      promote_repl a b = promote_repl b a := by
  decide

/-- Witness for `promote_comm` at (Hex, Int). -/
theorem promote_comm_witness :
    mixed_bases TypeKind.hex TypeKind.int = false ∧
    promote_compile TypeKind.hex TypeKind.int =
      promote_compile TypeKind.int TypeKind.hex ∧
    promote_repl TypeKind.hex TypeKind.int =
      promote_repl TypeKind.int TypeKind.hex :=
  ⟨rfl, (promote_comm TypeKind.hex TypeKind.int rfl).1,
    (promote_comm TypeKind.hex TypeKind.int rfl).2⟩

/-! ## Environment lemmas and replace semantics (claim C7) -/

theorem getD_set_self {α : Type} : ∀ (l : List α) (i : Nat) (x d : α),
    i < l.length → (l.set i x).getD i d = x := by
  intro l
  induction l with
  | nil => intro i x d h; simp at h
  | cons a rest ih =>
      intro i x d h
      cases i with
      | zero => rfl
      | succ j =>
          simp only [List.set, List.getD, List.get?]
          have : j < rest.length := by
            simpa [List.length_cons, Nat.succ_lt_succ_iff] using h
          simpa [List.getD] using ih j x d this

theorem getD_set_ne {α : Type} : ∀ (l : List α) (i j : Nat) (x d : α),
    i ≠ j → (l.set i x).getD j d = l.getD j d := by
  intro l
  induction l with
  | nil => intro i j x d _; cases i <;> rfl
  | cons a rest ih =>
      intro i j x d hne
      cases i with
      | zero =>
          cases j with
          | zero => exact absurd rfl hne
          | succ k => rfl
      | succ i' =>
          cases j with
          | zero => rfl
          | succ k =>
              simp only [List.set, List.getD, List.get?]
              have : i' ≠ k := fun h => hne (by rw [h])
              simpa [List.getD] using ih i' k x d this

theorem getD_replicate_nil {α : Type} :
    ∀ (n i : Nat), (List.replicate n ([] : List α)).getD i [] = [] := by
  intro n
  induction n with
  | zero => intro i; cases i <;> rfl
  | succ m ih =>
      intro i
      cases i with
      | zero => rfl
      | succ j => exact ih j

/-! ### Bucket lemmas -/

theorem bucket_update_var_names (name : List Char) (t : Option TypeKind)
    (v : Nat) (d : Option (List Char)) :
    ∀ b : List EnvEntry,
      (bucket_update_var name t v d b).map EnvEntry.name = b.map EnvEntry.name := by
  intro b
  induction b with
  | nil => rfl
  | cons e rest ih =>
      by_cases h : (e.name == name) = true
      · simp [bucket_update_var, h]
      · simp [bucket_update_var, h, ih]

theorem bucket_find_update (name : List Char) (t : Option TypeKind)
    (v : Nat) (d : Option (List Char)) :
    ∀ b : List EnvEntry,
      bucket_find name (bucket_update_var name t v d b) =
        (bucket_find name b).map
          (fun e => { e with kind := EntryKind.var, type := t, value := v,
                             docstring := d }) := by
  intro b
  induction b with
  | nil => rfl
  | cons e rest ih =>
      by_cases h : (e.name == name) = true
      · simp [bucket_update_var, h, bucket_find]
      · simp [bucket_update_var, h, bucket_find, ih]

theorem countP_name_map (name : List Char) (b : List EnvEntry) :
    b.countP (fun e => e.name == name) =
      (b.map EnvEntry.name).countP (fun s => s == name) := by
  induction b with
  | nil => rfl
  | cons e rest ih => simp [List.countP_cons, ih]

theorem countP_zero_of_find_none (name : List Char) :
    ∀ b : List EnvEntry, bucket_find name b = none →
      b.countP (fun e => e.name == name) = 0 := by
  intro b
  induction b with
  | nil => intro _; rfl
  | cons e rest ih =>
      intro h
      by_cases he : (e.name == name) = true
      · simp [bucket_find, he] at h
      · simp only [bucket_find, he] at h
        rw [if_neg (by simp [he])] at h
        simp [List.countP_cons, he, ih h]

theorem countP_zero_of_not_mem (name : List Char) (b : List EnvEntry)
    (h : name ∉ b.map EnvEntry.name) :
    b.countP (fun e => e.name == name) = 0 := by
  induction b with
  | nil => rfl
  | cons e rest ih =>
      simp only [List.map_cons, List.mem_cons] at h
      push_neg at h
      have hne : (e.name == name) = false := by
        simp only [beq_eq_false_iff_ne, ne_eq]
        exact fun hc => h.1 hc.symm
      simp [List.countP_cons, hne, ih h.2]

theorem countP_one_of_find_some (name : List Char) :
    ∀ (b : List EnvEntry) (f : EnvEntry),
      (b.map EnvEntry.name).Nodup → bucket_find name b = some f →
      b.countP (fun e => e.name == name) = 1 := by
  intro b
  induction b with
  | nil => intro f _ h; simp [bucket_find] at h
  | cons e rest ih =>
      intro f hnd hf
      simp only [List.map_cons, List.nodup_cons] at hnd
      by_cases he : (e.name == name) = true
      · have hname : e.name = name := by simpa using he
        have hrest : rest.countP (fun x => x.name == name) = 0 := by
          apply countP_zero_of_not_mem
          rw [← hname]
          exact hnd.1
        simp [List.countP_cons, he, hrest]
      · simp only [bucket_find, he] at hf
        rw [if_neg (by simp [he])] at hf
        simp [List.countP_cons, he, ih f hnd.2 hf]

/-- All entries of the table named `name` live in the bucket the name
hashes to; the generalised induction carries an index offset `o`. -/
theorem entries_named_aux (name : List Char) :
    ∀ (bs : List (List EnvEntry)) (o : Nat),
      (∀ j, ∀ e ∈ bs.getD j [], bucket_index e.name = o + j) →
      (bs.map (fun b => b.countP (fun e => e.name == name))).sum =
        (if bucket_index name < o then 0
         else (bs.getD (bucket_index name - o) []).countP
                (fun e => e.name == name)) := by
  intro bs
  induction bs with
  | nil =>
      intro o _
      cases Nat.lt_or_ge (bucket_index name) o with
      | inl h => simp [h]
      | inr h =>
          rw [if_neg (Nat.not_lt.mpr h)]
          cases bucket_index name - o <;> rfl
  | cons b rest ih =>
      intro o h
      have hb : ∀ e ∈ b, bucket_index e.name = o := by
        intro e he
        simpa using h 0 e (by simpa [List.getD] using he)
      have hrest : ∀ j, ∀ e ∈ rest.getD j [], bucket_index e.name = (o + 1) + j := by
        intro j e he
        have := h (j + 1) e (by simpa [List.getD] using he)
        omega
      have hcount_zero : bucket_index name ≠ o →
          b.countP (fun e => e.name == name) = 0 := by
        intro hne
        apply countP_zero_of_not_mem
        intro hmem
        rcases List.mem_map.mp hmem with ⟨e, he, hename⟩
        exact hne (hename ▸ hb e he)
      rw [List.map_cons, List.sum_cons, ih (o + 1) hrest]
      rcases Nat.lt_trichotomy (bucket_index name) o with hlt | heq | hgt
      · rw [if_pos (by omega), if_pos hlt, hcount_zero (Nat.ne_of_lt hlt)]
      · rw [if_pos (by omega), if_neg (by omega)]
        have : bucket_index name - o = 0 := by omega
        rw [this]
        simp [heq]
      · rw [if_neg (by omega), if_neg (by omega),
          hcount_zero (Nat.ne_of_gt hgt)]
        have h1 : bucket_index name - o = (bucket_index name - (o + 1)) + 1 := by
          omega
        rw [h1]
        simp [List.getD]

theorem env_insert_with_doc_found (env : Env) (name : List Char)
    (t : Option TypeKind) (v : Nat) (d : Option (List Char)) (f : EnvEntry)
    (h : bucket_find name (env.buckets.getD (bucket_index name) []) = some f) :
    env_insert_with_doc env name t v d =
      { env with
          buckets := env.buckets.set (bucket_index name)
            (bucket_update_var name t v d
              (env.buckets.getD (bucket_index name) [])) } := by
  simp only [env_insert_with_doc, h]

theorem env_insert_with_doc_new (env : Env) (name : List Char)
    (t : Option TypeKind) (v : Nat) (d : Option (List Char))
    (h : bucket_find name (env.buckets.getD (bucket_index name) []) = none) :
    env_insert_with_doc env name t v d =
      { env with
          buckets := env.buckets.set (bucket_index name)
            (new_var_entry name t v d ::
              env.buckets.getD (bucket_index name) []),
          count := env.count + 1 } := by
  simp only [env_insert_with_doc, h]

/-- Index discipline transfers through a name-preserving bucket
rewrite: if every name in a bucket already hashes to `j`, so does every
name of any list with the same name image. -/
theorem index_of_names_eq (j : Nat) (b b' : List EnvEntry)
    (hnames : b'.map EnvEntry.name = b.map EnvEntry.name)
    (h : ∀ e ∈ b, bucket_index e.name = j) :
    ∀ e ∈ b', bucket_index e.name = j := by
  intro e he
  have : e.name ∈ b'.map EnvEntry.name := List.mem_map_of_mem _ he
  rw [hnames] at this
  rcases List.mem_map.mp this with ⟨e', he', hne⟩
  exact hne ▸ h e' he'

/-- Inserting over an environment whose hashed bucket already holds an
entry named `name` (with the whole-bucket count being exactly one)
updates that entry in place: lookup afterwards sees the new type and
value, the global per-name count stays one, and the entry count is
unchanged. -/
theorem insert_over_existing (env1 : Env) (name : List Char)
    (t2 : Option TypeKind) (v2 : Nat)
    (hlen1 : env1.buckets.length = 16)
    (hidx1 : ∀ j, ∀ e ∈ env1.buckets.getD j [], bucket_index e.name = j)
    (g : EnvEntry)
    (hfind1 : bucket_find name (env1.buckets.getD (bucket_index name) []) =
      some g)
    (hcnt1 : (env1.buckets.getD (bucket_index name) []).countP
      (fun e => e.name == name) = 1) :
    (∃ en, env_lookup (env_insert env1 name t2 v2) name = some en ∧
      en.type = t2 ∧ en.value = v2) ∧
    entries_named (env_insert env1 name t2 v2) name = 1 ∧
    (env_insert env1 name t2 v2).count = env1.count := by
  have hlt : bucket_index name < env1.buckets.length := by
    rw [hlen1]; exact Nat.mod_lt _ (by norm_num)
  have he2 : env_insert env1 name t2 v2 =
      { env1 with
          buckets := env1.buckets.set (bucket_index name)
            (bucket_update_var name t2 v2 none
              (env1.buckets.getD (bucket_index name) [])) } :=
    env_insert_with_doc_found env1 name t2 v2 none g hfind1
  have hbucket : (env_insert env1 name t2 v2).buckets.getD (bucket_index name) [] =
      bucket_update_var name t2 v2 none
        (env1.buckets.getD (bucket_index name) []) := by
    rw [he2]
    exact getD_set_self _ _ _ _ hlt
  refine ⟨?_, ?_, ?_⟩
  · have hlook : env_lookup (env_insert env1 name t2 v2) name =
        some { g with kind := EntryKind.var, type := t2, value := v2,
                      docstring := none } := by
      unfold env_lookup
      rw [hbucket, bucket_find_update, hfind1]
      rfl
    exact ⟨_, hlook, rfl, rfl⟩
  · have hidx2 : ∀ j, ∀ e ∈ (env_insert env1 name t2 v2).buckets.getD j [],
        bucket_index e.name = j := by
      intro j e he
      by_cases hj : j = bucket_index name
      · subst hj
        rw [hbucket] at he
        exact index_of_names_eq _ _ _
          (bucket_update_var_names name t2 v2 none _) (hidx1 _) e he
      · rw [he2] at he
        have : (env1.buckets.set (bucket_index name)
            (bucket_update_var name t2 v2 none
              (env1.buckets.getD (bucket_index name) []))).getD j [] =
            env1.buckets.getD j [] :=
          getD_set_ne _ _ _ _ _ (fun h => hj h.symm)
        rw [this] at he
        exact hidx1 j e he
    unfold entries_named
    rw [entries_named_aux name _ 0 (by simpa using hidx2)]
    rw [if_neg (by omega)]
    have : bucket_index name - 0 = bucket_index name := by omega
    rw [this, hbucket, countP_name_map, bucket_update_var_names,
      ← countP_name_map, hcnt1]
  · rw [he2]

/-- C7.  After two successive inserts under the same name, lookup
returns an entry carrying the second insert's type and value, the
environment holds exactly one entry for that name, and the entry count
is the same after the second insert as after the first. -/
theorem env_insert_replace (env : Env) (hwf : env_wf env) (name : List Char)
    (t1 t2 : Option TypeKind) (v1 v2 : Nat) :
    (∃ en, env_lookup (env_insert (env_insert env name t1 v1) name t2 v2)
        name = some en ∧ en.type = t2 ∧ en.value = v2) ∧
    entries_named (env_insert (env_insert env name t1 v1) name t2 v2) name = 1 ∧
    (env_insert (env_insert env name t1 v1) name t2 v2).count =
      (env_insert env name t1 v1).count := by
  obtain ⟨hlen, hidxp, hnd⟩ := hwf
  have hlt : bucket_index name < env.buckets.length := by
    rw [hlen]; exact Nat.mod_lt _ (by norm_num)
  have hlen1 : (env_insert env name t1 v1).buckets.length = 16 := by
    cases hfind0 : bucket_find name (env.buckets.getD (bucket_index name) []) with
    | some f =>
        rw [env_insert, env_insert_with_doc_found env name t1 v1 none f hfind0]
        simpa using hlen
    | none =>
        rw [env_insert, env_insert_with_doc_new env name t1 v1 none hfind0]
        simpa using hlen
  cases hfind0 : bucket_find name (env.buckets.getD (bucket_index name) []) with
  | some f =>
      have he1 : env_insert env name t1 v1 =
          { env with
              buckets := env.buckets.set (bucket_index name)
                (bucket_update_var name t1 v1 none
                  (env.buckets.getD (bucket_index name) [])) } :=
        env_insert_with_doc_found env name t1 v1 none f hfind0
      have hbucket1 : (env_insert env name t1 v1).buckets.getD
          (bucket_index name) [] =
          bucket_update_var name t1 v1 none
            (env.buckets.getD (bucket_index name) []) := by
        rw [he1]
        exact getD_set_self _ _ _ _ hlt
      have hidx1 : ∀ j, ∀ e ∈ (env_insert env name t1 v1).buckets.getD j [],
          bucket_index e.name = j := by
        intro j e he
        by_cases hj : j = bucket_index name
        · subst hj
          rw [hbucket1] at he
          exact index_of_names_eq _ _ _
            (bucket_update_var_names name t1 v1 none _) (hidxp _) e he
        · rw [he1] at he
          have : (env.buckets.set (bucket_index name)
              (bucket_update_var name t1 v1 none
                (env.buckets.getD (bucket_index name) []))).getD j [] =
              env.buckets.getD j [] :=
            getD_set_ne _ _ _ _ _ (fun h => hj h.symm)
          rw [this] at he
          exact hidxp j e he
      have hfind1 : bucket_find name ((env_insert env name t1 v1).buckets.getD
          (bucket_index name) []) =
          some { f with kind := EntryKind.var, type := t1, value := v1,
                        docstring := none } := by
        rw [hbucket1, bucket_find_update, hfind0]
        rfl
      have hcnt1 : ((env_insert env name t1 v1).buckets.getD
          (bucket_index name) []).countP (fun e => e.name == name) = 1 := by
        rw [hbucket1, countP_name_map, bucket_update_var_names,
          ← countP_name_map]
        exact countP_one_of_find_some name _ f (hnd _) hfind0
      exact insert_over_existing (env_insert env name t1 v1) name t2 v2
        hlen1 hidx1 _ hfind1 hcnt1
  | none =>
      have he1 : env_insert env name t1 v1 =
          { env with
              buckets := env.buckets.set (bucket_index name)
                (new_var_entry name t1 v1 none ::
                  env.buckets.getD (bucket_index name) []),
              count := env.count + 1 } :=
        env_insert_with_doc_new env name t1 v1 none hfind0
      have hbucket1 : (env_insert env name t1 v1).buckets.getD
          (bucket_index name) [] =
          new_var_entry name t1 v1 none ::
            env.buckets.getD (bucket_index name) [] := by
        rw [he1]
        exact getD_set_self _ _ _ _ hlt
      have hidx1 : ∀ j, ∀ e ∈ (env_insert env name t1 v1).buckets.getD j [],
          bucket_index e.name = j := by
        intro j e he
        by_cases hj : j = bucket_index name
        · subst hj
          rw [hbucket1] at he
          rcases List.mem_cons.mp he with h | h
          · rw [h]; rfl
          · exact hidxp _ e h
        · rw [he1] at he
          have : (env.buckets.set (bucket_index name)
              (new_var_entry name t1 v1 none ::
                env.buckets.getD (bucket_index name) [])).getD j [] =
              env.buckets.getD j [] :=
            getD_set_ne _ _ _ _ _ (fun h => hj h.symm)
          rw [this] at he
          exact hidxp j e he
      have hfind1 : bucket_find name ((env_insert env name t1 v1).buckets.getD
          (bucket_index name) []) = some (new_var_entry name t1 v1 none) := by
        rw [hbucket1]
        simp [bucket_find, new_var_entry]
      have hcnt1 : ((env_insert env name t1 v1).buckets.getD
          (bucket_index name) []).countP (fun e => e.name == name) = 1 := by
        rw [hbucket1]
        have h0 := countP_zero_of_find_none name _ hfind0
        rw [List.countP_cons, h0]
        norm_num [new_var_entry]
      exact insert_over_existing (env_insert env name t1 v1) name t2 v2
        hlen1 hidx1 _ hfind1 hcnt1

/-- Witness for `env_insert_replace`: a fresh environment, the name
`x`, Int then Float. -/
theorem env_insert_replace_witness :
    (∃ en, env_lookup (env_insert (env_insert env_create ['x']
        (some TypeKind.int) 1) ['x'] (some TypeKind.float) 2) ['x'] =
        some en ∧ en.type = some TypeKind.float ∧ en.value = 2) ∧
    entries_named (env_insert (env_insert env_create ['x']
      (some TypeKind.int) 1) ['x'] (some TypeKind.float) 2) ['x'] = 1 ∧
    (env_insert (env_insert env_create ['x'] (some TypeKind.int) 1) ['x']
        (some TypeKind.float) 2).count =
      (env_insert env_create ['x'] (some TypeKind.int) 1).count := by
  apply env_insert_replace env_create
  have hb : env_create.buckets = List.replicate 16 ([] : List EnvEntry) := rfl
  refine ⟨rfl, ?_, ?_⟩
  · intro i e he
    rw [hb, getD_replicate_nil] at he
    exact absurd he (List.not_mem_nil e)
  · intro i
    rw [hb, getD_replicate_nil]
    exact List.nodup_nil

/-! ## Wrapper transactionality (claim C5) -/

/-- C5 counterexample.  When codegen succeeds but verification of the
wrapper fails, `repl_eval_line` returns with the wrapper still in the
live module: the `LLVMDeleteFunction` call sits only on the
codegen-failure path. -/
theorem repl_verify_fail_keeps_wrapper :
    (repl_eval_line [] ['w'] true false true).2 = false ∧
    ['w'] ∈ (repl_eval_line [] ['w'] true false true).1 := by
  constructor
  · rfl
  · show ['w'] ∈ [['w']]
    exact List.mem_singleton.mpr rfl

/-- C5 (amended).  The wrapper of a failed line is deleted before the
next input only when the failure is in lowering (`codegen_expr`
returning NULL): then the module is restored exactly.  A wrapper whose
verification fails is left in the live module (the line still reports
failure). -/
theorem repl_eval_line_transactional (module : List (List Char))
    (wrapper : List Char) (hfresh : wrapper ∉ module) :
    (∀ v a : Bool,
      (repl_eval_line module wrapper false v a).1 = module ∧
      (repl_eval_line module wrapper false v a).2 = false) ∧
    (∀ a : Bool,
      wrapper ∈ (repl_eval_line module wrapper true false a).1 ∧
      (repl_eval_line module wrapper true false a).2 = false) := by
  constructor
  · intro v a
    constructor
    · show (module ++ [wrapper]).erase wrapper = module
      rw [List.erase_append_right _ hfresh, List.erase_cons_head,
        List.append_nil]
    · rfl
  · intro a
    constructor
    · show wrapper ∈ module ++ [wrapper]
      exact List.mem_append_right _ (List.mem_singleton.mpr rfl)
    · rfl

/-- Witness for `repl_eval_line_transactional` on an empty module. -/
theorem repl_eval_line_transactional_witness :
    (repl_eval_line [] ['w'] false true true).1 = [] ∧
    ['w'] ∈ (repl_eval_line [] ['w'] true false true).1 :=
  ⟨((repl_eval_line_transactional [] ['w'] (List.not_mem_nil _)).1 true true).1,
   ((repl_eval_line_transactional [] ['w'] (List.not_mem_nil _)).2 true).1⟩

/-- C6 counterexample.  A run on the default executable path in which
everything succeeds except the external linker invocation exits with
code 0, not 1 — `compile` only prints "Failed to link executable" and
falls through. -/
theorem link_failure_exits_zero :
    (wants_link
      { emit_ir := false, emit_bc := false, emit_asm := false,
        emit_obj := false, open_ok := true, parse_ok := true,
        nonempty := true, codegen_ok := true, target_ok := true,
        ir_write_ok := true, bc_write_ok := true, asm_write_ok := true,
        obj_write_ok := true, link_ok := false } = true) ∧
    main_exit_code false
      { emit_ir := false, emit_bc := false, emit_asm := false,
        emit_obj := false, open_ok := true, parse_ok := true,
        nonempty := true, codegen_ok := true, target_ok := true,
        ir_write_ok := true, bc_write_ok := true, asm_write_ok := true,
        obj_write_ok := true, link_ok := false } = 0 :=
  ⟨rfl, rfl⟩

/-- C6 (amended).  The process exits 0 on success and 1 exactly on
usage errors, an unreadable input, fatal parse or lowering errors, an
empty program, or target lookup failure; failures while writing an
artifact and failure of the external linker invocation do not change
the exit code, which stays 0. -/
theorem main_exit_code_spec (u : Bool) (r : CompileRun) :
    (main_exit_code u r = 0 ∨ main_exit_code u r = 1) ∧
    (main_exit_code u r = 1 ↔
      (u = true ∨ r.open_ok = false ∨ r.parse_ok = false ∨
       r.nonempty = false ∨ r.codegen_ok = false ∨
       (needs_target r = true ∧ r.target_ok = false))) := by
  unfold main_exit_code
  constructor
  · split_ifs <;> simp
  · split_ifs with h1 h2 h3 h4 h5 h6 <;> simp_all

/-- Witness for `main_exit_code_spec` at a run whose object-file
emission fails on the `--emit-obj` path: the exit code is 0. -/
theorem main_exit_code_spec_witness :
    main_exit_code false
      { emit_ir := false, emit_bc := false, emit_asm := false,
        emit_obj := true, open_ok := true, parse_ok := true,
        nonempty := true, codegen_ok := true, target_ok := true,
        ir_write_ok := true, bc_write_ok := true, asm_write_ok := true,
        obj_write_ok := false, link_ok := true } = 0 := by
  rcases (main_exit_code_spec false
    { emit_ir := false, emit_bc := false, emit_asm := false,
      emit_obj := true, open_ok := true, parse_ok := true,
      nonempty := true, codegen_ok := true, target_ok := true,
      ir_write_ok := true, bc_write_ok := true, asm_write_ok := true,
      obj_write_ok := false, link_ok := true }) with ⟨h01, hiff⟩
  rcases h01 with h | h
  · exact h
  · exact absurd (hiff.mp h) (by decide)

/-! ## REPL `define` and module globals (claim C10) -/

theorem env_insert_buckets_length (env : Env) (n : List Char)
    (t : Option TypeKind) (v : Nat) :
    (env_insert env n t v).buckets.length = env.buckets.length := by
  cases hfind : bucket_find n (env.buckets.getD (bucket_index n) []) with
  | some f =>
      rw [env_insert, env_insert_with_doc_found env n t v none f hfind]
      simp
  | none =>
      rw [env_insert, env_insert_with_doc_new env n t v none hfind]
      simp

theorem env_lookup_insert_self (env : Env) (n : List Char)
    (t : Option TypeKind) (v : Nat) (hlen : env.buckets.length = 16) :
    ∃ e, env_lookup (env_insert env n t v) n = some e ∧
      e.type = t ∧ e.value = v := by
  have hlt : bucket_index n < env.buckets.length := by
    rw [hlen]; exact Nat.mod_lt _ (by norm_num)
  cases hfind : bucket_find n (env.buckets.getD (bucket_index n) []) with
  | some f =>
      have hlook : env_lookup (env_insert env n t v) n =
          some { f with kind := EntryKind.var, type := t, value := v,
                        docstring := none } := by
        unfold env_lookup
        rw [env_insert, env_insert_with_doc_found env n t v none f hfind]
        have : (env.buckets.set (bucket_index n)
            (bucket_update_var n t v none
              (env.buckets.getD (bucket_index n) []))).getD (bucket_index n) [] =
            bucket_update_var n t v none
              (env.buckets.getD (bucket_index n) []) :=
          getD_set_self _ _ _ _ hlt
        rw [this, bucket_find_update, hfind]
        rfl
      exact ⟨_, hlook, rfl, rfl⟩
  | none =>
      have hlook : env_lookup (env_insert env n t v) n =
          some (new_var_entry n t v none) := by
        unfold env_lookup
        rw [env_insert, env_insert_with_doc_new env n t v none hfind]
        have : (env.buckets.set (bucket_index n)
            (new_var_entry n t v none ::
              env.buckets.getD (bucket_index n) [])).getD (bucket_index n) [] =
            new_var_entry n t v none ::
              env.buckets.getD (bucket_index n) [] :=
          getD_set_self _ _ _ _ hlt
        rw [this]
        simp [bucket_find, new_var_entry]
      exact ⟨_, hlook, rfl, rfl⟩

theorem bucket_find_update_other (n m : List Char) (t : Option TypeKind)
    (v : Nat) (d : Option (List Char)) (hne : n ≠ m) :
    ∀ b : List EnvEntry,
      bucket_find m (bucket_update_var n t v d b) = bucket_find m b := by
  intro b
  induction b with
  | nil => rfl
  | cons e rest ih =>
      by_cases h : (e.name == n) = true
      · have hen : e.name = n := by simpa using h
        have hnm : (e.name == m) = false := by
          simp only [beq_eq_false_iff_ne, ne_eq, hen]
          exact hne
        simp [bucket_update_var, h, bucket_find, hnm]
      · simp [bucket_update_var, h, bucket_find, ih]

theorem env_lookup_insert_other (env : Env) (n m : List Char)
    (t : Option TypeKind) (v : Nat) (hne : n ≠ m)
    (hlen : env.buckets.length = 16) :
    env_lookup (env_insert env n t v) m = env_lookup env m := by
  have hlt : bucket_index n < env.buckets.length := by
    rw [hlen]; exact Nat.mod_lt _ (by norm_num)
  by_cases hidx : bucket_index n = bucket_index m
  · cases hfind : bucket_find n (env.buckets.getD (bucket_index n) []) with
    | some f =>
        unfold env_lookup
        rw [env_insert, env_insert_with_doc_found env n t v none f hfind]
        have : (env.buckets.set (bucket_index n)
            (bucket_update_var n t v none
              (env.buckets.getD (bucket_index n) []))).getD (bucket_index m) [] =
            bucket_update_var n t v none
              (env.buckets.getD (bucket_index n) []) := by
          rw [← hidx]
          exact getD_set_self _ _ _ _ hlt
        rw [this, bucket_find_update_other n m t v none hne, hidx]
    | none =>
        unfold env_lookup
        rw [env_insert, env_insert_with_doc_new env n t v none hfind]
        have : (env.buckets.set (bucket_index n)
            (new_var_entry n t v none ::
              env.buckets.getD (bucket_index n) [])).getD (bucket_index m) [] =
            new_var_entry n t v none ::
              env.buckets.getD (bucket_index n) [] := by
          rw [← hidx]
          exact getD_set_self _ _ _ _ hlt
        rw [this]
        have hnm : ((new_var_entry n t v none).name == m) = false := by
          simp only [new_var_entry, beq_eq_false_iff_ne, ne_eq]
          exact hne
        simp only [bucket_find, hnm]
        rw [if_neg (by simp [hnm]), hidx]
  · cases hfind : bucket_find n (env.buckets.getD (bucket_index n) []) with
    | some f =>
        unfold env_lookup
        rw [env_insert, env_insert_with_doc_found env n t v none f hfind]
        rw [getD_set_ne _ _ _ _ _ hidx]
    | none =>
        unfold env_lookup
        rw [env_insert, env_insert_with_doc_new env n t v none hfind]
        rw [getD_set_ne _ _ _ _ _ hidx]

theorem count_name_eq_one {l : List (List Char)} {x : List Char}
    (hnd : l.Nodup) (hx : x ∈ l) : count_name l x = 1 := by
  induction l with
  | nil => exact absurd hx (List.not_mem_nil x)
  | cons y rest ih =>
      rw [List.nodup_cons] at hnd
      rcases List.mem_cons.mp hx with h | h
      · subst h
        have hz : rest.countP (fun y => y == x) = 0 := by
          rw [List.countP_eq_zero]
          intro a ha
          simp only [beq_iff_eq]
          intro hax
          exact hnd.1 (hax ▸ ha)
        simp [count_name, List.countP_cons, hz]
      · have hyx : (y == x) = false := by
          simp only [beq_eq_false_iff_ne, ne_eq]
          intro hyx
          exact hnd.1 (hyx ▸ h)
        have := ih hnd.2 h
        simp only [count_name, List.countP_cons, hyx] at this ⊢
        simpa using this

theorem session_from_nodup :
    ∀ (defs : List (List Char × TypeKind)) (g : List (List Char)) (e : Env),
      g.Nodup → (session_from defs g e).1.Nodup := by
  intro defs
  induction defs with
  | nil => intro g e h; exact h
  | cons d rest ih =>
      intro g e h
      obtain ⟨n, t⟩ := d
      apply ih
      simp only [repl_define_step]
      by_cases hmem : n ∈ g
      · rw [if_pos hmem]; exact h
      · rw [if_neg hmem]
        rw [List.nodup_append]
        exact ⟨h, List.nodup_singleton n,
          fun a ha hb => hmem ((List.mem_singleton.mp hb) ▸ ha)⟩

theorem session_from_mono :
    ∀ (defs : List (List Char × TypeKind)) (g : List (List Char)) (e : Env)
      (x : List Char), x ∈ g → x ∈ (session_from defs g e).1 := by
  intro defs
  induction defs with
  | nil => intro g e x h; exact h
  | cons d rest ih =>
      intro g e x h
      obtain ⟨n, t⟩ := d
      apply ih
      simp only [repl_define_step]
      by_cases hmem : n ∈ g
      · rw [if_pos hmem]; exact h
      · rw [if_neg hmem]; exact List.mem_append_left _ h

theorem session_from_mem :
    ∀ (defs : List (List Char × TypeKind)) (g : List (List Char)) (e : Env)
      (d : List Char × TypeKind), d ∈ defs → d.1 ∈ (session_from defs g e).1 := by
  intro defs
  induction defs with
  | nil => intro g e d h; exact absurd h (List.not_mem_nil d)
  | cons hd rest ih =>
      intro g e d h
      obtain ⟨n, t⟩ := hd
      rcases List.mem_cons.mp h with h | h
      · rw [h]
        rw [show session_from ((n, t) :: rest) g e =
          session_from rest (repl_define_step g e n t).1
            (repl_define_step g e n t).2 from rfl]
        apply session_from_mono
        show n ∈ (repl_define_step g e n t).1
        simp only [repl_define_step]
        by_cases hmem : n ∈ g
        · rw [if_pos hmem]; exact hmem
        · rw [if_neg hmem]
          exact List.mem_append_right _ (List.mem_singleton.mpr rfl)
      · exact ih _ _ d h

theorem session_from_length :
    ∀ (defs : List (List Char × TypeKind)) (g : List (List Char)) (e : Env),
      e.buckets.length = 16 → (session_from defs g e).2.buckets.length = 16 := by
  intro defs
  induction defs with
  | nil => intro g e h; exact h
  | cons d rest ih =>
      intro g e h
      obtain ⟨n, t⟩ := d
      exact ih _ _ (by rw [repl_define_step]; simpa [env_insert_buckets_length])

theorem session_from_lookup :
    ∀ (defs : List (List Char × TypeKind)) (g : List (List Char)) (e : Env)
      (name : List Char), e.buckets.length = 16 →
      (last_type defs name = none →
        env_lookup (session_from defs g e).2 name = env_lookup e name) ∧
      (∀ t, last_type defs name = some t →
        ∃ en, env_lookup (session_from defs g e).2 name = some en ∧
          en.type = some t) := by
  intro defs
  induction defs with
  | nil =>
      intro g e name _
      exact ⟨fun _ => rfl, fun t h => by simp [last_type] at h⟩
  | cons d rest ih =>
      intro g e name hlen
      obtain ⟨n, t⟩ := d
      have hlen' : (env_insert e n (some t) 0).buckets.length = 16 := by
        rw [env_insert_buckets_length]; exact hlen
      have ihply := ih (repl_define_step g e n t).1 (env_insert e n (some t) 0)
        name hlen'
      constructor
      · intro hnone
        simp only [last_type] at hnone
        cases hrest : last_type rest name with
        | some t' => rw [hrest] at hnone; simp at hnone
        | none =>
            rw [hrest] at hnone
            have hne : n ≠ name := by
              intro h
              rw [if_pos h] at hnone
              exact Option.some_ne_none t hnone
            have := ihply.1 hrest
            rw [show (session_from ((n, t) :: rest) g e) =
              session_from rest (repl_define_step g e n t).1
                (repl_define_step g e n t).2 from rfl]
            rw [show (repl_define_step g e n t).2 =
              env_insert e n (some t) 0 from rfl]
            rw [this]
            exact env_lookup_insert_other e n name (some t) 0 hne hlen
      · intro t' hsome
        simp only [last_type] at hsome
        rw [show (session_from ((n, t) :: rest) g e) =
          session_from rest (repl_define_step g e n t).1
            (repl_define_step g e n t).2 from rfl]
        rw [show (repl_define_step g e n t).2 =
          env_insert e n (some t) 0 from rfl]
        cases hrest : last_type rest name with
        | some t'' =>
            rw [hrest] at hsome
            have ht : t'' = t' := by injection hsome
            subst ht
            exact ihply.2 t'' hrest
        | none =>
            rw [hrest] at hsome
            by_cases hne : n = name
            · rw [if_pos hne] at hsome
              have ht : t = t' := by injection hsome
              subst ht
              have heq := ihply.1 hrest
              rw [heq]
              subst hne
              obtain ⟨en, h1, h2, _⟩ := env_lookup_insert_self e n (some t) 0 hlen
              exact ⟨en, h1, h2⟩
            · rw [if_neg hne] at hsome
              simp at hsome

/-- C10.  Across a whole REPL session, `define` reuses an existing
module global of the same name, so the module's global-name list stays
duplicate-free and each defined name maps to exactly one module global,
while the environment entry's declared type is replaced on each
redefinition: lookup after the session returns the type of the last
`define` of the name. -/
theorem repl_define_unique_global (defs : List (List Char × TypeKind)) :
    (repl_session defs).1.Nodup ∧
    (∀ d ∈ defs, d.1 ∈ (repl_session defs).1 ∧
      count_name (repl_session defs).1 d.1 = 1) ∧
    (∀ name t, last_type defs name = some t →
      ∃ en, env_lookup (repl_session defs).2 name = some en ∧
        en.type = some t) := by
  have hnodup : (repl_session defs).1.Nodup :=
    session_from_nodup defs repl_initial_globals env_create (by decide)
  refine ⟨hnodup, ?_, ?_⟩
  · intro d hd
    have hmem := session_from_mem defs repl_initial_globals env_create d hd
    exact ⟨hmem, count_name_eq_one hnodup hmem⟩
  · intro name t h
    exact (session_from_lookup defs repl_initial_globals env_create name
      rfl).2 t h

/-- Witness for `repl_define_unique_global`: the two-line session
`(define x 1)` then `(define [x :: Float] 2)` keeps one global `x` and
ends with `x :: Float`. -/
theorem repl_define_unique_global_witness :
    (['x'], TypeKind.int) ∈
      [(['x'], TypeKind.int), (['x'], TypeKind.float)] ∧
    count_name (repl_session [(['x'], TypeKind.int),
      (['x'], TypeKind.float)]).1 ['x'] = 1 ∧
    (∃ en, env_lookup
      (repl_session [(['x'], TypeKind.int), (['x'], TypeKind.float)]).2
      ['x'] = some en ∧ en.type = some TypeKind.float) := by
  have h := repl_define_unique_global
    [(['x'], TypeKind.int), (['x'], TypeKind.float)]
  have hmem : ((['x'], TypeKind.int) : List Char × TypeKind) ∈
      [(['x'], TypeKind.int), (['x'], TypeKind.float)] :=
    List.mem_cons_self _ _
  exact ⟨hmem, (h.2.1 _ hmem).2, h.2.2 ['x'] TypeKind.float rfl⟩

/-! ## Empty-list rejection (claim C9) -/

/-- C9.  Lowering a list expression with zero elements fails with the
engine's `empty list` error, in both the batch compiler
(`"empty list not supported"`, a fatal diagnostic) and the interactive
evaluator (`"empty list"`, failing the line); the empty form `()` is
never accepted, whatever the environment. -/
theorem empty_list_rejected (env : Env) (lit : Option (List Char)) :
    codegen_compile env (AST.list []) =
      Except.error "empty list not supported" ∧
    codegen_repl env lit (AST.list []) = Except.error "empty list" :=
  ⟨rfl, rfl⟩

/-! ## `show` formatter dispatch (claim C3) -/

/-- C3 counterexample.  In the interactive evaluator, the expression
branch of `show` lowers its argument with a NULL literal string and
dispatches only on integer-vs-float, so the REPL line `(show 0b1010)`
prints `10` (via `%ld`), not `0b1010`; a Bin-kinded result is given the
`%ld` formatter, not the binary printer. -/
theorem repl_show_binary_plain :
    infer_literal_type (parse_number_str ('0' :: 'b' :: '1' :: '0' :: '1' :: '0' :: []))
      (some ('0' :: 'b' :: '1' :: '0' :: '1' :: '0' :: [])) = TypeKind.bin ∧
    show_number_output_repl ('0' :: 'b' :: '1' :: '0' :: '1' :: '0' :: []) =
      some ('1' :: '0' :: '\n' :: []) ∧
    show_number_output_repl ('0' :: 'b' :: '1' :: '0' :: '1' :: '0' :: []) ≠
      some ('0' :: 'b' :: '1' :: '0' :: '1' :: '0' :: '\n' :: []) ∧
    show_expr_fmt_repl (some TypeKind.bin) = Fmt.int := by
  refine ⟨rfl, rfl, ?_, rfl⟩
  decide

/-- C3 (amended).  In the batch compiler the expression branch of
`show` prints by inferred type with the dedicated formatters — Hex via
`0x%lX`, Oct via `0o%lo`, Bin via the emitted binary printer, other
integer kinds via `%ld`, the rest via `%g` — and the batch program
`(show 0b1010)` prints `0b1010` and a newline.  In the interactive
evaluator the expression branch prints every integer-kinded result with
`%ld` and everything else with `%g`. -/
theorem show_formatter_dispatch :
    (∀ k : TypeKind,
      show_expr_fmt_compile (some k) =
        (if k = TypeKind.hex then Fmt.hex
         else if k = TypeKind.bin then Fmt.bin
         else if k = TypeKind.oct then Fmt.oct
         else if type_is_integer k then Fmt.int
         else Fmt.float)) ∧
    show_number_output_compile ('0' :: 'b' :: '1' :: '0' :: '1' :: '0' :: []) =
      some ('0' :: 'b' :: '1' :: '0' :: '1' :: '0' :: '\n' :: []) ∧
    (∀ k : TypeKind, type_is_integer k = true →
      show_expr_fmt_repl (some k) = Fmt.int) := by
  refine ⟨?_, by decide, ?_⟩ <;> decide

/-- Witness for `show_formatter_dispatch` at the Hex kind. -/
theorem show_formatter_dispatch_witness :
    type_is_integer TypeKind.hex = true ∧
    show_expr_fmt_repl (some TypeKind.hex) = Fmt.int :=
  ⟨rfl, show_formatter_dispatch.2.2 TypeKind.hex rfl⟩

/-! ## Print/parse round trip (claim C8)

### Character-class facts

`next_token` discriminates on individual characters; these lemmas
recover arithmetic bounds on the code point from the lexer's character
classes, so that one class can be shown disjoint from another. -/

theorem digit_bounds {c : Char} (h : is_digit c = true) :
    48 ≤ c.toNat ∧ c.toNat ≤ 57 := by
  simp [is_digit] at h
  exact ⟨h.1, h.2⟩

/-- The code points `is_symbol_char` accepts. -/
theorem sym_ranges {c : Char} (h : is_symbol_char c = true) :
    (97 ≤ c.toNat ∧ c.toNat ≤ 122) ∨ (65 ≤ c.toNat ∧ c.toNat ≤ 90) ∨
    (48 ≤ c.toNat ∧ c.toNat ≤ 57) ∨ c.toNat = 45 ∨ c.toNat = 43 ∨
    c.toNat = 42 ∨ c.toNat = 47 ∨ c.toNat = 60 ∨ c.toNat = 62 ∨
    c.toNat = 61 ∨ c.toNat = 33 ∨ c.toNat = 63 ∨ c.toNat = 95 ∨
    c.toNat = 58 := by
  simp [is_symbol_char] at h
  rcases h with
    (((((((((((((⟨h1, h2⟩ | ⟨h1, h2⟩) | ⟨h1, h2⟩) | h) | h) | h) | h) | h) | h)
      | h) | h) | h) | h) | h)
  · exact Or.inl ⟨h1, h2⟩
  · exact Or.inr (Or.inl ⟨h1, h2⟩)
  · exact Or.inr (Or.inr (Or.inl ⟨h1, h2⟩))
  all_goals subst h
  all_goals decide

theorem digit_not_ws {c : Char} (h : is_digit c = true) : is_ws c = false := by
  obtain ⟨h1, h2⟩ := digit_bounds h
  have a1 : c ≠ ' ' := fun he => absurd (he ▸ h1) (by decide)
  have a2 : c ≠ '\t' := fun he => absurd (he ▸ h1) (by decide)
  have a3 : c ≠ '\n' := fun he => absurd (he ▸ h1) (by decide)
  have a4 : c ≠ '\r' := fun he => absurd (he ▸ h1) (by decide)
  simp [is_ws, a1, a2, a3, a4]

theorem digit_ne_semi {c : Char} (h : is_digit c = true) : c ≠ ';' :=
  fun he => absurd (he ▸ (digit_bounds h).2) (by decide)

theorem sym_not_ws {c : Char} (h : is_symbol_char c = true) : is_ws c = false := by
  have hr := sym_ranges h
  have a1 : c ≠ ' ' := fun he => absurd (he ▸ hr) (by decide)
  have a2 : c ≠ '\t' := fun he => absurd (he ▸ hr) (by decide)
  have a3 : c ≠ '\n' := fun he => absurd (he ▸ hr) (by decide)
  have a4 : c ≠ '\r' := fun he => absurd (he ▸ hr) (by decide)
  simp [is_ws, a1, a2, a3, a4]

theorem sym_ne_semi {c : Char} (h : is_symbol_char c = true) : c ≠ ';' :=
  fun he => absurd (he ▸ sym_ranges h) (by decide)

/-- Neither a separating space nor a closing delimiter continues a
decimal-number run. -/
theorem bdry_not_dec {c : Char} {r : List Char} (h : bdry (c :: r) = true) :
    is_dec_char c = false := by
  simp [bdry] at h
  rcases h with (h | h) | h <;> subst h <;> decide

/-- Neither a separating space nor a closing delimiter continues a
symbol run. -/
theorem bdry_not_sym {c : Char} {r : List Char} (h : bdry (c :: r) = true) :
    is_symbol_char c = false := by
  simp [bdry] at h
  rcases h with (h | h) | h <;> subst h <;> decide

/-! ### Run and skip lemmas -/

/-- `take_run` splits a run exactly at the first position failing the
predicate. -/
theorem take_run_append (p : Char → Bool) :
    ∀ (run rest : List Char), (∀ c ∈ run, p c = true) →
      (∀ c r, rest = c :: r → p c = false) →
      take_run p (run ++ rest) = (run, rest)
  | [], [], _, _ => rfl
  | [], c :: r, _, hrest => by
      simp [take_run, hrest c r rfl]
  | c :: run, rest, hrun, hrest => by
      have hc : p c = true := hrun c (List.mem_cons_self c run)
      have ih := take_run_append p run rest
        (fun d hd => hrun d (List.mem_cons_of_mem c hd)) hrest
      simp [take_run, hc, List.append_eq, ih]

/-- `skip_all` is the identity on input that starts with a
non-whitespace, non-comment character. -/
theorem skip_all_id {c : Char} (t : List Char) (hw : is_ws c = false)
    (hs : c ≠ ';') : skip_all (c :: t) = c :: t := by
  simp [skip_all, hw, hs]

/-- A leading space is transparent to tokenization. -/
theorem next_token_ws (s : List Char) : next_token (' ' :: s) = next_token s := by
  unfold next_token
  rw [show skip_all (' ' :: s) = skip_all s from by simp [skip_all, is_ws]]

theorem tokenize_fuel_ws (f : Nat) (s : List Char) :
    tokenize_fuel f (' ' :: s) = tokenize_fuel f s := by
  cases f with
  | zero => rfl
  | succ f => unfold tokenize_fuel; rw [next_token_ws]

/-- The string scan consumes a well-behaved payload in one piece and
stops at the closing quote. -/
theorem scan_string_app : ∀ (p rest : List Char), good_payload p = true →
    scan_string (p ++ '"' :: rest) = (p, rest) := by
  intro p
  induction p using good_payload.induct <;> intro rest h
  · unfold scan_string; simp
  · simp [good_payload] at h
  · simp [good_payload] at h
  · rename_i c2 r ih
    have hr := ih rest (by simpa [good_payload] using h)
    simp [scan_string, hr]
  · rename_i hd tl hq1 hq2 hq3 ih
    have h1 : ¬(hd = '"') := hq1
    have h2 : ¬(hd = '\\') := by
      intro he
      cases tl with
      | nil => exact hq2 he rfl
      | cons a b => exact hq3 a b he rfl
    have hr := ih rest (by revert h; cases tl <;> simp [good_payload, h1, h2])
    unfold scan_string
    simp only [List.cons_append]
    rw [if_neg h1, if_neg h2]
    rw [hr]


/-! ### `next_token` on each printed chunk -/

theorem next_token_lparen (s : List Char) :
    next_token ('(' :: s) = Except.ok (some Token.lparen, s) := rfl

theorem next_token_rparen (s : List Char) :
    next_token (')' :: s) = Except.ok (some Token.rparen, s) := rfl

theorem next_token_lbracket (s : List Char) :
    next_token ('[' :: s) = Except.ok (some Token.lbracket, s) := rfl

theorem next_token_rbracket (s : List Char) :
    next_token (']' :: s) = Except.ok (some Token.rbracket, s) := rfl

theorem next_token_arrow (s : List Char) :
    next_token ('-' :: '>' :: s) = Except.ok (some Token.arrow, s) := rfl

theorem next_token_string (p rest : List Char) (h : good_payload p = true) :
    next_token ('"' :: (p ++ '"' :: rest)) =
      Except.ok (some (Token.string p), rest) := by
  have hs := scan_string_app p rest h
  unfold next_token
  rw [skip_all_id _ (by decide) (by decide)]
  simp [hs]

theorem next_token_char (c : Char) (rest : List Char)
    (h1 : ¬(c = '\\')) (h2 : ¬(c = '\'')) :
    next_token ('\'' :: c :: '\'' :: rest) =
      Except.ok (some (Token.charTok c), rest) := by
  unfold next_token
  rw [skip_all_id _ (by decide) (by decide)]
  split
  all_goals simp_all
  · rename_i v1 v2 hA hB heq
    exact absurd heq.symm (hB c rest)
  · rename_i heq
    obtain ⟨ha, hb⟩ := heq
    subst ha
    simp_all

theorem next_token_digits (s rest : List Char) (hne : s ≠ [])
    (hall : s.all is_digit = true) (hb : bdry rest = true) :
    next_token (s ++ rest) = Except.ok (some (Token.number s), rest) := by
  obtain ⟨d, ds, rfl⟩ : ∃ d ds, s = d :: ds := by
    cases s with
    | nil => exact absurd rfl hne
    | cons a b => exact ⟨a, b, rfl⟩
  have hd : is_digit d = true := by
    simp [List.all_cons] at hall
    exact hall.1
  have hds : ∀ c ∈ ds, is_digit c = true := by
    simp [List.all_cons] at hall
    exact hall.2
  have hbd : ∀ c r, rest = c :: r → is_dec_char c = false := by
    intro c r hr
    subst hr
    exact bdry_not_dec hb
  have htr : take_run is_dec_char ((d :: ds) ++ rest) = (d :: ds, rest) :=
    take_run_append _ _ _
      (by
        intro c hc
        rcases List.mem_cons.mp hc with h | h
        · subst h; simp [is_dec_char, hd]
        · simp [is_dec_char, hds c h])
      hbd
  have hxney : ∀ x r', ds ++ rest = x :: r' →
      ¬(x = 'x' ∨ x = 'X') ∧ ¬(x = 'b' ∨ x = 'B') ∧ ¬(x = 'o' ∨ x = 'O') := by
    intro x r' hxr
    cases ds with
    | nil =>
        simp only [List.nil_append] at hxr
        rw [hxr] at hb
        simp [bdry] at hb
        rcases hb with (h | h) | h <;> subst h <;> decide
    | cons e ds' =>
        have hx : e = x := (List.cons.injEq _ _ _ _ ▸ hxr).1
        subst hx
        obtain ⟨hb1, hb2⟩ := digit_bounds (hds e (List.mem_cons_self e ds'))
        refine ⟨?_, ?_, ?_⟩ <;>
          (rintro (h | h) <;> rw [h] at hb1 hb2 <;> revert hb1 hb2 <;> decide)
  unfold next_token
  rw [List.cons_append, skip_all_id _ (digit_not_ws hd) (digit_ne_semi hd)]
  split
  all_goals simp_all [is_digit]

theorem next_token_neg (s rest : List Char) (hne : s ≠ [])
    (hall : s.all is_digit = true) (hb : bdry rest = true) :
    next_token (('-' :: s) ++ rest) =
      Except.ok (some (Token.number ('-' :: s)), rest) := by
  obtain ⟨d, ds, rfl⟩ : ∃ d ds, s = d :: ds := by
    cases s with
    | nil => exact absurd rfl hne
    | cons a b => exact ⟨a, b, rfl⟩
  have hd : is_digit d = true := by
    simp [List.all_cons] at hall
    exact hall.1
  have hds : ∀ c ∈ ds, is_digit c = true := by
    simp [List.all_cons] at hall
    exact hall.2
  have htr : take_run is_dec_char ((d :: ds) ++ rest) = (d :: ds, rest) :=
    take_run_append _ _ _
      (by
        intro c hc
        rcases List.mem_cons.mp hc with h | h
        · subst h; simp [is_dec_char, hd]
        · simp [is_dec_char, hds c h])
      (by intro c r hr; subst hr; exact bdry_not_dec hb)
  unfold next_token
  rw [List.cons_append, List.cons_append,
    skip_all_id _ (by decide) (by decide)]
  split
  all_goals simp_all [is_digit]
  rename_i h0 hneg heq
  exact absurd heq.2.symm (hneg d (ds ++ rest) heq.1.symm)

theorem good_symbol_parts {s : List Char} (h : good_symbol s = true)
    (hna : ¬(s = '-' :: '>' :: [])) :
    ∃ c cs, s = c :: cs ∧ is_symbol_char c = true ∧
      (∀ x ∈ cs, is_symbol_char x = true) ∧ is_digit c = false ∧
      (c = '-' → ∀ x r, cs = x :: r → is_digit x = false ∧ ¬(x = '>')) := by
  rcases s with _ | ⟨c, cs⟩
  · exact absurd h (by decide)
  · unfold good_symbol at h
    rw [if_neg hna] at h
    simp only [Bool.and_eq_true, List.all_cons, Bool.not_eq_true'] at h
    obtain ⟨⟨⟨hc, hcs⟩, hdig⟩, hm⟩ := h
    refine ⟨c, cs, rfl, hc, ?_, hdig, ?_⟩
    · intro x hx
      exact List.all_eq_true.mp hcs x hx
    · intro he x r hcs'
      subst he
      subst hcs'
      simp at hm
      exact ⟨hm.1, hm.2⟩

theorem bdry_not_digit {c : Char} {r : List Char} (h : bdry (c :: r) = true) :
    is_digit c = false := by
  have hd := bdry_not_dec h
  simp [is_dec_char] at hd
  exact hd.1

theorem next_token_symbol_run (s rest : List Char) (h : good_symbol s = true)
    (hna : ¬(s = '-' :: '>' :: [])) (hb : bdry rest = true) :
    next_token (s ++ rest) = Except.ok (some (Token.symbol s), rest) := by
  obtain ⟨c, cs, rfl, hc, hcs, hdig, hdash⟩ := good_symbol_parts h hna
  have htr : take_run is_symbol_char ((c :: cs) ++ rest) = (c :: cs, rest) :=
    take_run_append _ _ _
      (by
        intro x hx
        rcases List.mem_cons.mp hx with h' | h'
        · subst h'; exact hc
        · exact hcs x h')
      (by intro x r hr; subst hr; exact bdry_not_sym hb)
  unfold next_token
  rw [List.cons_append, skip_all_id _ (sym_not_ws hc) (sym_ne_semi hc)]
  split
  case h_1 => simp_all
  case h_2 =>
    rename_i r heq
    have hc' : c = '-' := (List.cons.injEq _ _ _ _ ▸ heq).1
    have ht : cs ++ rest = '>' :: r := (List.cons.injEq _ _ _ _ ▸ heq).2
    cases cs with
    | nil =>
        simp only [List.nil_append] at ht
        rw [ht] at hb
        simp [bdry] at hb
    | cons e cs' =>
        have he : e = '>' := (List.cons.injEq _ _ _ _ ▸ ht).1
        exact absurd he (hdash hc' e cs' rfl).2
  case h_3 =>
    rename_i r heq
    have hc' : c = '(' := (List.cons.injEq _ _ _ _ ▸ heq).1
    subst hc'
    exact absurd hc (by decide)
  case h_4 =>
    rename_i r heq
    have hc' : c = ')' := (List.cons.injEq _ _ _ _ ▸ heq).1
    subst hc'
    exact absurd hc (by decide)
  case h_5 =>
    rename_i r heq
    have hc' : c = '[' := (List.cons.injEq _ _ _ _ ▸ heq).1
    subst hc'
    exact absurd hc (by decide)
  case h_6 =>
    rename_i r heq
    have hc' : c = ']' := (List.cons.injEq _ _ _ _ ▸ heq).1
    subst hc'
    exact absurd hc (by decide)
  case h_7 =>
    rename_i e r heq
    have hc' : c = '\'' := (List.cons.injEq _ _ _ _ ▸ heq).1
    subst hc'
    exact absurd hc (by decide)
  case h_8 =>
    rename_i c2 r heq
    have hc' : c = '\'' := (List.cons.injEq _ _ _ _ ▸ heq).1
    subst hc'
    exact absurd hc (by decide)
  case h_9 =>
    rename_i v1 v2 hq1 hq2 heq
    have hc' : c = '\'' := (List.cons.injEq _ _ _ _ ▸ heq).1
    subst hc'
    exact absurd hc (by decide)
  case h_10 =>
    rename_i r heq
    have hc' : c = '"' := (List.cons.injEq _ _ _ _ ▸ heq).1
    subst hc'
    exact absurd hc (by decide)
  case h_11 =>
    rename_i x r heq
    have hc' : c = '0' := (List.cons.injEq _ _ _ _ ▸ heq).1
    subst hc'
    exact absurd hdig (by decide)
  case h_12 v0 d2 r hpath heq =>
    have hc' : c = '-' := (List.cons.injEq _ _ _ _ ▸ heq).1
    have ht : cs ++ rest = d2 :: r := (List.cons.injEq _ _ _ _ ▸ heq).2
    have hdd : is_digit d2 = false := by
      cases cs with
      | nil =>
          simp only [List.nil_append] at ht
          rw [ht] at hb
          exact bdry_not_digit hb
      | cons e cs' =>
          have he : e = d2 := (List.cons.injEq _ _ _ _ ▸ ht).1
          rw [← he]
          exact (hdash hc' e cs' rfl).1
    rw [if_neg (by simp [hdd])]
    have harg : '-' :: d2 :: r = (c :: cs) ++ rest := by
      rw [List.cons_append, ← ht, hc']
    rw [harg, htr]
  case h_13 a1 c2 r2 b1 b2 b3 b4 b5 b6 b7 b8 b9 b10 b11 heq =>
    obtain ⟨h1, h2⟩ :=
      ((List.cons.injEq _ _ _ _ ▸ heq) : c = c2 ∧ cs ++ rest = r2)
    subst h1
    subst h2
    have htr' : take_run is_symbol_char (c :: (cs ++ rest)) = (c :: cs, rest) := by
      simpa using htr
    simp [hdig, hc, htr']

/-- One tokenization step prepends the token `next_token` found. -/
theorem tokenize_fuel_cons {s s' : List Char} {t : Token} {ts : List Token}
    (f : Nat) (h1 : next_token s = Except.ok (some t, s'))
    (h2 : tokenize_fuel f s' = Except.ok ts) :
    tokenize_fuel (f + 1) s = Except.ok (t :: ts) := by
  unfold tokenize_fuel
  rw [h1]
  simp [h2]


theorem good_plain_symbol_parts {s : List Char} (h : good_plain_symbol s = true) :
    good_symbol s = true ∧ ¬(s = '-' :: '>' :: []) := by
  unfold good_plain_symbol at h
  simp at h
  exact ⟨h.1, h.2⟩

theorem lex_one_param (p : ASTParam) (rest : List Char) (rts : List Token)
    (f : Nat) (hp : good_param p = true)
    (hf : tokenize_fuel f rest = Except.ok rts) :
    tokenize_fuel (f + (param_tokens p).length) (print_param p ++ rest) =
      Except.ok (param_tokens p ++ rts) := by
  obtain ⟨n, t⟩ := p
  cases t with
  | none =>
      have hn : good_plain_symbol n = true := by
        simp [good_param] at hp
        exact hp
      obtain ⟨hg, hna⟩ := good_plain_symbol_parts hn
      simp only [param_tokens, print_param, List.length_cons]
      -- print: '[' :: (n ++ (']' :: rest)); tokens: [lbracket, symbol n, rbracket]
      have s3 : tokenize_fuel (f + 1) (']' :: rest) =
          Except.ok (Token.rbracket :: rts) :=
        tokenize_fuel_cons f (next_token_rbracket rest) hf
      have s2 : tokenize_fuel (f + 2) (n ++ ']' :: rest) =
          Except.ok (Token.symbol n :: Token.rbracket :: rts) :=
        tokenize_fuel_cons (f + 1)
          (next_token_symbol_run n (']' :: rest) hg hna (by simp [bdry])) s3
      have s1 : tokenize_fuel (f + 3) ('[' :: (n ++ ']' :: rest)) =
          Except.ok (Token.lbracket :: Token.symbol n :: Token.rbracket :: rts) :=
        tokenize_fuel_cons (f + 2) (next_token_lbracket _) s2
      simpa using s1
  | some ty =>
      have hn : good_plain_symbol n = true ∧ good_plain_symbol ty = true := by
        simp [good_param] at hp
        exact hp
      obtain ⟨hg, hna⟩ := good_plain_symbol_parts hn.1
      obtain ⟨hgt, hnat⟩ := good_plain_symbol_parts hn.2
      simp only [param_tokens, print_param, List.length_cons]
      -- print: '[' :: (n ++ (' '::':'::':'::' ':: ty) ++ [']']) ++ rest
      have s5 : tokenize_fuel (f + 1) (']' :: rest) =
          Except.ok (Token.rbracket :: rts) :=
        tokenize_fuel_cons f (next_token_rbracket rest) hf
      have s4 : tokenize_fuel (f + 2) (ty ++ ']' :: rest) =
          Except.ok (Token.symbol ty :: Token.rbracket :: rts) :=
        tokenize_fuel_cons (f + 1)
          (next_token_symbol_run ty (']' :: rest) hgt hnat (by simp [bdry])) s5
      have s3 : tokenize_fuel (f + 3) ((':' :: ':' :: []) ++ (' ' :: (ty ++ ']' :: rest))) =
          Except.ok (Token.symbol (':' :: ':' :: []) :: Token.symbol ty :: Token.rbracket :: rts) :=
        tokenize_fuel_cons (f + 2)
          (next_token_symbol_run (':' :: ':' :: []) (' ' :: (ty ++ ']' :: rest))
            (by decide) (by decide) (by simp [bdry]))
          (by rw [tokenize_fuel_ws]; exact s4)
      have s2 : tokenize_fuel (f + 4) (n ++ (' ' :: ':' :: ':' :: ' ' :: (ty ++ ']' :: rest))) =
          Except.ok (Token.symbol n :: Token.symbol (':' :: ':' :: []) ::
            Token.symbol ty :: Token.rbracket :: rts) :=
        tokenize_fuel_cons (f + 3)
          (next_token_symbol_run n (' ' :: ':' :: ':' :: ' ' :: (ty ++ ']' :: rest))
            hg hna (by simp [bdry]))
          (by rw [tokenize_fuel_ws]; exact s3)
      have s1 := tokenize_fuel_cons (f + 4) (next_token_lbracket
        (n ++ (' ' :: ':' :: ':' :: ' ' :: (ty ++ ']' :: rest)))) s2
      simpa [List.append_assoc] using s1

theorem lex_params : ∀ (ps : List ASTParam) (rest : List Char) (rts : List Token)
    (f : Nat), good_params ps = true → bdry rest = true →
    tokenize_fuel f rest = Except.ok rts →
    tokenize_fuel (f + (params_tokens ps).length) (print_params ps ++ rest) =
      Except.ok (params_tokens ps ++ rts)
  | [], rest, rts, f, _, _, hf => by simpa [print_params, params_tokens] using hf
  | [p], rest, rts, f, hp, hb, hf => by
      have hp1 : good_param p = true := by
        simp [good_params] at hp
        exact hp
      have := lex_one_param p rest rts f hp1 hf
      simpa [print_params, params_tokens] using this
  | p :: q :: ps, rest, rts, f, hp, hb, hf => by
      have hp1 : good_param p = true := by
        simp [good_params] at hp
        exact hp.1
      have hps : good_params (q :: ps) = true := by
        simp [good_params] at hp ⊢
        exact ⟨hp.2.1, hp.2.2⟩
      have hrec := lex_params (q :: ps) rest rts f hps hb hf
      have hws : tokenize_fuel (f + (params_tokens (q :: ps)).length)
          (' ' :: (print_params (q :: ps) ++ rest)) =
          Except.ok (params_tokens (q :: ps) ++ rts) := by
        rw [tokenize_fuel_ws]
        exact hrec
      have := lex_one_param p (' ' :: (print_params (q :: ps) ++ rest))
        (params_tokens (q :: ps) ++ rts) (f + (params_tokens (q :: ps)).length)
        hp1 hws
      rw [show print_params (p :: q :: ps) =
          print_param p ++ ' ' :: print_params (q :: ps) from rfl]
      rw [show params_tokens (p :: q :: ps) =
          param_tokens p ++ params_tokens (q :: ps) from rfl]
      rw [show f + (param_tokens p ++ params_tokens (q :: ps)).length =
          f + (params_tokens (q :: ps)).length + (param_tokens p).length from by
        simp [List.length_append]; omega]
      simpa [List.append_assoc] using this

theorem lex_ret (ret : Option (List Char)) (rest : List Char) (rts : List Token)
    (f : Nat)
    (hg : ∀ r, ret = some r → good_plain_symbol r = true)
    (hf : tokenize_fuel f rest = Except.ok rts) :
    tokenize_fuel (f + (ret_toks ret).length + 1)
      (ret_mark ret ++ ')' :: rest) =
      Except.ok (ret_toks ret ++ Token.rparen :: rts) := by
  cases ret with
  | none =>
      simpa [ret_mark, ret_toks] using
        tokenize_fuel_cons f (next_token_rparen rest) hf
  | some r =>
      obtain ⟨hgr, hnar⟩ := good_plain_symbol_parts (hg r rfl)
      have s1 : tokenize_fuel (f + 1) (')' :: rest) =
          Except.ok (Token.rparen :: rts) :=
        tokenize_fuel_cons f (next_token_rparen rest) hf
      have s2 : tokenize_fuel (f + 2) (r ++ ')' :: rest) =
          Except.ok (Token.symbol r :: Token.rparen :: rts) :=
        tokenize_fuel_cons (f + 1)
          (next_token_symbol_run r (')' :: rest) hgr hnar (by simp [bdry])) s1
      have s3 : tokenize_fuel (f + 3) ('-' :: '>' :: (' ' :: (r ++ ')' :: rest))) =
          Except.ok (Token.arrow :: Token.symbol r :: Token.rparen :: rts) :=
        tokenize_fuel_cons (f + 2) (next_token_arrow _)
          (by rw [tokenize_fuel_ws]; exact s2)
      have s4 : tokenize_fuel (f + 3) (' ' :: '-' :: '>' :: ' ' :: (r ++ ')' :: rest)) =
          Except.ok (Token.arrow :: Token.symbol r :: Token.rparen :: rts) := by
        rw [tokenize_fuel_ws]
        exact s3
      simpa [ret_mark, ret_toks, List.append_assoc] using s4

theorem lex_doc (doc : Option (List Char)) (rest : List Char) (rts : List Token)
    (f : Nat)
    (hg : ∀ d, doc = some d → good_payload d = true)
    (hf : tokenize_fuel f rest = Except.ok rts) :
    tokenize_fuel (f + (doc_toks doc).length) (doc_mark doc ++ rest) =
      Except.ok (doc_toks doc ++ rts) := by
  cases doc with
  | none => simpa [doc_mark, doc_toks] using hf
  | some d =>
      have s1 : tokenize_fuel (f + 1) ('"' :: (d ++ '"' :: rest)) =
          Except.ok (Token.string d :: rts) :=
        tokenize_fuel_cons f (next_token_string d rest (hg d rfl)) hf
      have s2 : tokenize_fuel (f + 1) (' ' :: '"' :: (d ++ '"' :: rest)) =
          Except.ok (Token.string d :: rts) := by
        rw [tokenize_fuel_ws]
        exact s1
      simpa [doc_mark, doc_toks, List.append_assoc] using s2

theorem is_digit_digit_char {d : Nat} (h : d < 10) :
    is_digit (digit_char d) = true := by
  interval_cases d <;> decide

theorem digits_all : ∀ (fuel n : Nat), n < fuel →
    ∀ c ∈ nat_digits_aux digit_char 10 fuel n, is_digit c = true
  | 0, n, h => by omega
  | fuel + 1, n, h => by
      intro c hc
      unfold nat_digits_aux at hc
      by_cases hlt : n < 10
      · rw [if_pos hlt] at hc
        simp at hc
        subst hc
        exact is_digit_digit_char hlt
      · rw [if_neg hlt] at hc
        rcases List.mem_append.mp hc with h' | h'
        · exact digits_all fuel (n / 10) (by omega) c h'
        · simp at h'
          subst h'
          exact is_digit_digit_char (Nat.mod_lt n (by omega))

theorem digits_ne : ∀ (fuel n : Nat), n < fuel →
    nat_digits_aux digit_char 10 fuel n ≠ []
  | 0, n, h => by omega
  | fuel + 1, n, h => by
      unfold nat_digits_aux
      by_cases hlt : n < 10
      · simp [hlt]
      · rw [if_neg hlt]
        simp

theorem ast_print_lambda_eq (ps : List ASTParam) (ret doc : Option (List Char))
    (body : AST) :
    ast_print (AST.lambda ps ret doc body) =
      "(lambda (".toList ++ print_params ps ++ ret_mark ret ++
        ')' :: (doc_mark doc ++ ' ' :: ast_print body ++ [')']) := by
  cases ret <;> cases doc <;> simp [ast_print, ret_mark, doc_mark]

theorem ast_tokens_lambda_eq (ps : List ASTParam) (ret doc : Option (List Char))
    (body : AST) :
    ast_tokens (AST.lambda ps ret doc body) =
      Token.lparen :: Token.symbol ("lambda".toList) :: Token.lparen ::
        (params_tokens ps ++ ret_toks ret ++ Token.rparen ::
          (doc_toks doc ++ ast_tokens body ++ [Token.rparen])) := by
  cases ret <;> cases doc <;> simp [ast_tokens, ret_toks, doc_toks]

theorem good_doc_of (doc : Option (List Char)) (body : AST)
    (h : (match doc, body with
          | none, AST.string _ => false
          | none, _ => true
          | some d, _ => good_payload d) = true) :
    ∀ d, doc = some d → good_payload d = true := by
  intro d hd
  subst hd
  exact h

mutual

theorem lex_print : ∀ (a : AST), good_ast a = true →
    ∀ (rest : List Char) (rts : List Token) (f : Nat), bdry rest = true →
    tokenize_fuel f rest = Except.ok rts →
    tokenize_fuel (f + (ast_tokens a).length) (ast_print a ++ rest) =
      Except.ok (ast_tokens a ++ rts)
  | AST.number v lit, h, rest, rts, f, hb, hf => by
      have hcond : v.den = 1 ∧ v.num.natAbs < 1000000 := by
        simp [good_ast] at h
        exact ⟨h.1.1, h.1.2⟩
      have hg : g_format v = int_to_dec v.num := by
        unfold g_format
        rw [if_pos hcond]
      have hall : (nat_to_base digit_char 10 v.num.natAbs).all is_digit = true :=
        List.all_eq_true.mpr
          (fun c hc => digits_all _ _ (Nat.lt_succ_self _) c hc)
      have hne : nat_to_base digit_char 10 v.num.natAbs ≠ [] :=
        digits_ne _ _ (Nat.lt_succ_self _)
      have hnt : next_token (int_to_dec v.num ++ rest) =
          Except.ok (some (Token.number (int_to_dec v.num)), rest) := by
        unfold int_to_dec
        by_cases hneg : v.num < 0
        · rw [if_pos hneg]
          exact next_token_neg _ rest hne hall hb
        · rw [if_neg hneg]
          exact next_token_digits _ rest hne hall hb
      have := tokenize_fuel_cons f hnt hf
      simp only [ast_print, ast_tokens, hg]
      simpa using this
  | AST.symbol s, h, rest, rts, f, hb, hf => by
      have hgs : good_symbol s = true := by simpa [good_ast] using h
      by_cases harr : s = '-' :: '>' :: []
      · subst harr
        have hnt := next_token_arrow rest
        have := tokenize_fuel_cons f hnt hf
        simpa [ast_print, ast_tokens] using this
      · have hnt := next_token_symbol_run s rest hgs harr hb
        have := tokenize_fuel_cons f hnt hf
        simpa [ast_print, ast_tokens, harr] using this
  | AST.string s, h, rest, rts, f, hb, hf => by
      have hgs : good_payload s = true := by simpa [good_ast] using h
      have hnt := next_token_string s rest hgs
      have := tokenize_fuel_cons f hnt hf
      simpa [ast_print, ast_tokens, List.append_assoc] using this
  | AST.char c, h, rest, rts, f, hb, hf => by
      have hgs : ¬(c = '\\') ∧ ¬(c = '\'') := by
        simp [good_ast] at h
        exact ⟨h.1.1, h.1.2⟩
      have hnt := next_token_char c rest hgs.1 hgs.2
      have := tokenize_fuel_cons f hnt hf
      simpa [ast_print, ast_tokens] using this
  | AST.list items, h, rest, rts, f, hb, hf => by
      have hgl : good_ast_list items = true := by
        simp [good_ast] at h
        exact h.1
      have s1 : tokenize_fuel (f + 1) (')' :: rest) =
          Except.ok (Token.rparen :: rts) :=
        tokenize_fuel_cons f (next_token_rparen rest) hf
      have s2 := lex_print_list items hgl (')' :: rest) (Token.rparen :: rts)
        (f + 1) (by simp [bdry]) s1
      have s3 := tokenize_fuel_cons (f + 1 + (ast_tokens_list items).length)
        (next_token_lparen (ast_print_list items ++ ')' :: rest)) s2
      rw [show f + (ast_tokens (AST.list items)).length =
          f + 1 + (ast_tokens_list items).length + 1 from by
        simp [ast_tokens, List.length_append]
        omega]
      simpa [ast_print, ast_tokens, List.append_assoc] using s3
  | AST.lambda ps ret doc body, h, rest, rts, f, hb, hf => by
      simp [good_ast] at h
      obtain ⟨⟨⟨hgp, hgr0⟩, hgd0⟩, hgb⟩ := h
      have hgd := good_doc_of doc body hgd0
      have hgr : ∀ r, ret = some r → good_plain_symbol r = true := by
        intro r hr
        subst hr
        exact hgr0
      -- final ')' then body
      have s1 : tokenize_fuel (f + 1) (')' :: rest) =
          Except.ok (Token.rparen :: rts) :=
        tokenize_fuel_cons f (next_token_rparen rest) hf
      have s2 := lex_print body hgb (')' :: rest) (Token.rparen :: rts)
        (f + 1) (by simp [bdry]) s1
      -- separating space before the body
      have s3 : tokenize_fuel (f + 1 + (ast_tokens body).length)
          (' ' :: (ast_print body ++ ')' :: rest)) =
          Except.ok (ast_tokens body ++ Token.rparen :: rts) := by
        rw [tokenize_fuel_ws]
        exact s2
      -- optional docstring
      have s4 := lex_doc doc (' ' :: (ast_print body ++ ')' :: rest))
        (ast_tokens body ++ Token.rparen :: rts)
        (f + 1 + (ast_tokens body).length) hgd s3
      -- signature: return mark and its closing ')'
      have s5 := lex_ret ret
        (doc_mark doc ++ (' ' :: (ast_print body ++ ')' :: rest)))
        (doc_toks doc ++ (ast_tokens body ++ Token.rparen :: rts))
        (f + 1 + (ast_tokens body).length + (doc_toks doc).length) hgr
        (by simpa [List.append_assoc] using s4)
      -- parameters
      have s6 := lex_params ps
        (ret_mark ret ++ ')' ::
          (doc_mark doc ++ (' ' :: (ast_print body ++ ')' :: rest))))
        (ret_toks ret ++ Token.rparen ::
          (doc_toks doc ++ (ast_tokens body ++ Token.rparen :: rts)))
        (f + 1 + (ast_tokens body).length + (doc_toks doc).length +
          (ret_toks ret).length + 1)
        hgp
        (by rcases ret with _ | r <;> simp [ret_mark, bdry])
        (by simpa [List.append_assoc] using s5)
      -- the inner '('
      have s7 := tokenize_fuel_cons _
        (next_token_lparen (print_params ps ++
          (ret_mark ret ++ ')' ::
            (doc_mark doc ++ (' ' :: (ast_print body ++ ')' :: rest)))))) s6
      -- the 'lambda' symbol followed by a space
      have s8 := tokenize_fuel_cons _
        (next_token_symbol_run ('l' :: 'a' :: 'm' :: 'b' :: 'd' :: 'a' :: [])
          (' ' :: '(' :: (print_params ps ++
            (ret_mark ret ++ ')' ::
              (doc_mark doc ++ (' ' :: (ast_print body ++ ')' :: rest))))))
          (by decide) (by decide) (by simp [bdry]))
        (by rw [tokenize_fuel_ws]; exact s7)
      -- the outer '('
      have s9 := tokenize_fuel_cons _
        (next_token_lparen ('l' :: 'a' :: 'm' :: 'b' :: 'd' :: 'a' :: ' ' :: '(' ::
          (print_params ps ++
            (ret_mark ret ++ ')' ::
              (doc_mark doc ++ (' ' :: (ast_print body ++ ')' :: rest))))))) s8
      rw [ast_print_lambda_eq, ast_tokens_lambda_eq]
      rw [show f + (Token.lparen :: Token.symbol ("lambda".toList) :: Token.lparen ::
          (params_tokens ps ++ ret_toks ret ++ Token.rparen ::
            (doc_toks doc ++ ast_tokens body ++ [Token.rparen]))).length =
          f + 1 + (ast_tokens body).length + (doc_toks doc).length +
            (ret_toks ret).length + 1 + (params_tokens ps).length + 1 + 1 + 1 from by
        simp [List.length_append]
        omega]
      have hstr : ("(lambda (".toList : List Char) =
          '(' :: 'l' :: 'a' :: 'm' :: 'b' :: 'd' :: 'a' :: ' ' :: '(' :: [] := rfl
      have hsym : ("lambda".toList : List Char) =
          'l' :: 'a' :: 'm' :: 'b' :: 'd' :: 'a' :: [] := rfl
      rw [hstr, hsym]
      simpa [List.append_assoc] using s9

theorem lex_print_list : ∀ (items : List AST), good_ast_list items = true →
    ∀ (rest : List Char) (rts : List Token) (f : Nat), bdry rest = true →
    tokenize_fuel f rest = Except.ok rts →
    tokenize_fuel (f + (ast_tokens_list items).length)
      (ast_print_list items ++ rest) =
      Except.ok (ast_tokens_list items ++ rts)
  | [], _, rest, rts, f, hb, hf => by
      simpa [ast_print_list, ast_tokens_list] using hf
  | [x], h, rest, rts, f, hb, hf => by
      have hgx : good_ast x = true := by
        simp [good_ast_list] at h
        exact h
      have := lex_print x hgx rest rts f hb hf
      simpa [ast_print_list, ast_tokens_list] using this
  | x :: y :: xs, h, rest, rts, f, hb, hf => by
      have hgx : good_ast x = true := by
        simp [good_ast_list] at h
        exact h.1
      have hgl : good_ast_list (y :: xs) = true := by
        simp [good_ast_list] at h ⊢
        exact ⟨h.2.1, h.2.2⟩
      have s1 := lex_print_list (y :: xs) hgl rest rts f hb hf
      have s2 : tokenize_fuel (f + (ast_tokens_list (y :: xs)).length)
          (' ' :: (ast_print_list (y :: xs) ++ rest)) =
          Except.ok (ast_tokens_list (y :: xs) ++ rts) := by
        rw [tokenize_fuel_ws]
        exact s1
      have s3 := lex_print x hgx (' ' :: (ast_print_list (y :: xs) ++ rest))
        (ast_tokens_list (y :: xs) ++ rts)
        (f + (ast_tokens_list (y :: xs)).length) (by simp [bdry]) s2
      rw [show f + (ast_tokens_list (x :: y :: xs)).length =
          f + (ast_tokens_list (y :: xs)).length + (ast_tokens x).length from by
        simp [ast_tokens_list, List.length_append]
        omega]
      rw [show ast_print_list (x :: y :: xs) =
          ast_print x ++ ' ' :: ast_print_list (y :: xs) from rfl]
      rw [show ast_tokens_list (x :: y :: xs) =
          ast_tokens x ++ ast_tokens_list (y :: xs) from rfl]
      simpa [List.append_assoc] using s3

end

theorem tokenize_fuel_mono : ∀ (f : Nat) (s : List Char) (ts : List Token),
    tokenize_fuel f s = Except.ok ts →
    ∀ f', f ≤ f' → tokenize_fuel f' s = Except.ok ts
  | 0, s, ts, h, _, _ => by simp [tokenize_fuel] at h
  | f + 1, s, ts, h, f', hf' => by
      obtain ⟨f'', rfl⟩ : ∃ g, f' = g + 1 := ⟨f' - 1, by omega⟩
      unfold tokenize_fuel at h ⊢
      cases hnt : next_token s with
      | error e => rw [hnt] at h; exact absurd h (by simp)
      | ok p =>
          obtain ⟨t?, rest⟩ := p
          rw [hnt] at h
          cases t? with
          | none =>
              dsimp only at h ⊢
              exact h
          | some t =>
              dsimp only at h ⊢
              cases hrec : tokenize_fuel f rest with
              | error e => rw [hrec] at h; exact absurd h (by simp)
              | ok ts' =>
                  rw [hrec] at h
                  rw [tokenize_fuel_mono f rest ts' hrec f'' (by omega)]
                  exact h

theorem good_symbol_ne_nil {s : List Char} (h : good_symbol s = true) :
    s ≠ [] := by
  intro he
  subst he
  exact absurd h (by decide)

theorem params_print_le : ∀ (ps : List ASTParam), good_params ps = true →
    (params_tokens ps).length ≤ (print_params ps).length
  | [], _ => by simp [params_tokens, print_params]
  | [p], h => by
      have hp : good_param p = true := by
        simp [good_params] at h
        exact h
      obtain ⟨n, t⟩ := p
      cases t with
      | none =>
          have hn : good_plain_symbol n = true := by
            simp [good_param] at hp
            exact hp
          obtain ⟨hg, -⟩ := good_plain_symbol_parts hn
          have := good_symbol_ne_nil hg
          have : 1 ≤ n.length := by
            cases n with
            | nil => exact absurd rfl this
            | cons a b => simp
          simp [params_tokens, print_params, param_tokens, print_param]
          omega
      | some ty =>
          simp [params_tokens, print_params, param_tokens, print_param]
          omega
  | p :: q :: ps, h => by
      have hp : good_param p = true := by
        simp [good_params] at h
        exact h.1
      have hps : good_params (q :: ps) = true := by
        simp [good_params] at h ⊢
        exact ⟨h.2.1, h.2.2⟩
      have ih := params_print_le (q :: ps) hps
      obtain ⟨n, t⟩ := p
      have hone : (param_tokens ⟨n, t⟩).length ≤ (print_param ⟨n, t⟩).length := by
        cases t with
        | none =>
            have hn : good_plain_symbol n = true := by
              simp [good_param] at hp
              exact hp
            obtain ⟨hg, -⟩ := good_plain_symbol_parts hn
            have hne := good_symbol_ne_nil hg
            have : 1 ≤ n.length := by
              cases n with
              | nil => exact absurd rfl hne
              | cons a b => simp
            simp [param_tokens, print_param]
            omega
        | some ty =>
            simp [param_tokens, print_param]
            omega
      rw [show params_tokens (⟨n, t⟩ :: q :: ps) =
          param_tokens ⟨n, t⟩ ++ params_tokens (q :: ps) from rfl]
      rw [show print_params (⟨n, t⟩ :: q :: ps) =
          print_param ⟨n, t⟩ ++ ' ' :: print_params (q :: ps) from rfl]
      simp only [List.length_append, List.length_cons]
      omega

mutual

theorem toks_le_print : ∀ (a : AST), good_ast a = true →
    (ast_tokens a).length ≤ (ast_print a).length
  | AST.number v lit, h => by
      have hg : g_format v ≠ [] := by
        unfold g_format
        split
        · unfold int_to_dec
          split
          · simp
          · exact digits_ne _ _ (Nat.lt_succ_self _)
        · simp
      have : 1 ≤ (g_format v).length := by
        cases hgf : g_format v with
        | nil => exact absurd hgf hg
        | cons a b => simp
      simpa [ast_tokens, ast_print] using this
  | AST.symbol s, h => by
      have hgs : good_symbol s = true := by simpa [good_ast] using h
      have hne := good_symbol_ne_nil hgs
      have h1 : 1 ≤ s.length := by
        cases s with
        | nil => exact absurd rfl hne
        | cons a b => simp
      by_cases harr : s = '-' :: '>' :: []
      · subst harr
        simp [ast_tokens, ast_print]
      · simp [ast_tokens, ast_print, harr]
        omega
  | AST.string s, h => by
      simp [ast_tokens, ast_print]
  | AST.char c, h => by
      simp [ast_tokens, ast_print]
  | AST.list items, h => by
      have hgl : good_ast_list items = true := by
        simp [good_ast] at h
        exact h.1
      have := toks_le_print_list items hgl
      simp [ast_tokens, ast_print, List.length_append]
      omega
  | AST.lambda ps ret doc body, h => by
      simp [good_ast] at h
      obtain ⟨⟨⟨hgp, hgr0⟩, hgd0⟩, hgb⟩ := h
      have hb := toks_le_print body hgb
      have hp := params_print_le ps hgp
      have hr : (ret_toks ret).length ≤ (ret_mark ret).length := by
        cases ret <;> simp [ret_toks, ret_mark]
      have hd : (doc_toks doc).length ≤ (doc_mark doc).length := by
        cases doc <;> simp [doc_toks, doc_mark]
      rw [ast_print_lambda_eq, ast_tokens_lambda_eq]
      simp only [List.length_append, List.length_cons]
      have hstr : ("(lambda (".toList : List Char).length = 9 := rfl
      simp [hstr]
      omega

theorem toks_le_print_list : ∀ (items : List AST), good_ast_list items = true →
    (ast_tokens_list items).length ≤ (ast_print_list items).length
  | [], _ => by simp [ast_tokens_list, ast_print_list]
  | [x], h => by
      have hgx : good_ast x = true := by
        simp [good_ast_list] at h
        exact h
      simpa [ast_tokens_list, ast_print_list] using toks_le_print x hgx
  | x :: y :: xs, h => by
      have hgx : good_ast x = true := by
        simp [good_ast_list] at h
        exact h.1
      have hgl : good_ast_list (y :: xs) = true := by
        simp [good_ast_list] at h ⊢
        exact ⟨h.2.1, h.2.2⟩
      have h1 := toks_le_print x hgx
      have h2 := toks_le_print_list (y :: xs) hgl
      rw [show ast_tokens_list (x :: y :: xs) =
          ast_tokens x ++ ast_tokens_list (y :: xs) from rfl]
      rw [show ast_print_list (x :: y :: xs) =
          ast_print x ++ ' ' :: ast_print_list (y :: xs) from rfl]
      simp only [List.length_append, List.length_cons]
      omega

end

/-- Tokenizing the printed form of a well-behaved AST recovers exactly
its token list. -/
theorem tokenize_print (a : AST) (h : good_ast a = true) :
    tokenize (ast_print a) = Except.ok (ast_tokens a) := by
  have base := lex_print a h [] [] 1 (by decide) (by decide)
  simp only [List.append_nil] at base
  unfold tokenize
  exact tokenize_fuel_mono _ _ _ base _
    (by have := toks_le_print a h; omega)


theorem digit_char_toNat {d : Nat} (h : d < 10) :
    (digit_char d).toNat = 48 + d := by
  interval_cases d <;> decide

theorem dec_int_part_all : ∀ (ds : List Char) (acc : Nat),
    ds.all is_digit = true →
    dec_int_part ds acc =
      (List.foldl (fun a c => a * 10 + (c.toNat - 48)) acc ds, [])
  | [], acc, _ => rfl
  | c :: ds, acc, h => by
      have hc : is_digit c = true := by
        simp [List.all_cons] at h
        exact h.1
      have hds : ds.all is_digit = true := by
        simp [List.all_cons] at h
        exact List.all_eq_true.mpr h.2
      unfold dec_int_part
      rw [if_pos hc]
      rw [dec_int_part_all ds (acc * 10 + (c.toNat - 48)) hds]
      rfl

theorem digits_foldl : ∀ (fuel n acc : Nat), n < fuel →
    List.foldl (fun a c => a * 10 + (c.toNat - 48)) acc
      (nat_digits_aux digit_char 10 fuel n) =
      acc * 10 ^ (nat_digits_aux digit_char 10 fuel n).length + n
  | 0, n, acc, h => by omega
  | fuel + 1, n, acc, h => by
      unfold nat_digits_aux
      by_cases hlt : n < 10
      · rw [if_pos hlt]
        simp [digit_char_toNat hlt]
      · rw [if_neg hlt]
        rw [List.foldl_append]
        rw [digits_foldl fuel (n / 10) acc (by omega)]
        simp [digit_char_toNat (Nat.mod_lt n (by omega))]
        rw [pow_succ]
        ring_nf
        rw [Nat.add_assoc]
        congr 1
        omega

theorem atof_unsigned_digits (n : Nat) :
    atof_unsigned (nat_to_base digit_char 10 n) = (n : ℚ) := by
  have hall : (nat_to_base digit_char 10 n).all is_digit = true :=
    List.all_eq_true.mpr (fun c hc => digits_all _ _ (Nat.lt_succ_self _) c hc)
  unfold atof_unsigned
  rw [dec_int_part_all _ 0 hall]
  rw [show nat_to_base digit_char 10 n = nat_digits_aux digit_char 10 (n + 1) n
    from rfl]
  rw [digits_foldl (n + 1) n 0 (Nat.lt_succ_self n)]
  simp

theorem atof_model_digits (n : Nat) :
    atof_model (nat_to_base digit_char 10 n) = (n : ℚ) := by
  have hall : (nat_to_base digit_char 10 n).all is_digit = true :=
    List.all_eq_true.mpr (fun c hc => digits_all _ _ (Nat.lt_succ_self _) c hc)
  have hne : nat_to_base digit_char 10 n ≠ [] := digits_ne _ _ (Nat.lt_succ_self _)
  have hvd := atof_unsigned_digits n
  unfold atof_model
  split
  · rename_i r heq
    -- the digit run cannot start with '-'
    exfalso
    rw [heq] at hall
    simp [List.all_cons, is_digit] at hall
  · exact hvd

theorem parse_number_str_digits (n : Nat) :
    parse_number_str (nat_to_base digit_char 10 n) = (n : ℚ) := by
  have hall : (nat_to_base digit_char 10 n).all is_digit = true :=
    List.all_eq_true.mpr (fun c hc => digits_all _ _ (Nat.lt_succ_self _) c hc)
  have hvd := atof_model_digits n
  unfold parse_number_str
  split
  · rename_i c0 c1 rest heq
    rw [heq] at hall
    have hc1 : is_digit c1 = true := by
      simp [List.all_cons] at hall
      exact hall.2.1
    obtain ⟨hb1, hb2⟩ := digit_bounds hc1
    have nx : ¬(c1 = 'x') := fun he => absurd (he ▸ hb2) (by decide)
    have nX : ¬(c1 = 'X') := fun he => absurd (he ▸ hb2) (by decide)
    have nb : ¬(c1 = 'b') := fun he => absurd (he ▸ hb2) (by decide)
    have nB : ¬(c1 = 'B') := fun he => absurd (he ▸ hb2) (by decide)
    have no : ¬(c1 = 'o') := fun he => absurd (he ▸ hb2) (by decide)
    have nO : ¬(c1 = 'O') := fun he => absurd (he ▸ hb2) (by decide)
    rw [if_neg (by rintro ⟨-, h | h⟩; exact nx h; exact nX h)]
    rw [if_neg (by rintro ⟨-, h | h⟩; exact nb h; exact nB h)]
    rw [if_neg (by rintro ⟨-, h | h⟩; exact no h; exact nO h)]
    exact hvd
  · exact hvd

theorem parse_number_str_int (m : Int) :
    parse_number_str (int_to_dec m) = (m : ℚ) := by
  unfold int_to_dec
  by_cases hneg : m < 0
  · rw [if_pos hneg]
    obtain ⟨d, ds, hds⟩ : ∃ d ds, nat_to_base digit_char 10 m.natAbs = d :: ds := by
      cases hx : nat_to_base digit_char 10 m.natAbs with
      | nil => exact absurd hx (digits_ne _ _ (Nat.lt_succ_self _))
      | cons a b => exact ⟨a, b, rfl⟩
    rw [hds]
    unfold parse_number_str
    dsimp only
    rw [if_neg (by rintro ⟨h, -⟩; exact absurd h (by decide))]
    rw [if_neg (by rintro ⟨h, -⟩; exact absurd h (by decide))]
    rw [if_neg (by rintro ⟨h, -⟩; exact absurd h (by decide))]
    have hm : atof_model ('-' :: d :: ds) = -(atof_unsigned (d :: ds)) := rfl
    rw [hm, ← hds, atof_unsigned_digits]
    rw [Int.cast_natAbs]
    rw [abs_of_neg (by exact_mod_cast hneg)]
    push_cast
    ring
  · rw [if_neg hneg]
    rw [parse_number_str_digits]
    rw [Int.cast_natAbs]
    rw [abs_of_nonneg (by exact_mod_cast (not_lt.mp hneg))]

theorem parse_sig : ∀ (ps : List ASTParam) (acc : List ASTParam)
    (ret : Option (List Char)) (rest : List Token) (n : Nat),
    good_params ps = true → ps.length + 4 ≤ n →
    parse_fn_sig_t n acc none
        (params_tokens ps ++ ret_toks ret ++ Token.rparen :: rest) =
      Except.ok ((acc ++ ps, ret), rest)
  | [], acc, ret, rest, n, _, hn => by
      obtain ⟨m, rfl⟩ : ∃ m, n = m + 1 := ⟨n - 1, by omega⟩
      cases ret with
      | none =>
          simp [params_tokens, ret_toks, parse_fn_sig_t]
      | some r =>
          obtain ⟨m', rfl⟩ : ∃ k, m = k + 1 := ⟨m - 1, by omega⟩
          obtain ⟨m'', rfl⟩ : ∃ k, m' = k + 1 := ⟨m' - 1, by omega⟩
          simp [params_tokens, ret_toks, parse_fn_sig_t]
  | p :: ps, acc, ret, rest, n, hg, hn => by
      obtain ⟨pn, pt⟩ := p
      have hp : good_param ⟨pn, pt⟩ = true := by
        simp [good_params] at hg
        exact hg.1
      have hps : good_params ps = true := by
        simp [good_params] at hg
        exact hg.2
      obtain ⟨m, rfl⟩ : ∃ m, n = m + 1 := ⟨n - 1, by omega⟩
      have ih := parse_sig ps (acc ++ [⟨pn, pt⟩]) ret rest m hps
        (by simp at hn ⊢; omega)
      cases pt with
      | none =>
          rw [show params_tokens (⟨pn, none⟩ :: ps) =
            Token.lbracket :: Token.symbol pn :: Token.rbracket ::
              params_tokens ps from rfl]
          rw [show (Token.lbracket :: Token.symbol pn :: Token.rbracket ::
              params_tokens ps) ++ ret_toks ret ++ Token.rparen :: rest =
            Token.lbracket :: Token.symbol pn :: Token.rbracket ::
              (params_tokens ps ++ ret_toks ret ++ Token.rparen :: rest) from by
            simp]
          unfold parse_fn_sig_t
          dsimp only
          rw [show parse_one_param_t (Token.symbol pn :: Token.rbracket ::
              (params_tokens ps ++ ret_toks ret ++ Token.rparen :: rest)) =
            ({ name := pn, type_name := none }, Token.rbracket ::
              (params_tokens ps ++ ret_toks ret ++ Token.rparen :: rest)) from rfl]
          dsimp only
          rw [ih]
          simp
      | some ty =>
          rw [show params_tokens (⟨pn, some ty⟩ :: ps) =
            Token.lbracket :: Token.symbol pn ::
              Token.symbol (':' :: ':' :: []) :: Token.symbol ty ::
              Token.rbracket :: params_tokens ps from rfl]
          rw [show (Token.lbracket :: Token.symbol pn ::
              Token.symbol (':' :: ':' :: []) :: Token.symbol ty ::
              Token.rbracket :: params_tokens ps) ++ ret_toks ret ++
              Token.rparen :: rest =
            Token.lbracket :: Token.symbol pn ::
              Token.symbol (':' :: ':' :: []) :: Token.symbol ty ::
              Token.rbracket ::
              (params_tokens ps ++ ret_toks ret ++ Token.rparen :: rest) from by
            simp]
          unfold parse_fn_sig_t
          dsimp only
          rw [show parse_one_param_t (Token.symbol pn ::
              Token.symbol (':' :: ':' :: []) :: Token.symbol ty ::
              Token.rbracket ::
              (params_tokens ps ++ ret_toks ret ++ Token.rparen :: rest)) =
            ({ name := pn, type_name := some ty }, Token.rbracket ::
              (params_tokens ps ++ ret_toks ret ++ Token.rparen :: rest)) from by
            simp [parse_one_param_t]]
          dsimp only
          rw [ih]
          simp

theorem ast_tokens_cons_shape : ∀ (a : AST), ∃ t ts, ast_tokens a = t :: ts ∧
    t ≠ Token.rparen ∧ t ≠ Token.rbracket
  | AST.number v lit => ⟨_, _, rfl, by simp, by simp⟩
  | AST.symbol s => by
      by_cases h : s = '-' :: '>' :: []
      · exact ⟨Token.arrow, [], by simp [ast_tokens, h], by simp, by simp⟩
      · exact ⟨Token.symbol s, [], by simp [ast_tokens, h], by simp, by simp⟩
  | AST.string s => ⟨_, _, rfl, by simp, by simp⟩
  | AST.char c => ⟨_, _, rfl, by simp, by simp⟩
  | AST.list items => ⟨_, _, rfl, by simp, by simp⟩
  | AST.lambda ps ret doc body =>
      ⟨Token.lparen,
       Token.symbol ("lambda".toList) :: Token.lparen ::
         (params_tokens ps ++ ret_toks ret ++ Token.rparen ::
           (doc_toks doc ++ ast_tokens body ++ [Token.rparen])),
       ast_tokens_lambda_eq ps ret doc body, by simp, by simp⟩

theorem ast_tokens_pos (a : AST) : 1 ≤ (ast_tokens a).length := by
  obtain ⟨t, ts, h, -, -⟩ := ast_tokens_cons_shape a
  simp [h]

theorem ast_tokens_head_not_lparen : ∀ (a : AST),
    (∀ i, a ≠ AST.list i) → (∀ p r d b, a ≠ AST.lambda p r d b) →
    ∀ t ts, ast_tokens a = t :: ts → t ≠ Token.lparen := by
  intro a h1 h2 t ts heq
  cases a with
  | number v lit => simp [ast_tokens] at heq; rw [← heq.1]; simp
  | symbol s =>
      by_cases h : s = '-' :: '>' :: [] <;> simp [ast_tokens, h] at heq <;>
        rw [← heq.1] <;> simp
  | string s => simp [ast_tokens] at heq; rw [← heq.1]; simp
  | char c => simp [ast_tokens] at heq; rw [← heq.1]; simp
  | list items => exact absurd rfl (h1 items)
  | lambda ps ret doc body => exact absurd rfl (h2 ps ret doc body)

theorem ast_tokens_head_not_string : ∀ (a : AST),
    (∀ s, a ≠ AST.string s) →
    ∀ t ts, ast_tokens a = t :: ts → ∀ d, t ≠ Token.string d := by
  intro a h1 t ts heq d
  cases a with
  | number v lit => simp [ast_tokens] at heq; rw [← heq.1]; simp
  | symbol s =>
      by_cases h : s = '-' :: '>' :: [] <;> simp [ast_tokens, h] at heq <;>
        rw [← heq.1] <;> simp
  | string s => exact absurd rfl (h1 s)
  | char c => simp [ast_tokens] at heq; rw [← heq.1]; simp
  | list items => simp [ast_tokens] at heq; rw [← heq.1]; simp
  | lambda ps ret doc body =>
      rw [ast_tokens_lambda_eq] at heq
      simp at heq
      rw [← heq.1]
      simp

theorem params_tokens_len_ge : ∀ (ps : List ASTParam),
    ps.length ≤ (params_tokens ps).length
  | [] => by simp [params_tokens]
  | p :: ps => by
      have := params_tokens_len_ge ps
      rw [show params_tokens (p :: ps) = param_tokens p ++ params_tokens ps
        from rfl]
      obtain ⟨n, t⟩ := p
      cases t <;> simp [param_tokens] <;> omega

theorem rat_eq_num {v : ℚ} (h : v.den = 1) : ((v.num : ℚ)) = v := by
  have := Rat.num_div_den v
  rw [h] at this
  simpa using this

theorem ast_tokens_head_not_symbol : ∀ (a : AST),
    (∀ s, a ≠ AST.symbol s) →
    ∀ t ts, ast_tokens a = t :: ts → ∀ s, t ≠ Token.symbol s := by
  intro a h1 t ts heq s
  cases a with
  | number v lit => simp [ast_tokens] at heq; rw [← heq.1]; simp
  | symbol s' => exact absurd rfl (h1 s')
  | string s' => simp [ast_tokens] at heq; rw [← heq.1]; simp
  | char c => simp [ast_tokens] at heq; rw [← heq.1]; simp
  | list items => simp [ast_tokens] at heq; rw [← heq.1]; simp
  | lambda ps ret doc body =>
      rw [ast_tokens_lambda_eq] at heq
      simp at heq
      rw [← heq.1]
      simp

theorem define_second_facts {a : AST}
    (h : (match a with
          | AST.list _ => false
          | AST.lambda _ _ _ _ => false
          | _ => true) = true) :
    (∀ i, a ≠ AST.list i) ∧ (∀ p r d b, a ≠ AST.lambda p r d b) := by
  cases a <;> simp_all

theorem loop_step (m : Nat) (acc : List AST) (t : Token) (ts : List Token)
    (ht : t ≠ Token.rparen) (item : AST) (r2 : List Token)
    (hp : parse_expr_t m (t :: ts) = Except.ok (item, r2)) :
    parse_list_loop_t (m + 1) acc (t :: ts) =
      parse_list_loop_t m (acc ++ [item]) r2 := by
  have hstep : ∀ (res : Except String (AST × List Token)),
      res = Except.ok (item, r2) →
      (match res with
       | Except.error e => Except.error e
       | Except.ok (it, r) => parse_list_loop_t m (acc ++ [it]) r) =
        parse_list_loop_t m (acc ++ [item]) r2 := by
    rintro _ rfl
    rfl
  cases t <;> first
    | exact absurd rfl ht
    | exact hstep _ hp

theorem parse_list_t_catch (m : Nat) (t : Token) (ts : List Token)
    (ht : ∀ s, t ≠ Token.symbol s) :
    parse_list_t (m + 1) (t :: ts) = parse_list_loop_t m [] (t :: ts) := by
  cases t <;> first | (exact absurd rfl (ht _)) | rfl

theorem parse_list_t_symbol_eq (m : Nat) (s : List Char) (ts : List Token) :
    parse_list_t (m + 1) (Token.symbol s :: ts) =
      (if s = "lambda".toList then
        (match parse_lambda_t m ts with
         | Except.error e => Except.error e
         | Except.ok (lam, r2) =>
             match r2 with
             | Token.rparen :: r3 => Except.ok (lam, r3)
             | _ => Except.error "Expected ')' after lambda body")
      else if s = "define".toList then
        (match ts with
         | Token.lparen :: r2 =>
             (match r2 with
              | Token.symbol fname :: r3 =>
                  (match parse_fn_sig_t m [] none r3 with
                   | Except.error e => Except.error e
                   | Except.ok ((params, ret), r4) =>
                       let (doc, r5) :=
                         match r4 with
                         | Token.string d :: r4' => (some d, r4')
                         | r4 => (none, r4)
                       match parse_expr_t m r5 with
                       | Except.error e => Except.error e
                       | Except.ok (body, r6) =>
                           match r6 with
                           | Token.rparen :: r7 =>
                               Except.ok (AST.list
                                 [AST.symbol ('d' :: 'e' :: 'f' :: 'i' :: 'n' :: 'e' :: []),
                                  AST.symbol fname,
                                  AST.lambda params ret doc body], r7)
                           | _ => Except.error "Expected ')' after define body")
              | _ => Except.error "Expected function name after (define (")
         | rest =>
             parse_list_loop_t m
               [AST.symbol ('d' :: 'e' :: 'f' :: 'i' :: 'n' :: 'e' :: [])] rest)
      else parse_list_loop_t m [] (Token.symbol s :: ts)) := rfl

theorem doc_split_string (d : List Char) (r : List Token) :
    doc_split (Token.string d :: r) = (some d, r) := rfl

theorem doc_split_skip (t : Token) (r : List Token)
    (ht : ∀ d, t ≠ Token.string d) : doc_split (t :: r) = (none, t :: r) := by
  cases t <;> first | exact absurd rfl (ht _) | rfl

theorem parse_lambda_t_eq (m : Nat) (ts : List Token) :
    parse_lambda_t (m + 1) (Token.lparen :: ts) =
      (match parse_fn_sig_t m [] none ts with
       | Except.error e => Except.error e
       | Except.ok ((params, ret), r2) =>
           match parse_expr_t m (doc_split r2).2 with
           | Except.error e => Except.error e
           | Except.ok (body, r4) =>
               Except.ok (AST.lambda params ret (doc_split r2).1 body, r4)) := rfl

mutual

theorem parse_print : ∀ (a : AST), good_ast a = true →
    ∀ (rest : List Token) (n : Nat), 2 * (ast_tokens a).length + 1 ≤ n →
    parse_expr_t n (ast_tokens a ++ rest) = Except.ok (a, rest)
  | AST.number v lit, h, rest, n, hn => by
      obtain ⟨m, rfl⟩ : ∃ m, n = m + 1 := ⟨n - 1, by omega⟩
      simp [good_ast] at h
      obtain ⟨⟨hden, hlt⟩, hlit⟩ := h
      have hg : g_format v = int_to_dec v.num := by
        unfold g_format
        rw [if_pos ⟨hden, hlt⟩]
      have hval : parse_number_str (g_format v) = v := by
        rw [hg, parse_number_str_int, rat_eq_num hden]
      show parse_expr_t (m + 1) (Token.number (g_format v) :: rest) = _
      unfold parse_expr_t
      dsimp only
      rw [hval, hg, ← hlit]
  | AST.symbol s, h, rest, n, hn => by
      obtain ⟨m, rfl⟩ : ∃ m, n = m + 1 := ⟨n - 1, by omega⟩
      by_cases harr : s = '-' :: '>' :: []
      · subst harr
        show parse_expr_t (m + 1) (Token.arrow :: rest) = _
        rfl
      · show parse_expr_t (m + 1)
          ((if s = '-' :: '>' :: [] then [Token.arrow]
            else [Token.symbol s]) ++ rest) = _
        rw [if_neg harr]
        rfl
  | AST.string s, h, rest, n, hn => by
      obtain ⟨m, rfl⟩ : ∃ m, n = m + 1 := ⟨n - 1, by omega⟩
      rfl
  | AST.char c, h, rest, n, hn => by
      obtain ⟨m, rfl⟩ : ∃ m, n = m + 1 := ⟨n - 1, by omega⟩
      rfl
  | AST.list items, h, rest, n, hn => by
      simp [good_ast] at h
      obtain ⟨hgl, hspec⟩ := h
      have hL : (ast_tokens (AST.list items)).length =
          2 + (ast_tokens_list items).length := by
        simp [ast_tokens]
        omega
      obtain ⟨m, rfl⟩ : ∃ m, n = m + 1 := ⟨n - 1, by omega⟩
      obtain ⟨m', rfl⟩ : ∃ k, m = k + 1 := ⟨m - 1, by rw [hL] at hn; omega⟩
      have hred : parse_expr_t (m' + 1 + 1)
          (ast_tokens (AST.list items) ++ rest) =
          parse_list_t (m' + 1)
            (ast_tokens_list items ++ Token.rparen :: rest) := by
        show parse_expr_t (m' + 1 + 1)
          (Token.lparen :: (ast_tokens_list items ++ [Token.rparen]) ++ rest) = _
        rw [show (Token.lparen :: (ast_tokens_list items ++ [Token.rparen])) ++ rest
          = Token.lparen :: (ast_tokens_list items ++ Token.rparen :: rest) from by
          simp]
        rfl
      rw [hred]
      rw [hL] at hn
      cases items with
      | nil =>
          rw [show ast_tokens_list ([] : List AST) ++ Token.rparen :: rest =
            Token.rparen :: rest from by simp [ast_tokens_list]]
          rw [parse_list_t_catch m' Token.rparen rest (by simp)]
          have := parse_print_loop [] (by simp [good_ast_list]) [] rest m'
            (by simp [ast_tokens_list]; omega)
          simpa [ast_tokens_list] using this
      | cons x xs =>
          by_cases hsym : ∃ s, x = AST.symbol s
          · obtain ⟨s, rfl⟩ := hsym
            by_cases harr : s = '-' :: '>' :: []
            · rw [show ast_tokens_list (AST.symbol s :: xs) ++ Token.rparen :: rest =
                Token.arrow :: (ast_tokens_list xs ++ Token.rparen :: rest) from by
                simp [ast_tokens_list, ast_tokens, harr]]
              rw [parse_list_t_catch m' Token.arrow _ (by simp)]
              have := parse_print_loop (AST.symbol s :: xs) hgl [] rest m'
                (by
                  simp [ast_tokens_list, ast_tokens, harr] at hn ⊢
                  omega)
              rw [show ast_tokens_list (AST.symbol s :: xs) ++ Token.rparen :: rest =
                Token.arrow :: (ast_tokens_list xs ++ Token.rparen :: rest) from by
                simp [ast_tokens_list, ast_tokens, harr]] at this
              simpa using this
            · rw [show ast_tokens_list (AST.symbol s :: xs) ++ Token.rparen :: rest =
                Token.symbol s :: (ast_tokens_list xs ++ Token.rparen :: rest) from by
                simp [ast_tokens_list, ast_tokens, harr]]
              have hnl : ¬(s = "lambda".toList) := by
                intro he
                rw [he] at hspec
                simp at hspec
              rw [parse_list_t_symbol_eq]
              rw [if_neg hnl]
              by_cases hdef : s = "define".toList
              · rw [if_pos hdef]
                cases xs with
                | nil =>
                    rw [show ast_tokens_list ([] : List AST) ++ Token.rparen :: rest =
                      Token.rparen :: rest from by simp [ast_tokens_list]]
                    dsimp only
                    have := parse_print_loop [] (by simp [good_ast_list])
                      [AST.symbol ('d' :: 'e' :: 'f' :: 'i' :: 'n' :: 'e' :: [])]
                      rest m' (by simp [ast_tokens_list]; omega)
                    simp [ast_tokens_list] at this
                    rw [this]
                    rw [hdef]
                    rfl
                | cons second xs' =>
                    have hgsecond : good_ast_list (second :: xs') = true := by
                      simp [good_ast_list] at hgl ⊢
                      exact ⟨hgl.2.1, hgl.2.2⟩
                    have hsecond := define_second_facts (by
                      rw [hdef] at hspec
                      simpa using hspec)
                    obtain ⟨t2, ts2, hts2, htrp, -⟩ := ast_tokens_cons_shape second
                    have htnl := ast_tokens_head_not_lparen second
                      hsecond.1 hsecond.2 t2 ts2 hts2
                    have hshape : ast_tokens_list (second :: xs') ++
                        Token.rparen :: rest =
                        t2 :: (ts2 ++ (ast_tokens_list xs' ++ Token.rparen :: rest)) := by
                      rw [show ast_tokens_list (second :: xs') =
                        ast_tokens second ++ ast_tokens_list xs' from rfl, hts2]
                      simp
                    rw [hshape]
                    have hloop := parse_print_loop (second :: xs') hgsecond
                      [AST.symbol ('d' :: 'e' :: 'f' :: 'i' :: 'n' :: 'e' :: [])]
                      rest m'
                      (by
                        simp [ast_tokens_list, ast_tokens] at hn ⊢
                        omega)
                    rw [hshape] at hloop
                    have hfin : (AST.symbol ('d' :: 'e' :: 'f' :: 'i' :: 'n' :: 'e' :: []) ::
                        second :: xs' : List AST) = AST.symbol s :: second :: xs' := by
                      rw [hdef]
                      rfl
                    rw [← hfin]
                    cases t2 <;>
                      first
                        | exact absurd rfl htrp
                        | exact absurd rfl htnl
                        | (dsimp only; exact hloop)
              · rw [if_neg hdef]
                have := parse_print_loop (AST.symbol s :: xs) hgl [] rest m'
                  (by
                    simp [ast_tokens_list, ast_tokens, harr] at hn ⊢
                    omega)
                rw [show ast_tokens_list (AST.symbol s :: xs) ++ Token.rparen :: rest =
                  Token.symbol s :: (ast_tokens_list xs ++ Token.rparen :: rest) from by
                  simp [ast_tokens_list, ast_tokens, harr]] at this
                simpa using this
          · have hns : ∀ s, x ≠ AST.symbol s := by
              push_neg at hsym
              exact hsym
            obtain ⟨t, ts', hts, -, -⟩ := ast_tokens_cons_shape x
            have htnsym := ast_tokens_head_not_symbol x hns t ts' hts
            have hshape : ast_tokens_list (x :: xs) ++ Token.rparen :: rest =
                t :: (ts' ++ (ast_tokens_list xs ++ Token.rparen :: rest)) := by
              rw [show ast_tokens_list (x :: xs) =
                ast_tokens x ++ ast_tokens_list xs from rfl, hts]
              simp
            rw [hshape]
            rw [parse_list_t_catch m' t _ htnsym]
            have := parse_print_loop (x :: xs) (by
              simp [good_ast_list] at hgl ⊢
              exact ⟨hgl.1, hgl.2⟩) [] rest m'
              (by
                simp [ast_tokens_list] at hn ⊢
                omega)
            rw [hshape] at this
            simpa using this
  | AST.lambda ps ret doc body, h, rest, n, hn => by
      simp [good_ast] at h
      obtain ⟨⟨⟨hgp, hgr0⟩, hgd0⟩, hgb⟩ := h
      have hPlen := params_tokens_len_ge ps
      have hBpos := ast_tokens_pos body
      have hL : (ast_tokens (AST.lambda ps ret doc body)).length =
          5 + (params_tokens ps).length + (ret_toks ret).length +
            (doc_toks doc).length + (ast_tokens body).length := by
        rw [ast_tokens_lambda_eq]
        simp [List.length_append]
        omega
      obtain ⟨m, rfl⟩ : ∃ m, n = m + 1 := ⟨n - 1, by rw [hL] at hn; omega⟩
      obtain ⟨m1, rfl⟩ : ∃ k, m = k + 1 := ⟨m - 1, by rw [hL] at hn; omega⟩
      obtain ⟨m2, rfl⟩ : ∃ k, m1 = k + 1 := ⟨m1 - 1, by rw [hL] at hn; omega⟩
      rw [hL] at hn
      rw [ast_tokens_lambda_eq]
      rw [show (Token.lparen :: Token.symbol ("lambda".toList) :: Token.lparen ::
          (params_tokens ps ++ ret_toks ret ++ Token.rparen ::
            (doc_toks doc ++ ast_tokens body ++ [Token.rparen]))) ++ rest =
        Token.lparen :: Token.symbol ("lambda".toList) :: Token.lparen ::
          (params_tokens ps ++ ret_toks ret ++ Token.rparen ::
            (doc_toks doc ++ (ast_tokens body ++ Token.rparen :: rest))) from by
        simp [List.append_assoc]]
      have hred : parse_expr_t (m2 + 1 + 1 + 1)
          (Token.lparen :: Token.symbol ("lambda".toList) :: Token.lparen ::
            (params_tokens ps ++ ret_toks ret ++ Token.rparen ::
              (doc_toks doc ++ (ast_tokens body ++ Token.rparen :: rest)))) =
          parse_list_t (m2 + 1 + 1)
            (Token.symbol ("lambda".toList) :: Token.lparen ::
              (params_tokens ps ++ ret_toks ret ++ Token.rparen ::
                (doc_toks doc ++ (ast_tokens body ++ Token.rparen :: rest)))) := rfl
      rw [hred]
      rw [parse_list_t_symbol_eq]
      rw [if_pos rfl]
      rw [parse_lambda_t_eq]
      rw [show params_tokens ps ++ ret_toks ret ++ Token.rparen ::
          (doc_toks doc ++ (ast_tokens body ++ Token.rparen :: rest)) =
        params_tokens ps ++ ret_toks ret ++ Token.rparen ::
          (doc_toks doc ++ (ast_tokens body ++ Token.rparen :: rest)) from rfl]
      rw [parse_sig ps [] ret
        (doc_toks doc ++ (ast_tokens body ++ Token.rparen :: rest)) m2
        hgp (by omega)]
      dsimp only
      have hbody := parse_print body hgb (Token.rparen :: rest) m2 (by omega)
      cases doc with
      | some d =>
          rw [show doc_toks (some d) ++ (ast_tokens body ++ Token.rparen :: rest) =
            Token.string d :: (ast_tokens body ++ Token.rparen :: rest) from rfl]
          rw [doc_split_string]
          dsimp only
          rw [hbody]
          simp
      | none =>
          rw [show doc_toks none ++ (ast_tokens body ++ Token.rparen :: rest) =
            ast_tokens body ++ Token.rparen :: rest from by simp [doc_toks]]
          have hbns : ∀ s, body ≠ AST.string s := by
            intro s he
            subst he
            simp at hgd0
          obtain ⟨tb, tsb, htsb, -, -⟩ := ast_tokens_cons_shape body
          have htbns := ast_tokens_head_not_string body hbns tb tsb htsb
          rw [htsb]
          rw [htsb] at hbody
          simp only [List.cons_append] at hbody ⊢
          rw [doc_split_skip tb _ htbns]
          dsimp only
          rw [hbody]
          simp

theorem parse_print_loop : ∀ (items : List AST), good_ast_list items = true →
    ∀ (acc : List AST) (rest : List Token) (n : Nat),
    2 * (ast_tokens_list items).length + 2 ≤ n →
    parse_list_loop_t n acc (ast_tokens_list items ++ Token.rparen :: rest) =
      Except.ok (AST.list (acc ++ items), rest)
  | [], _, acc, rest, n, hn => by
      obtain ⟨m, rfl⟩ : ∃ m, n = m + 1 := ⟨n - 1, by omega⟩
      rw [show ast_tokens_list ([] : List AST) ++ Token.rparen :: rest =
        Token.rparen :: rest from by simp [ast_tokens_list]]
      show parse_list_loop_t (m + 1) acc (Token.rparen :: rest) = _
      simp
      rfl
  | x :: xs, h, acc, rest, n, hn => by
      have hgx : good_ast x = true := by
        simp [good_ast_list] at h
        exact h.1
      have hgl : good_ast_list xs = true := by
        simp [good_ast_list] at h
        exact h.2
      have hxpos := ast_tokens_pos x
      obtain ⟨m, rfl⟩ : ∃ m, n = m + 1 := ⟨n - 1, by omega⟩
      obtain ⟨t, ts', hts, htrp, -⟩ := ast_tokens_cons_shape x
      have hitem := parse_print x hgx (ast_tokens_list xs ++ Token.rparen :: rest) m
        (by
          simp [ast_tokens_list] at hn ⊢
          omega)
      have hshape : ast_tokens_list (x :: xs) ++ Token.rparen :: rest =
          t :: (ts' ++ (ast_tokens_list xs ++ Token.rparen :: rest)) := by
        rw [show ast_tokens_list (x :: xs) =
          ast_tokens x ++ ast_tokens_list xs from rfl, hts]
        simp
      rw [hshape]
      rw [loop_step m acc t _ htrp x (ast_tokens_list xs ++ Token.rparen :: rest)
        (by
          have : ast_tokens x ++ (ast_tokens_list xs ++ Token.rparen :: rest) =
              t :: (ts' ++ (ast_tokens_list xs ++ Token.rparen :: rest)) := by
            rw [hts]
            simp
          rw [← this]
          exact hitem)]
      have := parse_print_loop xs hgl (acc ++ [x]) rest m
        (by
          simp [ast_tokens_list] at hn ⊢
          omega)
      simpa using this

end

theorem parse_one_print (a : AST) (h : good_ast a = true) :
    parse_one (ast_print a) = Except.ok a := by
  unfold parse_one
  rw [tokenize_print a h]
  dsimp only
  have hp := parse_print a h [] (2 * (ast_tokens a).length + 2) (by omega)
  rw [List.append_nil] at hp
  rw [hp]

/-- C8 counterexample.  The spec claims re-parsing `ast_print` output
yields a structurally equal AST for every accepted program, but
`ast_print` renders numbers from their value (`%g`), not their stored
lexeme: the accepted program `(show 0xFF)` parses to a number node with
literal `0xFF`, prints as `(show 255)`, and re-parses to a node whose
literal is `255` — a structurally different AST (the literal drives
base-kind inference, so this is observable in the mixing check). -/
theorem ast_print_reparse_literal_lost :
    parse_one ("(show 0xFF)".toList) =
      Except.ok (AST.list [AST.symbol ("show".toList),
        AST.number 255 (some ("0xFF".toList))]) ∧
    ast_print (AST.list [AST.symbol ("show".toList),
        AST.number 255 (some ("0xFF".toList))]) = "(show 255)".toList ∧
    parse_one ("(show 255)".toList) =
      Except.ok (AST.list [AST.symbol ("show".toList),
        AST.number 255 (some ("255".toList))]) ∧
    (some ("255".toList) : Option (List Char)) ≠ some ("0xFF".toList) :=
  ⟨rfl, rfl, rfl, by decide⟩

/-- C8 (amended).  Printing with `ast_print` and re-parsing is the
identity on the well-behaved AST subclass `good_ast`: canonical decimal
integer literals, symbols that lex back as one token, string payloads
without unescaped quotes, chars outside the escape set, no
`lambda`-headed lists, no `define` whose second item re-parses through
the short-form grammar, and lambdas whose docstring is present whenever
the body is a string.  Outside this subclass the round trip can change
the AST (see the counterexample). -/
theorem ast_print_parse_roundtrip (a : AST) (h : good_ast a = true) :
    parse_one (ast_print a) = Except.ok a :=
  parse_one_print a h

/-- Witness for `ast_print_parse_roundtrip` at a define-bound lambda
with a typed parameter, return type, docstring, and a body containing a
number, a string and a char literal. -/
theorem ast_print_parse_roundtrip_witness :
    good_ast (AST.list [AST.symbol ('d' :: 'e' :: 'f' :: 'i' :: 'n' :: 'e' :: []),
      AST.symbol ('f' :: []),
      AST.lambda [⟨'x' :: [], some ('I' :: 'n' :: 't' :: [])⟩]
        (some ('I' :: 'n' :: 't' :: [])) (some ('d' :: 'o' :: 'c' :: []))
        (AST.list [AST.symbol ('+' :: []), AST.symbol ('x' :: []),
          AST.number 42 (some ('4' :: '2' :: [])),
          AST.string ('h' :: 'i' :: []), AST.char 'z'])]) = true ∧
    parse_one (ast_print (AST.list
      [AST.symbol ('d' :: 'e' :: 'f' :: 'i' :: 'n' :: 'e' :: []),
       AST.symbol ('f' :: []),
       AST.lambda [⟨'x' :: [], some ('I' :: 'n' :: 't' :: [])⟩]
         (some ('I' :: 'n' :: 't' :: [])) (some ('d' :: 'o' :: 'c' :: []))
         (AST.list [AST.symbol ('+' :: []), AST.symbol ('x' :: []),
           AST.number 42 (some ('4' :: '2' :: [])),
           AST.string ('h' :: 'i' :: []), AST.char 'z'])])) =
      Except.ok (AST.list
        [AST.symbol ('d' :: 'e' :: 'f' :: 'i' :: 'n' :: 'e' :: []),
         AST.symbol ('f' :: []),
         AST.lambda [⟨'x' :: [], some ('I' :: 'n' :: 't' :: [])⟩]
           (some ('I' :: 'n' :: 't' :: [])) (some ('d' :: 'o' :: 'c' :: []))
           (AST.list [AST.symbol ('+' :: []), AST.symbol ('x' :: []),
             AST.number 42 (some ('4' :: '2' :: [])),
             AST.string ('h' :: 'i' :: []), AST.char 'z'])]) :=
  ⟨rfl, ast_print_parse_roundtrip _ rfl⟩

end Monadc
